import Mathlib

/-!
# slog-pretty: the log-line formatter `pretty` and its nested-map renderer `processMap`

A shallow embedding of `src/pretty.go`.

* A Go `string` (and a `[]byte`) is an immutable sequence of bytes: `GoString`.
* A decoded JSON value (`interface{}` as filled in by `encoding/json`) is `Value`.
* A Go `map[string]interface{}` is a list of key/value pairs: the list order is the order in
  which one `range` statement visits the map.
* The two standard-library calls whose result depends on the input bytes
  (`json.Unmarshal`, `time.Parse`) are the fields of `Lib`; the theorems hold for every `Lib`.
* `fmt.Sprintf` with `%s` operands is concatenation; `fmtS` is what `%s` prints for a
  dynamically typed operand.
-/

namespace SlogPretty

/-! ## Strings -/

/-- A Go `string` / `[]byte`: a sequence of bytes. -/
abbrev GoString := List UInt8

/-- A Go string literal: the UTF-8 bytes of the text. -/
def str (s : String) : GoString := s.data.flatMap String.utf8EncodeChar

/-- Go `strings.Repeat(" ", n)`. -/
def spaces (n : Nat) : GoString := List.replicate n 32

/-! ## Decoded JSON values -/

/-- The dynamic values `encoding/json` stores in an `interface{}`:
`string`, `float64`, `bool`, `nil`, `[]interface{}` and `map[string]interface{}`.
A `float64` is represented by the text `%v` prints for it (for 42 the text `42`), which is all
that `pretty` reads of it; `float64Text` computes that text from a number literal. A map is the
list of its entries in iteration order. -/
inductive Value where
  | string (s : GoString)
  | float64 (v : GoString)
  | bool (b : Bool)
  | nil
  | slice (xs : List Value)
  | map (m : List (GoString × Value))

/-- A Go `map[string]interface{}`, as the sequence of entries one `range` over it yields. -/
abbrev GoMap := List (GoString × Value)

/-- Byte-wise lexicographic `<` on Go strings (the order `fmt` sorts map keys in). -/
def strLt : GoString → GoString → Bool
  | [], [] => false
  | [], _ :: _ => true
  | _ :: _, [] => false
  | a :: as, b :: bs => if a < b then true else if b < a then false else strLt as bs

/-- Insertion of one entry into a key-sorted entry list. -/
def insertSorted (e : GoString × Value) : GoMap → GoMap
  | [] => [e]
  | f :: rest => if strLt f.1 e.1 then f :: insertSorted e rest else e :: f :: rest

/-- Package `internal/fmtsort`: the entries of a map sorted by key. -/
def sortKeys : GoMap → GoMap
  | [] => []
  | e :: rest => insertSorted e (sortKeys rest)

mutual
/-- Package `fmt`, `printValue(v, 's', depth)` with `depth > 0`: an element of a slice or map
printed under the verb `%s`. A string prints as itself, a nil interface as `<nil>`; `float64`
and `bool` have no `%s` form and print as `%!s(type=value)`. -/
def fmtElem : Value → GoString
  | .string s => s
  | .float64 v => str "%!s(float64=" ++ v ++ str ")"
  | .bool b => str "%!s(bool=" ++ (if b then str "true" else str "false") ++ str ")"
  | .nil => str "<nil>"
  | .slice xs => str "[" ++ fmtElems xs ++ str "]"
  | .map m => str "map[" ++ fmtEntries m ++ str "]"
/-- The elements of a slice, separated by one space. -/
def fmtElems : List Value → GoString
  | [] => []
  | [x] => fmtElem x
  | x :: y :: rest => fmtElem x ++ str " " ++ fmtElems (y :: rest)
/-- The entries `key:value` of a map, separated by one space (callers pass them sorted). -/
def fmtEntries : List (GoString × Value) → GoString
  | [] => []
  | [(k, v)] => k ++ str ":" ++ fmtElem v
  | (k, v) :: y :: rest => k ++ str ":" ++ fmtElem v ++ str " " ++ fmtEntries (y :: rest)
end

mutual
/-- A value with the entries of every map inside it put in `fmt` key order. -/
def sortValue : Value → Value
  | .map m => .map (sortKeys (sortEntries m))
  | .slice xs => .slice (sortValues xs)
  | v => v
/-- Every value of an entry list normalised by `sortValue`. -/
def sortEntries : List (GoString × Value) → List (GoString × Value)
  | [] => []
  | (k, v) :: rest => (k, sortValue v) :: sortEntries rest
/-- Every element of a slice normalised by `sortValue`. -/
def sortValues : List Value → List Value
  | [] => []
  | v :: rest => sortValue v :: sortValues rest
end

/-- Package `fmt`: what the verb `%s` prints for an `interface{}` operand (`printArg(v, 's')`).
A string is copied verbatim; a nil interface prints `%!s(<nil>)`; a `float64` or `bool` prints the
bad-verb form `%!s(type=value)`; a slice prints its elements between brackets; a map (reachable
only inside a slice: the callers test for maps first) prints `map[k:v ...]` in key order. -/
def fmtS : Value → GoString
  | .nil => str "%!s(<nil>)"
  | v => fmtElem (sortValue v)

/-! ## Time -/

/-- What `Format("15:04:05.000")` reads of a Go `time.Time`: the clock reading in the time's own
location (`t.Clock()`) and `t.Nanosecond()`. -/
structure Time where
  hour : Nat
  minute : Nat
  second : Nat
  nanosecond : Nat
deriving DecidableEq

/-- Package `time`, `appendInt(b, x, width)` for `x ≥ 0`: decimal digits, zero-padded on the left
to `width`. -/
def appendInt (x width : Nat) : GoString :=
  let ds : GoString := (Nat.toDigits 10 x).map (fun c => c.toNat.toUInt8)
  List.replicate (width - ds.length) 48 ++ ds

/-- Go `t.Format("15:04:05.000")`: 24-hour clock, two digits each, then `.` and the first three
of the nine digits of the nanosecond field. -/
def Time.format (t : Time) : GoString :=
  appendInt t.hour 2 ++ str ":" ++ appendInt t.minute 2 ++ str ":" ++ appendInt t.second 2 ++
    str "." ++ (appendInt t.nanosecond 9).take 3

/-! ## The standard-library calls that read the input -/

/-- The two library calls of `pretty` whose result depends on the input bytes.

* `unmarshal input` is `json.Unmarshal(input, &logData)` for `logData map[string]interface{}`:
  `none` when it returns an error, otherwise the map it leaves in `logData` (entries in the order
  the later `range` visits them; a nil map is the empty list).
* `timeParse s` is `time.Parse(time.RFC3339, s)`: `none` when it returns an error. The empty
  string is never a timestamp. -/
structure Lib where
  unmarshal : GoString → Option GoMap
  timeParse : GoString → Option Time
  timeParse_empty : timeParse [] = none

/-! ## pretty.go -/

def initialIndent : Nat := 4

def indentIncrement : Nat := 2

/-- Source `prettyOptions`; the default value of each field is Go's zero value. -/
structure prettyOptions where
  Colorize : Bool := false
  LevelFirst : Bool := false
  TimeKey : GoString := []
  MessageKey : GoString := []
  LevelKey : GoString := []
deriving DecidableEq

/-- Go `v, _ := m[key].(string)`: the string stored under `key`, or the zero value `""` when the
key is absent or holds a value of another type. -/
def stringAt (m : GoMap) (key : GoString) : GoString :=
  match m.lookup key with
  | some (.string s) => s
  | _ => []

/-- Source `colorize`. -/
def colorize (lvl msg : GoString) : GoString × GoString :=
  (str "\u001B[32m" ++ lvl ++ str "\u001B[39m", str "\u001B[36m" ++ msg ++ str "\u001B[39m")

mutual
/-- Source `processMap`: `b` is the content of the builder on entry, the result its content on
return. The entries are visited in order; `processMapEntry` is the body of the loop. -/
def processMap (b : GoString) : GoMap → Nat → GoString
  | [], _ => b
  | (key, value) :: rest, currentIndent =>
    processMap (processMapEntry b key value currentIndent) rest currentIndent
/-- The body of the loop `for key, value := range m` of `processMap` (lines 98-104), with
`indentation := strings.Repeat(" ", currentIndent)`. -/
def processMapEntry (b : GoString) (key : GoString) : Value → Nat → GoString
  | .map m, currentIndent =>
    let indentation := spaces currentIndent
    let b1 := b ++ (indentation ++ str "\"" ++ key ++ str "\": \x7b\n")
    let b2 := processMap b1 m (currentIndent + indentIncrement)
    b2 ++ (indentation ++ str "\x7d\n")
  | value, currentIndent =>
    let indentation := spaces currentIndent
    b ++ (indentation ++ str "\"" ++ key ++ str "\": \"" ++ fmtS value ++ str "\"\n")
end

/-- The loop `for key, value := range logData` of `pretty` (lines 67-81): `builder` is the content
of the builder before the remaining entries are visited, the result its content after the loop. -/
def prettyLoop (timeKey levelKey msgKey : GoString) (builder : GoString) : GoMap → GoString
  | [] => builder
  | (key, value) :: rest =>
    if key = timeKey ∨ key = levelKey ∨ key = msgKey then
      prettyLoop timeKey levelKey msgKey builder rest
    else
      let currentIndent := initialIndent
      let indentation := spaces currentIndent
      match value with
      | .map m =>
        let b1 := builder ++ (indentation ++ key ++ str ": \x7b\n")
        let b2 := processMap b1 m (currentIndent + indentIncrement)
        let b3 := b2 ++ (indentation ++ str "\x7d\n")
        prettyLoop timeKey levelKey msgKey b3 rest
      | _ =>
        let b1 := builder ++ (indentation ++ key ++ str ": \"" ++ fmtS value ++ str "\"\n")
        prettyLoop timeKey levelKey msgKey b1 rest

/-- Source `pretty`. A nil `options` pointer is `none`. -/
def pretty (lib : Lib) (input : GoString) (options : Option prettyOptions) : GoString :=
  let options : prettyOptions := match options with
    | none => {}
    | some o => o
  let timeKey := if options.TimeKey ≠ [] then options.TimeKey else str "time"
  let levelKey := if options.LevelKey ≠ [] then options.LevelKey else str "level"
  let msgKey := if options.MessageKey ≠ [] then options.MessageKey else str "msg"
  match lib.unmarshal input with
  | none => input ++ str "\n"
  | some logData =>
    let timeStr := stringAt logData timeKey
    let timestamp : GoString :=
      match lib.timeParse timeStr with
      | some parsedTime =>
        let t := str "[" ++ parsedTime.format ++ str "]"
        if options.LevelFirst then str " " ++ t else t ++ str " "
      | none => []
    let level := stringAt logData levelKey
    let msg := stringAt logData msgKey
    let lm := if options.Colorize then colorize level msg else (level, msg)
    let builder := prettyLoop timeKey levelKey msgKey [] logData
    if options.LevelFirst then
      lm.1 ++ timestamp ++ str ": " ++ lm.2 ++ str "\n" ++ builder
    else
      timestamp ++ lm.1 ++ str ": " ++ lm.2 ++ str "\n" ++ builder

/-! ## A model of the Go standard library

The theorems below hold for every `Lib`. `goLib` is the instance used to run `pretty` on concrete
input bytes: `jsonUnmarshal` follows `encoding/json` and `timeParseRFC3339` follows package
`time`. -/

/-- Package `encoding/json`, `isSpace`: space, tab, carriage return, line feed. -/
def isSpace (c : UInt8) : Bool := c = 32 || c = 9 || c = 13 || c = 10

/-- The input without its leading JSON white space. -/
def skipSpace : GoString → GoString
  | [] => []
  | c :: rest => if isSpace c then skipSpace rest else c :: rest

/-- An ASCII decimal digit. -/
def isDigit (c : UInt8) : Bool := 48 ≤ c && c ≤ 57

/-- The value of a hexadecimal digit. -/
def hexVal (c : UInt8) : Option Nat :=
  if 48 ≤ c && c ≤ 57 then some (c.toNat - 48)
  else if 97 ≤ c && c ≤ 102 then some (c.toNat - 87)
  else if 65 ≤ c && c ≤ 70 then some (c.toNat - 55)
  else none

/-- Four hexadecimal digits at the head of the input, as a number. -/
def hex4 : GoString → Option (Nat × GoString)
  | a :: b :: c :: d :: rest =>
    match hexVal a, hexVal b, hexVal c, hexVal d with
    | some x, some y, some z, some w => some (((x * 16 + y) * 16 + z) * 16 + w, rest)
    | _, _, _, _ => none
  | _ => none

/-- Package `unicode/utf8`, `EncodeRune` for a Unicode scalar value. -/
def encodeRune (r : Nat) : GoString := String.utf8EncodeChar (Char.ofNat r)

/-- A UTF-8 continuation byte. -/
def isCont (c : UInt8) : Bool := 128 ≤ c && c ≤ 191

/-- Package `unicode/utf8`, `DecodeRune` on a head byte `c ≥ 0x80`: the length of the well-formed
sequence that starts the input, or `none` when there is none (the caller then consumes one byte
and writes U+FFFD). -/
def utf8Len (c : UInt8) (rest : GoString) : Option Nat :=
  match rest with
  | c1 :: rest1 =>
    if 194 ≤ c && c ≤ 223 then (if isCont c1 then some 2 else none)
    else
      match rest1 with
      | c2 :: rest2 =>
        let lo : UInt8 := if c = 224 then 160 else if c = 240 then 144 else 128
        let hi : UInt8 := if c = 237 then 159 else if c = 244 then 143 else 191
        if 224 ≤ c && c ≤ 239 then
          (if lo ≤ c1 && c1 ≤ hi && isCont c2 then some 3 else none)
        else if 240 ≤ c && c ≤ 244 then
          match rest2 with
          | c3 :: _ => if lo ≤ c1 && c1 ≤ hi && isCont c2 && isCont c3 then some 4 else none
          | [] => none
        else none
      | [] => none
  | [] => none

/-- Package `encoding/json`, the scanner's string state together with `unquote`: the input just
after an opening quote; the decoded bytes up to the closing quote and the input after it.
Control characters and malformed escapes are errors; ill-formed UTF-8 and unpaired surrogate
escapes become U+FFFD. -/
def unquote : Nat → GoString → Option (GoString × GoString)
  | 0, _ => none
  | _ + 1, [] => none
  | fuel + 1, c :: rest =>
    let emit (bs : GoString) (r : GoString) : Option (GoString × GoString) :=
      (unquote fuel r).map (fun p => (bs ++ p.1, p.2))
    if c = 34 then some ([], rest)
    else if c < 32 then none
    else if c = 92 then
      match rest with
      | [] => none
      | e :: rest1 =>
        if e = 34 ∨ e = 92 ∨ e = 47 then emit [e] rest1
        else if e = 98 then emit [8] rest1
        else if e = 102 then emit [12] rest1
        else if e = 110 then emit [10] rest1
        else if e = 114 then emit [13] rest1
        else if e = 116 then emit [9] rest1
        else if e = 117 then
          match hex4 rest1 with
          | none => none
          | some (rr, rest2) =>
            if 0xD800 ≤ rr ∧ rr < 0xE000 then
              match rest2 with
              | 92 :: 117 :: rest3 =>
                match hex4 rest3 with
                | some (rr1, rest4) =>
                  if rr < 0xDC00 ∧ 0xDC00 ≤ rr1 ∧ rr1 < 0xE000 then
                    emit (encodeRune ((rr - 0xD800) * 1024 + (rr1 - 0xDC00) + 0x10000)) rest4
                  else emit (encodeRune 0xFFFD) rest2
                | none => emit (encodeRune 0xFFFD) rest2
              | _ => emit (encodeRune 0xFFFD) rest2
            else emit (encodeRune rr) rest2
        else none
    else if c < 128 then emit [c] rest
    else
      match utf8Len c rest with
      | some n => emit (c :: rest.take (n - 1)) (rest.drop (n - 1))
      | none => emit (encodeRune 0xFFFD) rest

/-- The longest prefix of decimal digits, and the rest. -/
def spanDigits : GoString → GoString × GoString
  | [] => ([], [])
  | c :: rest =>
    if isDigit c then ((spanDigits rest).1.cons c, (spanDigits rest).2) else ([], c :: rest)

/-- A JSON number literal split into its parts. -/
structure NumberLit where
  neg : Bool
  int : GoString
  frac : GoString
  expNeg : Bool
  exp : GoString

/-- Package `encoding/json`, the scanner's number states: the number literal that starts the
input (`-? (0 | [1-9][0-9]*) (. [0-9]+)? ([eE] [+-]? [0-9]+)?`) and the input after it. -/
def scanNumber (s : GoString) : Option (NumberLit × GoString) :=
  let neg := s.head? = some 45
  let s1 := if neg then s.drop 1 else s
  let (int, s2) := spanDigits s1
  if int = [] ∨ (int.head? = some 48 ∧ int.length ≠ 1) then none
  else
    let fracPart : Option (GoString × GoString) :=
      match s2 with
      | 46 :: s3 =>
        let (frac, s4) := spanDigits s3
        if frac = [] then none else some (frac, s4)
      | _ => some ([], s2)
    match fracPart with
    | none => none
    | some (frac, s4) =>
      match s4 with
      | e :: s5 =>
        if e = 101 ∨ e = 69 then
          let expNeg := s5.head? = some 45
          let s6 := if s5.head? = some 45 ∨ s5.head? = some 43 then s5.drop 1 else s5
          let (exp, s7) := spanDigits s6
          if exp = [] then none else some (⟨neg, int, frac, expNeg, exp⟩, s7)
        else some (⟨neg, int, frac, false, []⟩, s4)
      | [] => some (⟨neg, int, frac, false, []⟩, [])

/-- The number written by a string of decimal digits. -/
def digitsVal (ds : GoString) : Nat := ds.foldl (fun n c => n * 10 + (c.toNat - 48)) 0

/-- A digit string without its leading zeros. -/
def dropZeros : GoString → GoString
  | [] => []
  | c :: rest => if c = 48 then dropZeros rest else c :: rest

/-- The decimal digits of a number, as bytes. -/
def natText (n : Nat) : GoString := (Nat.toDigits 10 n).map (fun c => c.toNat.toUInt8)

/-- The power `b ^ n` by repeated squaring, with at most `fuel` halvings of the exponent. -/
def powLoop : Nat → Nat → Nat → Nat
  | 0, _, _ => 1
  | fuel + 1, b, n =>
    if n = 0 then 1
    else if n % 2 = 0 then powLoop fuel (b * b) (n / 2)
    else b * powLoop fuel (b * b) (n / 2)

/-- The power `b ^ n`. -/
def pow (b n : Nat) : Nat := powLoop n b n

/-- Whether `2 ^ p ≤ num / den`, for a positive `den`. -/
def pow2Le (p : Int) (num den : Nat) : Bool :=
  if 0 ≤ p then decide (pow 2 p.toNat * den ≤ num) else decide (den ≤ pow 2 (-p).toNat * num)

/-- The number of halvings that bring `n` below 2, at most `fuel` of them. -/
def halvings : Nat → Nat → Nat
  | 0, _ => 0
  | fuel + 1, n => if n < 2 then 0 else halvings fuel (n / 2) + 1

/-- The integer part of the base-2 logarithm of a positive number. -/
def log2Floor (n : Nat) : Nat := halvings n n

/-- The integer part of the base-2 logarithm of `num / den`, both positive. -/
def floorLog2 (num den : Nat) : Int :=
  let lb : Int := (log2Floor num : Int) - (log2Floor den : Int)
  if pow2Le lb num den then lb else lb - 1

/-- The integer nearest to `num / den`, a tie going to the even one (IEEE 754 unbiased
rounding). -/
def roundHalfEven (num den : Nat) : Nat :=
  let q := num / den
  let r := num % den
  if den < 2 * r ∨ (2 * r = den ∧ q % 2 = 1) then q + 1 else q

/-- Go `strconv.ParseFloat(s, 64)` on the decimal `d × 10 ^ k` with `d > 0`: the nearest
`float64` as mantissa and binary exponent `(m, e)`, value `m × 2 ^ e`, with `m < 2 ^ 53` and
`-1074 ≤ e` (a mantissa below `2 ^ 52` occurs only at `e = -1074`: a subnormal, or zero when
`m = 0`); `none` when the nearest value is beyond the largest `float64` (`ErrRange`). -/
def nearestFloat64 (d : Nat) (k : Int) : Option (Nat × Int) :=
  let num := if 0 ≤ k then d * pow 10 k.toNat else d
  let den := if 0 ≤ k then 1 else pow 10 (-k).toNat
  let e := max (floorLog2 num den - 52) (-1074)
  let m :=
    if 0 ≤ e then roundHalfEven num (den * pow 2 e.toNat)
    else roundHalfEven (num * pow 2 (-e).toNat) den
  let me : Nat × Int := if m = 2 ^ 53 then (2 ^ 52, e + 1) else (m, e)
  if 971 < me.2 then none else some me

/-- The search of `shortestDigits`: the first `j`, going down, for which a multiple `c × 10 ^ j`
lies in the rounding interval, and that `c`: of the two multiples around the value the nearer
one that lies in the interval, a tie going to the even one. The value and the interval ends are
`v / den`, `lo / den`, `hi / den`; the ends belong to the interval when `incl` holds. -/
def searchDigits (v lo hi den : Nat) (incl : Bool) : Nat → Int → Nat × Int
  | 0, j => (0, j)
  | fuel + 1, j =>
    let p := pow 10 j.toNat * den
    let q := pow 10 (-j).toNat
    let c := (v * q) / p
    let r := (v * q) % p
    let inside (x : Nat) : Bool :=
      if incl then decide (lo * q ≤ x * p ∧ x * p ≤ hi * q)
      else decide (lo * q < x * p ∧ x * p < hi * q)
    if inside c ∧ inside (c + 1) then
      (if 2 * r < p then c else if p < 2 * r then c + 1 else if c % 2 = 0 then c else c + 1, j)
    else if inside c then (c, j)
    else if inside (c + 1) then (c + 1, j)
    else searchDigits v lo hi den incl fuel (j - 1)

/-- Package `strconv`, the shortest formatting of a `float64` (`FormatFloat(f, 'g', -1, 64)`
computes its digits this way): the decimal `c × 10 ^ j` with the fewest digits that
`ParseFloat` reads back as the positive `float64` `m × 2 ^ e`, the nearest to it when there are
several. The decimals read back as this value are those between the midpoints to the two
neighbouring `float64`s, the midpoints included when `m` is even; below a power of two the lower
neighbour is half as far. Seventeen digits always suffice, so the search ends within its fuel. -/
def shortestDigits (m : Nat) (e : Int) : Nat × Int :=
  let s := e - 2
  let up := pow 2 s.toNat
  let den := pow 2 (-s).toNat
  let v := 4 * m * up
  let hi := (4 * m + 2) * up
  let lo := (if m = 2 ^ 52 ∧ -1074 < e then 4 * m - 1 else 4 * m - 2) * up
  let b := floorLog2 v den + 1
  let j0 : Int :=
    if 0 ≤ b then ((b.toNat * 30103 / 100000 + 1 : Nat) : Int)
    else -(((-b).toNat * 30102 / 100000 : Nat) : Int)
  searchDigits v lo hi den (m % 2 = 0) 40 j0

/-- Package `strconv`, format `g` with the shortest precision, for the digits `digs` (no leading
or trailing zero) and the decimal point position `dp` (the value is `0.digs × 10 ^ dp`): exponent
form `d.ddde±xx` when the decimal exponent `dp - 1` is below -4 or at least 6, plain decimal form
otherwise. -/
def formatG (digs : GoString) (dp : Int) : GoString :=
  let x := dp - 1
  if x < -4 ∨ 6 ≤ x then
    let mant := digs.take 1 ++ (if 1 < digs.length then 46 :: digs.drop 1 else [])
    let ex := natText x.natAbs
    mant ++ [101] ++ (if x < 0 then [45] else [43]) ++ (if ex.length < 2 then 48 :: ex else ex)
  else if dp ≤ 0 then [48, 46] ++ List.replicate dp.natAbs 48 ++ digs
  else if digs.length ≤ dp.natAbs then digs ++ List.replicate (dp.natAbs - digs.length) 48
  else digs.take dp.natAbs ++ [46] ++ digs.drop dp.natAbs

/-- Package `strconv`, the exponent read by `readFloat`: the digits are accumulated while the
number is below 10000, so a longer exponent keeps its leading digits (any such exponent is beyond
the range of `float64` unless the literal has thousands of digits). -/
def expVal (ds : GoString) : Nat :=
  ds.foldl (fun e c => if e < 10000 then e * 10 + (c.toNat - 48) else e) 0

/-- Go `strconv.ParseFloat(lit, 64)` followed by the `%v` form of the result (`strconv` format
`g` with the shortest precision); `none` when `ParseFloat` reports a range error, which makes
`json.Unmarshal` return an error.

The literal is read exactly, as the integer `int ++ frac` times a power of ten, and rounded to
the nearest `float64`. A literal of `0.d₁d₂… × 10 ^ dp` with `dp > 310` is beyond the largest
`float64` (about `1.8 × 10 ^ 308`) and one with `dp < -330` is below half the smallest (about
`2.5 × 10 ^ -324`), so it rounds to zero; these two cases are decided without computing the
power of ten. A zero prints as `0`, or `-0` after a minus sign. -/
def float64Text (l : NumberLit) : Option GoString :=
  let all := l.int ++ l.frac
  let lead := dropZeros all
  let e : Int := if l.expNeg then -(expVal l.exp : Int) else (expVal l.exp : Int)
  let dp : Int := (l.int.length : Int) - ((all.length : Int) - (lead.length : Int)) + e
  let sign : GoString := if l.neg then [45] else []
  if lead = [] ∨ dp < -330 then some (sign ++ [48])
  else if 310 < dp then none
  else
    match nearestFloat64 (digitsVal all) (e - (l.frac.length : Int)) with
    | none => none
    | some (m, ex) =>
      if m = 0 then some (sign ++ [48])
      else
        let cj := shortestDigits m ex
        let digs := natText cj.1
        some (sign ++ formatG digs ((digs.length : Int) + cj.2))

/-- Go `m[key] = value`: the value under an existing key is replaced, a new key is added. -/
def mapSet (m : GoMap) (key : GoString) (value : Value) : GoMap :=
  match m with
  | [] => [(key, value)]
  | (k, v) :: rest => if k = key then (k, value) :: rest else (k, v) :: mapSet rest key value

/-- Package `encoding/json`, `maxNestingDepth`. -/
def maxNestingDepth : Nat := 10000

mutual
/-- One JSON value at the head of the input (no leading white space), decoded as into an
`interface{}`, and the input after it. `depth` counts the enclosing arrays and objects. -/
def decodeValue : Nat → Nat → GoString → Option (Value × GoString)
  | 0, _, _ => none
  | fuel + 1, depth, s =>
    match s with
    | 34 :: rest => (unquote (rest.length + 1) rest).map (fun p => (Value.string p.1, p.2))
    | 110 :: 117 :: 108 :: 108 :: rest => some (Value.nil, rest)
    | 116 :: 114 :: 117 :: 101 :: rest => some (Value.bool true, rest)
    | 102 :: 97 :: 108 :: 115 :: 101 :: rest => some (Value.bool false, rest)
    | 123 :: rest =>
      if maxNestingDepth ≤ depth then none
      else
        match skipSpace rest with
        | 125 :: rest1 => some (Value.map [], rest1)
        | rest1 => (decodeMembers fuel (depth + 1) [] rest1).map (fun p => (Value.map p.1, p.2))
    | 91 :: rest =>
      if maxNestingDepth ≤ depth then none
      else
        match skipSpace rest with
        | 93 :: rest1 => some (Value.slice [], rest1)
        | rest1 => (decodeElems fuel (depth + 1) rest1).map (fun p => (Value.slice p.1, p.2))
    | _ =>
      match scanNumber s with
      | some (lit, rest) => (float64Text lit).map (fun t => (Value.float64 t, rest))
      | none => none
/-- The members of an object from the first byte of a key to the closing brace; `acc` holds the
members decoded so far. -/
def decodeMembers : Nat → Nat → GoMap → GoString → Option (GoMap × GoString)
  | 0, _, _, _ => none
  | fuel + 1, depth, acc, s =>
    match s with
    | 34 :: rest =>
      match unquote (rest.length + 1) rest with
      | none => none
      | some (key, rest1) =>
        match skipSpace rest1 with
        | 58 :: rest2 =>
          match decodeValue fuel depth (skipSpace rest2) with
          | none => none
          | some (v, rest3) =>
            match skipSpace rest3 with
            | 44 :: rest4 => decodeMembers fuel depth (mapSet acc key v) (skipSpace rest4)
            | 125 :: rest4 => some (mapSet acc key v, rest4)
            | _ => none
        | _ => none
    | _ => none
/-- The elements of an array from the first byte of an element to the closing bracket. -/
def decodeElems : Nat → Nat → GoString → Option (List Value × GoString)
  | 0, _, _ => none
  | fuel + 1, depth, s =>
    match decodeValue fuel depth s with
    | none => none
    | some (v, rest) =>
      match skipSpace rest with
      | 44 :: rest1 => (decodeElems fuel depth (skipSpace rest1)).map (fun p => (v :: p.1, p.2))
      | 93 :: rest1 => some ([v], rest1)
      | _ => none
end

/-- Go `json.Unmarshal(input, &logData)` for a nil `logData map[string]interface{}`: `none` when
it returns an error (the input is not one JSON value, or holds a number beyond the range of
`float64`, or the value is an array, string, number or boolean), otherwise the map left in
`logData`, in the order of first appearance of the keys. The JSON value `null` is accepted and
leaves the map nil: no entry. -/
def jsonUnmarshal (input : GoString) : Option GoMap :=
  match decodeValue (input.length + 1) 0 (skipSpace input) with
  | none => none
  | some (v, rest) =>
    if skipSpace rest ≠ [] then none
    else
      match v with
      | .map m => some m
      | .nil => some []
      | _ => none

/-- Package `time`, `getnum(s, fixed)`: one or two leading digits as a number and the rest of the
input; with `fixed` exactly two digits are required. -/
def getnum (s : GoString) (fixed : Bool) : Option (Nat × GoString) :=
  match s with
  | [] => none
  | a :: rest =>
    if !isDigit a then none
    else
      match rest with
      | b :: rest1 =>
        if isDigit b then some ((a.toNat - 48) * 10 + (b.toNat - 48), rest1)
        else if fixed then none else some (a.toNat - 48, rest)
      | [] => if fixed then none else some (a.toNat - 48, [])

/-- Package `time`, `isLeap`. -/
def isLeap (year : Nat) : Bool := year % 4 = 0 && (year % 100 ≠ 0 || year % 400 = 0)

/-- Package `time`, `daysIn(month, year)`. -/
def daysIn (month year : Nat) : Nat :=
  if month = 2 then (if isLeap year then 29 else 28)
  else if month = 4 ∨ month = 6 ∨ month = 9 ∨ month = 11 then 30 else 31

/-- Package `time`, `skip(value, prefix)` for a one-byte prefix that is not a space: the input
after the expected byte. -/
def expectByte (c : UInt8) : GoString → Option GoString
  | [] => none
  | a :: rest => if a = c then some rest else none

/-- Package `time`, the fractional second read after the seconds field although the layout has
none: when the input continues with `.` or `,` and a digit, all following digits are consumed and
the first nine of them, padded on the right with zeros, are the nanoseconds. -/
def parseFraction (s : GoString) : Nat × GoString :=
  match s with
  | sep :: d :: rest =>
    if (sep = 46 ∨ sep = 44) ∧ isDigit d then
      let (ds, rest1) := spanDigits (d :: rest)
      let kept := ds.take 9
      (digitsVal kept * 10 ^ (9 - kept.length), rest1)
    else (0, s)
  | _ => (0, s)

/-- Package `time`, the zone field `Z07:00`: `Z`, or a sign, two digits, a colon and two digits
with the hour at most 24 and the minute at most 60. The result is the input after the field. -/
def parseZone (s : GoString) : Option GoString :=
  match s with
  | 90 :: rest => some rest
  | sign :: h1 :: h2 :: colon :: m1 :: m2 :: rest =>
    if colon ≠ 58 then none
    else
      match getnum [h1, h2] true, getnum [m1, m2] true with
      | some (hr, _), some (mm, _) =>
        if 24 < hr ∨ 60 < mm then none
        else if sign = 43 ∨ sign = 45 then some rest else none
      | _, _ => none
  | _ => none

/-- Go `time.Parse(time.RFC3339, s)` (layout `2006-01-02T15:04:05Z07:00`), as far as
`Format("15:04:05.000")` can observe the result: `none` when it returns an error, otherwise the
clock reading of the parsed time in its own location, which is the reading written in `s`
whatever the zone offset. -/
def timeParseRFC3339 (s : GoString) : Option Time :=
  match s with
  | y1 :: y2 :: y3 :: y4 :: s1 =>
    if !(isDigit y1 && isDigit y2 && isDigit y3 && isDigit y4) then none
    else
      let year := digitsVal [y1, y2, y3, y4]
      match (expectByte 45 s1).bind (getnum · true) with
      | none => none
      | some (month, s2) =>
        if month = 0 ∨ 12 < month then none
        else
          match (expectByte 45 s2).bind (getnum · true) with
          | none => none
          | some (day, s3) =>
            match (expectByte 84 s3).bind (getnum · false) with
            | none => none
            | some (hour, s4) =>
              if 24 ≤ hour then none
              else
                match (expectByte 58 s4).bind (getnum · true) with
                | none => none
                | some (min, s5) =>
                  if 60 ≤ min then none
                  else
                    match (expectByte 58 s5).bind (getnum · true) with
                    | none => none
                    | some (sec, s6) =>
                      if 60 ≤ sec then none
                      else
                        let (nsec, s7) := parseFraction s6
                        match parseZone s7 with
                        | some [] =>
                          if day < 1 ∨ daysIn month year < day then none
                          else some ⟨hour, min, sec, nsec⟩
                        | _ => none
  | _ => none

/-- The Go standard library, as modelled above. -/
def goLib : Lib := ⟨jsonUnmarshal, timeParseRFC3339, rfl⟩

/-! ## The lines of the test suite

`loggerNew` of `pretty_test.go` writes one JSON object and a newline per record, with the fixed
time 2018-03-30 17:35:28.992 UTC. -/

/-- The line `{"time":"2018-03-30T17:35:28.992Z","level":"INFO","msg":"foo"}` written for
`logger.Info("foo")`. -/
def lineInfoFoo : GoString :=
  str "\x7b\"time\":\"2018-03-30T17:35:28.992Z\",\"level\":\"INFO\",\"msg\":\"foo\"\x7d\n"

/-- The record decoded from `lineInfoFoo`. -/
def recInfoFoo : GoMap :=
  [(str "time", .string (str "2018-03-30T17:35:28.992Z")), (str "level", .string (str "INFO")),
    (str "msg", .string (str "foo"))]

/-- The line `{"level":"INFO","msg":"foo"}` written for `logger.Info("foo")` when the logger
drops the time attribute. -/
def lineNoTime : GoString := str "\x7b\"level\":\"INFO\",\"msg\":\"foo\"\x7d\n"

/-- The line `{"time":"2018-03-30T17:35:28.992Z","level":"INFO","msg":"foo","a":"b"}` written
for `logger.Info("foo", "a", "b")`. -/
def lineAttr : GoString :=
  str "\x7b\"time\":\"2018-03-30T17:35:28.992Z\",\"level\":\"INFO\",\"msg\":\"foo\",\"a\":\"b\"\x7d\n"

/-- The line `{"time":"2018-03-30T17:35:28.992Z","level":"INFO","msg":"foo","a":{"b":{"c":"d"}}}`
written for `logger.Info("foo", slog.Group("a", slog.Group("b", "c", "d")))`. -/
def lineGroup : GoString :=
  str ("\x7b\"time\":\"2018-03-30T17:35:28.992Z\",\"level\":\"INFO\",\"msg\":\"foo\","
    ++ "\"a\":\x7b\"b\":\x7b\"c\":\"d\"\x7d\x7d\x7d\n")

/-- The line `{"time":"2018-03-30T17:35:28.992Z","level":"INFO","bar":"baz"}` written for
`logger.Info("baz")` by a logger whose message key is `bar`. -/
def lineMessageBar : GoString :=
  str "\x7b\"time\":\"2018-03-30T17:35:28.992Z\",\"level\":\"INFO\",\"bar\":\"baz\"\x7d\n"

/-- The line `{"time":"2018-03-30T17:35:28.992Z","bar":"WARN","msg":"foo"}` written for
`logger.Warn("foo")` by a logger whose level key is `bar`. -/
def lineLevelBar : GoString :=
  str "\x7b\"time\":\"2018-03-30T17:35:28.992Z\",\"bar\":\"WARN\",\"msg\":\"foo\"\x7d\n"

/-- A record that has both the default message key and a configured one:
`{"level":"INFO","msg":"x","bar":"baz"}`. -/
def lineBothKeys : GoString := str "\x7b\"level\":\"INFO\",\"msg\":\"x\",\"bar\":\"baz\"\x7d"

/-- A record with a numeric field: `{"count":42}`. -/
def lineCount : GoString := str "\x7b\"count\":42\x7d"

/-- The record decoded from `lineNoTime`. -/
def recNoTime : GoMap :=
  [(str "level", .string (str "INFO")), (str "msg", .string (str "foo"))]

/-- The record decoded from `lineMessageBar`. -/
def recMessageBar : GoMap :=
  [(str "time", .string (str "2018-03-30T17:35:28.992Z")), (str "level", .string (str "INFO")),
    (str "bar", .string (str "baz"))]

/-- The record decoded from `lineLevelBar`. -/
def recLevelBar : GoMap :=
  [(str "time", .string (str "2018-03-30T17:35:28.992Z")), (str "bar", .string (str "WARN")),
    (str "msg", .string (str "foo"))]

/-- The record decoded from `lineBothKeys`. -/
def recBothKeys : GoMap :=
  [(str "level", .string (str "INFO")), (str "msg", .string (str "x")),
    (str "bar", .string (str "baz"))]

/-- A record that stores a nested object under `time` and a number under `level`:
`{"time":{"x":"y"},"level":30,"msg":"foo","a":"b"}`. -/
def lineReservedTypes : GoString :=
  str "\x7b\"time\":\x7b\"x\":\"y\"\x7d,\"level\":30,\"msg\":\"foo\",\"a\":\"b\"\x7d"

/-- The record decoded from `lineReservedTypes`. -/
def recReservedTypes : GoMap :=
  [(str "time", .map [(str "x", .string (str "y"))]), (str "level", .float64 (str "30")),
    (str "msg", .string (str "foo")), (str "a", .string (str "b"))]

/-- A record whose field value holds a quote, a backslash and a newline (written with JSON
escapes): `{"a":"x\"y\\z\nw"}`. -/
def lineQuoted : GoString := str "\x7b\"a\":\"x\\\"y\\\\z\\nw\"\x7d"

/-- The time 17:35:28.992 of the test logger. -/
def testTime : Time := ⟨17, 35, 28, 992000000⟩

/-! ## The specification's vocabulary

Definitions that follow the words of the specification (sections 4.1 and 4.2); the theorems
compare `pretty` and `processMap` with them. -/

namespace Spec

mutual
/-- Section 4.2, the nested-map renderer with the value text the code writes: the lines of the
entries of `m`, in iteration order, at indentation `i`. -/
def render : GoMap → Nat → GoString
  | [], _ => []
  | (key, v) :: rest, i => renderEntry key v i ++ render rest i
/-- Section 4.2, one entry: a nested mapping gives an opening line with the quoted key, its own
entries at indentation `i + 2` and a closing brace line; any other value gives one line with the
quoted key and, between quotes, the text the verb `%s` prints for the value (`fmtS`), which is the
value itself for a string only (`Spec.claimedEntry` has the value itself for every value). -/
def renderEntry (key : GoString) : Value → Nat → GoString
  | .map m, i =>
    spaces i ++ str "\"" ++ key ++ str "\": \x7b\n" ++ render m (i + 2) ++ spaces i ++ str "\x7d\n"
  | v, i => spaces i ++ str "\"" ++ key ++ str "\": \"" ++ fmtS v ++ str "\"\n"
end

/-- Section 4.1 step f, the field entry of one top-level key: the key is not quoted, the base
indentation is 4 and the nested entries are rendered at indentation 6; the text of a value that
is not a mapping is the one the verb `%s` prints (`fmtS`). -/
def fieldBlock (key : GoString) : Value → GoString
  | .map m => spaces 4 ++ key ++ str ": \x7b\n" ++ render m 6 ++ spaces 4 ++ str "\x7d\n"
  | v => spaces 4 ++ key ++ str ": \"" ++ fmtS v ++ str "\"\n"

/-- The entries of the record that are listed as fields: those whose key is none of the three
reserved key names, in iteration order. -/
def fieldEntries (timeKey levelKey msgKey : GoString) (logData : GoMap) : GoMap :=
  logData.filter (fun e => !(decide (e.1 = timeKey ∨ e.1 = levelKey ∨ e.1 = msgKey)))

/-- Section 4.1 steps f and g, the field-listing section: the field entries of the listed
entries, concatenated. -/
def fields (timeKey levelKey msgKey : GoString) (logData : GoMap) : GoString :=
  (fieldEntries timeKey levelKey msgKey logData).flatMap (fun e => fieldBlock e.1 e.2)

/-- Section 4.1 step 1: a key name falls back to its default when the configuration leaves it
empty. -/
def effectiveKey (configured dflt : GoString) : GoString :=
  if configured = [] then dflt else configured

/-- Section 4.1 step d, the level string: wrapped in `ESC[32m … ESC[39m` when colorize is on,
unchanged when it is off. -/
def paintLevel (enabled : Bool) (s : GoString) : GoString :=
  if enabled then str "\u001B[32m" ++ s ++ str "\u001B[39m" else s

/-- Section 4.1 step d, the message string: wrapped in `ESC[36m … ESC[39m` when colorize is on,
unchanged when it is off. -/
def paintMessage (enabled : Bool) (s : GoString) : GoString :=
  if enabled then str "\u001B[36m" ++ s ++ str "\u001B[39m" else s

/-- The configuration in force: the defaults when no options are given. -/
def config (options : Option prettyOptions) : prettyOptions := options.getD {}

/-- Section 4.1 step 1, the effective time key. -/
def timeKey (options : Option prettyOptions) : GoString :=
  effectiveKey (config options).TimeKey (str "time")

/-- Section 4.1 step 1, the effective level key. -/
def levelKey (options : Option prettyOptions) : GoString :=
  effectiveKey (config options).LevelKey (str "level")

/-- Section 4.1 step 1, the effective message key. -/
def msgKey (options : Option prettyOptions) : GoString :=
  effectiveKey (config options).MessageKey (str "msg")

/-- Section 4.1 steps a and b: the bracketed timestamp `[HH:MM:SS.mmm]` when the string under the
time key parses, nothing otherwise. -/
def timestamp (lib : Lib) (options : Option prettyOptions) (logData : GoMap) : Option GoString :=
  (lib.timeParse (stringAt logData (timeKey options))).map
    (fun t => str "[" ++ t.format ++ str "]")

/-- Section 4.1 steps f and g for a configuration: the field-listing section of the record. -/
def fieldSection (options : Option prettyOptions) (logData : GoMap) : GoString :=
  fields (timeKey options) (levelKey options) (msgKey options) logData

/-- Section 4.1 step e, the header line in its two orderings; without a timestamp the separating
space is absent too. -/
def header (levelFirst : Bool) (timestamp : Option GoString) (level msg : GoString) : GoString :=
  match timestamp with
  | some t =>
    if levelFirst then level ++ str " " ++ t ++ str ": " ++ msg ++ str "\n"
    else t ++ str " " ++ level ++ str ": " ++ msg ++ str "\n"
  | none => level ++ str ": " ++ msg ++ str "\n"

/-- Section 4.1 steps a to e for a configuration and a decoded record: the header line composed
of the bracketed timestamp (when the time-key string parses), the level-key string and the
message-key string, the last two wrapped in colour codes when colorize is on. -/
def headerLine (lib : Lib) (options : Option prettyOptions) (logData : GoMap) : GoString :=
  header (config options).LevelFirst (timestamp lib options logData)
    (paintLevel (config options).Colorize (stringAt logData (levelKey options)))
    (paintMessage (config options).Colorize (stringAt logData (msgKey options)))

/-- The three kinds of line of a field listing: the single line of an entry whose value is not a
mapping, the opening line of an entry whose value is a mapping, and the closing brace line of
such an entry. -/
inductive LineKind where
  | value
  | opening
  | closing
deriving DecidableEq

/-- One line of the field listing: the entry it belongs to (by key), the depth of that entry
(top-level fields have depth 0), the number of spaces of indentation, and the text after the
indentation, without the final newline. -/
structure Line where
  kind : LineKind
  key : GoString
  depth : Nat
  indent : Nat
  text : GoString

/-- The bytes of a line: indentation, text, newline. -/
def Line.emit (l : Line) : GoString := spaces l.indent ++ l.text ++ str "\n"

mutual
/-- Section 4.2 as a list of lines: the lines of the entries of a mapping whose entries have depth
`d` and indentation `i`, in a depth-first walk in iteration order. -/
def mapLines : GoMap → Nat → Nat → List Line
  | [], _, _ => []
  | (key, v) :: rest, d, i => entryLines key v d i ++ mapLines rest d i
/-- Section 4.2, the lines of one entry: a nested mapping gives its opening line, the lines of
its entries one level deeper and two spaces further in, and its closing line; any other value
gives one line. -/
def entryLines (key : GoString) : Value → Nat → Nat → List Line
  | .map m, d, i =>
    ⟨.opening, key, d, i, str "\"" ++ key ++ str "\": \x7b"⟩
      :: (mapLines m (d + 1) (i + 2) ++ [⟨.closing, key, d, i, str "\x7d"⟩])
  | v, d, i => [⟨.value, key, d, i, str "\"" ++ key ++ str "\": \"" ++ fmtS v ++ str "\""⟩]
end

/-- Section 4.1 step f as a list of lines: the lines of one top-level field, at depth 0 and
indentation 4, with the key not quoted; nested entries have depth 1 and indentation 6. -/
def fieldLines (key : GoString) : Value → List Line
  | .map m =>
    ⟨.opening, key, 0, 4, key ++ str ": \x7b"⟩ :: (mapLines m 1 6 ++ [⟨.closing, key, 0, 4, str "\x7d"⟩])
  | v => [⟨.value, key, 0, 4, key ++ str ": \"" ++ fmtS v ++ str "\""⟩]

/-- The lines of the field-listing section of a record under a configuration. -/
def outputLines (options : Option prettyOptions) (logData : GoMap) : List Line :=
  (fieldEntries (timeKey options) (levelKey options) (msgKey options) logData).flatMap
    (fun e => fieldLines e.1 e.2)

/-- Balanced and properly nested lines, read from top to bottom with the stack of the opening
lines not yet closed (innermost first): a value or opening line has a depth equal to `base` plus
the number of open blocks; a closing line closes the innermost open block, with the same key,
depth and indentation as its opening line; at the end no block is open. -/
def wellNested (base : Nat) : List Line → List Line → Bool
  | [], stack => stack.isEmpty
  | l :: rest, stack =>
    match l.kind with
    | .value => decide (l.depth = base + stack.length) && wellNested base rest stack
    | .opening => decide (l.depth = base + stack.length) && wellNested base rest (l :: stack)
    | .closing =>
      match stack with
      | [] => false
      | o :: stack' =>
        decide (o.kind = .opening ∧ o.key = l.key ∧ o.depth = l.depth ∧ o.indent = l.indent)
          && wellNested base rest stack'

mutual
/-- The entries of a nested mapping in depth-first order, parents before children: each with
its key and whether its value is a mapping. -/
def walk : GoMap → List (GoString × Bool)
  | [] => []
  | (key, v) :: rest => walkEntry key v ++ walk rest
/-- One entry followed by the entries below it. -/
def walkEntry (key : GoString) : Value → List (GoString × Bool)
  | .map m => (key, true) :: walk m
  | _ => [(key, false)]
end

mutual
/-- Two values that are the same decoded value, up to the order in which the mappings in them
are iterated: equal values, or mappings with the same entries in two iteration orders. (The
mappings inside arrays are not iterated by this program: `fmt` prints them in key order.) -/
inductive SameValue : Value → Value → Prop
  | refl (v : Value) : SameValue v v
  | map {m n : GoMap} : SameMap m n → SameValue (Value.map m) (Value.map n)
/-- Two iteration orders of the same mapping, at every level of nesting: the entries of one are
the entries of the other in another order, the values being the same in the sense of
`SameValue`. -/
inductive SameMap : GoMap → GoMap → Prop
  | nil : SameMap [] []
  | cons (k : GoString) {v w : Value} {m n : GoMap} :
      SameValue v w → SameMap m n → SameMap ((k, v) :: m) ((k, w) :: n)
  | swap (e f : GoString × Value) (m : GoMap) : SameMap (e :: f :: m) (f :: e :: m)
  | trans {a b c : GoMap} : SameMap a b → SameMap b c → SameMap a c
end

mutual
/-- Every mapping nested in the values of `m` has at most one entry whose key is none of the
three key names, and so on below it. -/
def nestedAtMostOneNonReserved (tk lk mk : GoString) : GoMap → Bool
  | [] => true
  | (_, v) :: rest =>
    valueAtMostOneNonReserved tk lk mk v && nestedAtMostOneNonReserved tk lk mk rest
/-- A mapping value has at most one entry whose key is none of the three key names, at its own
level and at every level below; any other value passes. -/
def valueAtMostOneNonReserved (tk lk mk : GoString) : Value → Bool
  | .map m =>
    decide ((fieldEntries tk lk mk m).length ≤ 1) && nestedAtMostOneNonReserved tk lk mk m
  | _ => true
end

/-- The condition of claim C19 read by key name: at every level of the record, the top level
included, at most one entry has a key that is none of the three effective key names. -/
def atMostOneNonReserved (options : Option prettyOptions) (logData : GoMap) : Bool :=
  valueAtMostOneNonReserved (timeKey options) (levelKey options) (msgKey options)
    (Value.map logData)

mutual
/-- A mapping with at most one entry, in which every nested mapping has at most one entry. -/
def singleEntries : GoMap → Bool
  | [] => true
  | (_, v) :: rest => rest.isEmpty && singleValue v
/-- A value in which every mapping has at most one entry. -/
def singleValue : Value → Bool
  | .map m => singleEntries m
  | _ => true
end

/-- The record has at most one listed (non-reserved) top-level entry, and every mapping nested
in that entry has at most one entry. -/
def singleListed (options : Option prettyOptions) (logData : GoMap) : Bool :=
  singleEntries (fieldEntries (timeKey options) (levelKey options) (msgKey options) logData)

/-- The top-level field blocks of a record, one per listed entry, in iteration order. -/
def fieldBlocks (options : Option prettyOptions) (logData : GoMap) : List GoString :=
  (fieldEntries (timeKey options) (levelKey options) (msgKey options) logData).map
    (fun e => fieldBlock e.1 e.2)

/-- A clock field as rendered: a single written digit is padded with a zero to two digits. -/
def pad2 (ds : GoString) : GoString := if ds.length = 1 then 48 :: ds else ds

/-- The milliseconds as rendered: the first three digits of the written fraction, the missing
ones replaced by zeros (`000` when there is no fraction); further digits are dropped. -/
def millis (fracDigits : GoString) : GoString := (fracDigits ++ str "000").take 3

/-- The text of a timestamp in the shape the layout `2006-01-02T15:04:05Z07:00` reads: the date,
`T`, the written hour, minute and second separated by colons, the fraction part (empty, or a
separator followed by digits) and the zone. -/
def written (date hh mm ss fracPart zone : GoString) : GoString :=
  date ++ str "T" ++ hh ++ str ":" ++ mm ++ str ":" ++ ss ++ fracPart ++ zone

/-- The clock reading `hh:mm:ss.mmm` of section 4.1 step b, from the written hour, minute and
second and the written digits of the fraction. -/
def clock (hh mm ss fracDigits : GoString) : GoString :=
  pad2 hh ++ str ":" ++ mm ++ str ":" ++ ss ++ str "." ++ millis fracDigits

/-- The shapes of a zone that `time.Parse` accepts for `Z07:00`: `Z`, or a sign, two digits, a
colon and two digits. -/
def isZone (zone : GoString) : Bool :=
  match zone with
  | [90] => true
  | [sign, h1, h2, 58, m1, m2] =>
    (sign == 43 || sign == 45) && isDigit h1 && isDigit h2 && isDigit m1 && isDigit m2
  | _ => false

/-- The shapes of a fraction part: nothing, or a period or comma followed by one or more
digits. -/
def isFraction (fracPart : GoString) : Bool :=
  match fracPart with
  | [] => true
  | sep :: ds => (sep == 46 || sep == 44) && !ds.isEmpty && ds.all isDigit

/-- A reading of a timestamp text: a date of ten bytes, an hour of one or two digits, a minute
and a second of two digits each, a fraction part and a zone of the accepted shapes. -/
def isReading (date hh mm ss fracPart zone : GoString) : Bool :=
  date.length == 10 && hh.all isDigit && (hh.length == 1 || hh.length == 2)
    && mm.all isDigit && mm.length == 2 && ss.all isDigit && ss.length == 2
    && isFraction fracPart && isZone zone

/-- RFC 3339 section 5.6, `time-offset`: `Z` (or `z`), or a sign, a two-digit hour from 00 to 23,
a colon and a two-digit minute from 00 to 59. The result is the offset from UTC in minutes;
`none` when the text is not a `time-offset`. -/
def rfcOffset (zone : GoString) : Option Int :=
  match zone with
  | [z] => if z = 90 ∨ z = 122 then some 0 else none
  | [sign, h1, h2, colon, m1, m2] =>
    if colon = 58 ∧ isDigit h1 = true ∧ isDigit h2 = true ∧ isDigit m1 = true ∧ isDigit m2 = true
        ∧ digitsVal [h1, h2] ≤ 23 ∧ digitsVal [m1, m2] ≤ 59 then
      if sign = 43 then some ((digitsVal [h1, h2] * 60 + digitsVal [m1, m2] : Nat) : Int)
      else if sign = 45 then some (-((digitsVal [h1, h2] * 60 + digitsVal [m1, m2] : Nat) : Int))
      else none
    else none
  | _ => none

/-- RFC 3339 section 5.6, what follows `time-second` in a `date-time`: an optional `time-secfrac`
(a period and one or more digits) and the `time-offset`. -/
def rfcFracOffset (s : GoString) : Option Int :=
  match s with
  | 46 :: rest => if (spanDigits rest).1 = [] then none else rfcOffset (spanDigits rest).2
  | _ => rfcOffset s

/-- Validity under RFC 3339 (section 5.6, `date-time`): a four-digit year, `-`, a month from 01 to
12, `-`, a day from 01 to the length of the month, `T` (or `t`), an hour from 00 to 23, `:`, a
minute from 00 to 59, `:`, a second, an optional fraction and the offset. The second is from 00
to 59, or 60 for a leap second, which is inserted at 23:59:60 UTC (section 5.7), so at the local
time that the offset takes to 23:59 UTC. -/
def rfc3339Valid (s : GoString) : Bool :=
  match s with
  | y1 :: y2 :: y3 :: y4 :: dash1 :: o1 :: o2 :: dash2 :: d1 :: d2 :: tee :: h1 :: h2 :: colon1
      :: m1 :: m2 :: colon2 :: s1 :: s2 :: rest =>
    [y1, y2, y3, y4, o1, o2, d1, d2, h1, h2, m1, m2, s1, s2].all isDigit
      && dash1 == 45 && dash2 == 45 && (tee == 84 || tee == 116) && colon1 == 58 && colon2 == 58
      && decide (1 ≤ digitsVal [o1, o2] ∧ digitsVal [o1, o2] ≤ 12)
      && decide (1 ≤ digitsVal [d1, d2]
          ∧ digitsVal [d1, d2] ≤ daysIn (digitsVal [o1, o2]) (digitsVal [y1, y2, y3, y4]))
      && decide (digitsVal [h1, h2] ≤ 23) && decide (digitsVal [m1, m2] ≤ 59)
      && (match rfcFracOffset rest with
          | none => false
          | some off =>
            decide (digitsVal [s1, s2] ≤ 59)
              || (decide (digitsVal [s1, s2] = 60)
                  && decide ((((digitsVal [h1, h2] * 60 + digitsVal [m1, m2] : Nat) : Int) - off)
                      % 1440 = 1439)))
  | _ => false

mutual
/-- The natural string representation of a value inside a slice or a map (the default
conversion, `%v`): a string as it is, a number by its digits, a boolean as `true` or `false`,
null as `<nil>`, a slice as its elements between brackets, a map as `map[key:value ...]`. -/
def naturalElem : Value → GoString
  | .string s => s
  | .float64 v => v
  | .bool b => if b then str "true" else str "false"
  | .nil => str "<nil>"
  | .slice xs => str "[" ++ naturalElems xs ++ str "]"
  | .map m => str "map[" ++ naturalEntries m ++ str "]"
/-- The elements of a slice, separated by one space. -/
def naturalElems : List Value → GoString
  | [] => []
  | [x] => naturalElem x
  | x :: y :: rest => naturalElem x ++ str " " ++ naturalElems (y :: rest)
/-- The entries `key:value` of a map, separated by one space. -/
def naturalEntries : List (GoString × Value) → GoString
  | [] => []
  | [(k, v)] => k ++ str ":" ++ naturalElem v
  | (k, v) :: y :: rest => k ++ str ":" ++ naturalElem v ++ str " " ++ naturalEntries (y :: rest)
end

/-- Section 4.1 step f: the natural string representation of a value, which the specification
puts between the quotes of a field line (`42` for the number 42, `true` for a boolean); the
entries of a map are taken in key order. -/
def natural (v : Value) : GoString := naturalElem (sortValue v)

mutual
/-- The renderer `render(m, i)` as the claim and section 4.2 word it: for each entry in iteration
order, `i` spaces, the quoted key, and either a brace block with the entries of the nested
mapping at `i + 2` or the quoted value itself. -/
def claimedRender : GoMap → Nat → GoString
  | [], _ => []
  | (key, v) :: rest, i => claimedEntry key v i ++ claimedRender rest i
/-- One entry of `claimedRender`. -/
def claimedEntry (key : GoString) : Value → Nat → GoString
  | .map m, i =>
    List.replicate i 32 ++ str "\"" ++ key ++ str "\": \x7b\n" ++ claimedRender m (i + 2)
      ++ List.replicate i 32 ++ str "\x7d\n"
  | v, i => List.replicate i 32 ++ str "\"" ++ key ++ str "\": \"" ++ natural v ++ str "\"\n"
end

/-- The block of a top-level key `k` with a nested mapping `m` as the claim words it: 4 spaces,
`k` unquoted and `: {`, then `render(m, 6)`, then 4 spaces and `}`. -/
def claimedBlock (k : GoString) (m : GoMap) : GoString :=
  List.replicate 4 32 ++ k ++ str ": \x7b\n" ++ claimedRender m 6 ++ List.replicate 4 32 ++ str "\x7d\n"

mutual
/-- Whether every value of a nested mapping that is not itself a mapping is a string, at every
depth. -/
def stringLeaves : GoMap → Bool
  | [] => true
  | (_, v) :: rest => stringLeaf v && stringLeaves rest
/-- Whether a value is a string, or a mapping with `stringLeaves`. -/
def stringLeaf : Value → Bool
  | .string _ => true
  | .map m => stringLeaves m
  | _ => false
end

end Spec

/-- A record whose level is a number: `{"level": 30, "msg": "x"}`. -/
def lineLevelNumber : GoString := str "\x7b\"level\": 30, \"msg\": \"x\"\x7d"

/-- The record decoded from `lineLevelNumber`. -/
def recLevelNumber : GoMap :=
  [(str "level", .float64 (str "30")), (str "msg", .string (str "x"))]

/-- The empty record `{}`. -/
def lineEmpty : GoString := str "\x7b\x7d"


/-- The JSON text of the input, as `encoding/json` reads it: the one JSON value the input
consists of, white space around it allowed; `none` when `json.Unmarshal` reports an error
whatever the target is: the input is not one JSON value (a syntax error, nesting deeper than
`maxNestingDepth` included), or it holds a number beyond the range of `float64`. -/
def jsonText (input : GoString) : Option Value :=
  match decodeValue (input.length + 1) 0 (skipSpace input) with
  | none => none
  | some (v, rest) => if skipSpace rest ≠ [] then none else some v


/-- A record with a nested entry named like the message key: `{"a": {"msg": "x"}}`. -/
def lineNestedMsg : GoString := str "\x7b\"a\": \x7b\"msg\": \"x\"\x7d\x7d"


/-- The library in a run in which `json.Unmarshal` succeeds and the range over the decoded map
visits the entries in the order of `logData`. -/
def inOrder (lib : Lib) (logData : GoMap) : Lib :=
  ⟨fun _ => some logData, lib.timeParse, lib.timeParse_empty⟩

/-- The record `{"a": {"msg": "x", "b": "y"}}`, the nested mapping iterated `msg` first. -/
def recNestedMsgFirst : GoMap :=
  [(str "a", .map [(str "msg", .string (str "x")), (str "b", .string (str "y"))])]

/-- The record `{"a": {"msg": "x", "b": "y"}}`, the nested mapping iterated `b` first. -/
def recNestedMsgLast : GoMap :=
  [(str "a", .map [(str "b", .string (str "y")), (str "msg", .string (str "x"))])]


/-- Go `s, _ := v.(string)` for a value that is present: the string itself, or `""` for a value
of another type. -/
def stringOf : Value → GoString
  | .string s => s
  | _ => []


/-- A record with two fields: `{"a":"b","msg":"foo","c":"d"}`. -/
def lineTwoFields : GoString := str "\x7b\"a\":\"b\",\"msg\":\"foo\",\"c\":\"d\"\x7d"

/-- The record decoded from `lineTwoFields`, in the order `a`, `msg`, `c`. -/
def recTwoFields : GoMap :=
  [(str "a", .string (str "b"))] ++
    [(str "msg", .string (str "foo")), (str "c", .string (str "d"))]

/-- The record of `lineTwoFields` in the iteration order `msg`, `c`, `a`. -/
def recTwoFieldsRotated : GoMap :=
  [(str "msg", .string (str "foo")), (str "c", .string (str "d"))] ++
    [(str "a", .string (str "b"))]

/-- The record `{"a": {"msg": "x", "b": "y"}}` as input bytes. -/
def lineNestedTwo : GoString := str "\x7b\"a\": \x7b\"msg\": \"x\", \"b\": \"y\"\x7d\x7d"

/-- The record of `lineGroup` in the iteration order `a`, `time`, `level`, `msg`. -/
def recGroupRotated : GoMap :=
  [(str "a", .map [(str "b", .map [(str "c", .string (str "d"))])])] ++ recInfoFoo


/-- A line like `lineInfoFoo` whose time carries a zone offset and a fraction of four digits:
`{"time":"2018-03-30T17:35:28.9996+02:00","level":"INFO","msg":"foo"}`. -/
def lineOffsetTime : GoString :=
  str "\x7b\"time\":\"2018-03-30T17:35:28.9996+02:00\",\"level\":\"INFO\",\"msg\":\"foo\"\x7d\n"

/-- The record decoded from `lineOffsetTime`. -/
def recOffsetTime : GoMap :=
  [(str "time", Value.string (str "2018-03-30T17:35:28.9996+02:00")),
    (str "level", Value.string (str "INFO")), (str "msg", Value.string (str "foo"))]

/-- A line like `lineInfoFoo` whose time has no fraction and a negative zone offset:
`{"time":"2018-03-30T07:05:09-05:00","level":"INFO","msg":"foo"}`. -/
def lineNoFraction : GoString :=
  str "\x7b\"time\":\"2018-03-30T07:05:09-05:00\",\"level\":\"INFO\",\"msg\":\"foo\"\x7d\n"

/-- The record decoded from `lineNoFraction`. -/
def recNoFraction : GoMap :=
  [(str "time", Value.string (str "2018-03-30T07:05:09-05:00")),
    (str "level", Value.string (str "INFO")), (str "msg", Value.string (str "foo"))]


/-- A line like `lineInfoFoo` whose time is written with an hour of one digit, which RFC 3339
does not allow: `{"time":"2018-03-30T7:35:28Z","level":"INFO","msg":"foo"}`. -/
def lineOneDigitHour : GoString :=
  str "\x7b\"time\":\"2018-03-30T7:35:28Z\",\"level\":\"INFO\",\"msg\":\"foo\"\x7d\n"

/-- The record decoded from `lineOneDigitHour`. -/
def recOneDigitHour : GoMap :=
  [(str "time", Value.string (str "2018-03-30T7:35:28Z")),
    (str "level", Value.string (str "INFO")), (str "msg", Value.string (str "foo"))]

/-- A line like `lineInfoFoo` whose time has a comma before the fraction, which RFC 3339 does not
allow: `{"time":"2018-03-30T17:35:28,992Z","level":"INFO","msg":"foo"}`. -/
def lineCommaFraction : GoString :=
  str "\x7b\"time\":\"2018-03-30T17:35:28,992Z\",\"level\":\"INFO\",\"msg\":\"foo\"\x7d\n"

/-- The record decoded from `lineCommaFraction`. -/
def recCommaFraction : GoMap :=
  [(str "time", Value.string (str "2018-03-30T17:35:28,992Z")),
    (str "level", Value.string (str "INFO")), (str "msg", Value.string (str "foo"))]

/-- A line like `lineInfoFoo` whose time is the leap second of the end of 1990, an example of
RFC 3339 section 5.8: `{"time":"1990-12-31T23:59:60Z","level":"INFO","msg":"foo"}`. -/
def lineLeapSecond : GoString :=
  str "\x7b\"time\":\"1990-12-31T23:59:60Z\",\"level\":\"INFO\",\"msg\":\"foo\"\x7d\n"

/-- The record decoded from `lineLeapSecond`. -/
def recLeapSecond : GoMap :=
  [(str "time", Value.string (str "1990-12-31T23:59:60Z")),
    (str "level", Value.string (str "INFO")), (str "msg", Value.string (str "foo"))]

/-- A line like `lineInfoFoo` whose time is written with a lower-case `t` and `z`, which RFC 3339
allows: `{"time":"2018-03-30t17:35:28.992z","level":"INFO","msg":"foo"}`. -/
def lineLowerCase : GoString :=
  str "\x7b\"time\":\"2018-03-30t17:35:28.992z\",\"level\":\"INFO\",\"msg\":\"foo\"\x7d\n"

/-- The record decoded from `lineLowerCase`. -/
def recLowerCase : GoMap :=
  [(str "time", Value.string (str "2018-03-30t17:35:28.992z")),
    (str "level", Value.string (str "INFO")), (str "msg", Value.string (str "foo"))]


/-! ## Auxiliary lemmas -/

mutual
theorem processMap_eq_render (b : GoString) :
    ∀ (m : GoMap) (i : Nat), processMap b m i = b ++ Spec.render m i
  | [], i => by simp [processMap, Spec.render]
  | (key, v) :: rest, i => by
    rw [processMap, processMap_eq_render _ rest i, processMapEntry_eq_renderEntry b key v i,
      Spec.render, List.append_assoc]
theorem processMapEntry_eq_renderEntry (b key : GoString) :
    ∀ (v : Value) (i : Nat), processMapEntry b key v i = b ++ Spec.renderEntry key v i
  | .map m, i => by
    simp only [processMapEntry, Spec.renderEntry, indentIncrement]
    rw [processMap_eq_render _ m (i + 2)]
    simp only [List.append_assoc]
  | .string s, i => by simp [processMapEntry, Spec.renderEntry]
  | .float64 s, i => by simp [processMapEntry, Spec.renderEntry]
  | .bool s, i => by simp [processMapEntry, Spec.renderEntry]
  | .nil, i => by simp [processMapEntry, Spec.renderEntry]
  | .slice s, i => by simp [processMapEntry, Spec.renderEntry]
end

theorem fieldEntries_cons_reserved (tk lk mk key : GoString) (v : Value) (rest : GoMap)
    (hk : key = tk ∨ key = lk ∨ key = mk) :
    Spec.fieldEntries tk lk mk ((key, v) :: rest) = Spec.fieldEntries tk lk mk rest := by
  have hp : (!(decide (key = tk ∨ key = lk ∨ key = mk))) = false := by simp [hk]
  simp only [Spec.fieldEntries, List.filter_cons, hp]
  rfl

theorem fieldEntries_cons_listed (tk lk mk key : GoString) (v : Value) (rest : GoMap)
    (hk : ¬ (key = tk ∨ key = lk ∨ key = mk)) :
    Spec.fieldEntries tk lk mk ((key, v) :: rest)
      = (key, v) :: Spec.fieldEntries tk lk mk rest := by
  have hp : (!(decide (key = tk ∨ key = lk ∨ key = mk))) = true := by simp [hk]
  simp only [Spec.fieldEntries, List.filter_cons, hp]
  rfl

theorem prettyLoop_eq_fields (tk lk mk : GoString) :
    ∀ (logData : GoMap) (b : GoString),
      prettyLoop tk lk mk b logData = b ++ Spec.fields tk lk mk logData
  | [], b => by simp [prettyLoop, Spec.fields, Spec.fieldEntries]
  | (key, v) :: rest, b => by
    by_cases hk : key = tk ∨ key = lk ∨ key = mk
    · rw [prettyLoop, if_pos hk, prettyLoop_eq_fields tk lk mk rest b]
      simp only [Spec.fields, fieldEntries_cons_reserved tk lk mk key v rest hk]
    · have hf : Spec.fields tk lk mk ((key, v) :: rest)
          = Spec.fieldBlock key v ++ Spec.fields tk lk mk rest := by
        simp only [Spec.fields, fieldEntries_cons_listed tk lk mk key v rest hk,
          List.flatMap_cons]
      rw [prettyLoop, if_neg hk, hf]
      cases v <;>
        simp [prettyLoop_eq_fields tk lk mk rest, processMap_eq_render, Spec.fieldBlock,
          initialIndent, indentIncrement]

theorem colorize_eq_paint (lvl msg : GoString) :
    colorize lvl msg = (Spec.paintLevel true lvl, Spec.paintMessage true msg) := rfl

/-- The formatted path of `pretty` in the specification's vocabulary: the header line of
section 4.1 step e followed by the field-listing section of steps f and g. -/
theorem pretty_eq_header_fields (lib : Lib) (input : GoString) (options : Option prettyOptions)
    (logData : GoMap) (h : lib.unmarshal input = some logData) :
    pretty lib input options =
      Spec.header (Spec.config options).LevelFirst (Spec.timestamp lib options logData)
          (Spec.paintLevel (Spec.config options).Colorize
            (stringAt logData (Spec.levelKey options)))
          (Spec.paintMessage (Spec.config options).Colorize
            (stringAt logData (Spec.msgKey options)))
        ++ Spec.fieldSection options logData := by
  have hcfg : (match options with | none => ({} : prettyOptions) | some o => o)
      = Spec.config options := by cases options <;> rfl
  have hkey : ∀ c d : GoString, (if c ≠ [] then c else d) = Spec.effectiveKey c d := by
    intro c d; by_cases hc : c = [] <;> simp [Spec.effectiveKey, hc]
  simp only [pretty, hcfg, hkey, h, prettyLoop_eq_fields, List.nil_append]
  simp only [Spec.header, Spec.timestamp, Spec.timeKey, Spec.levelKey, Spec.msgKey,
    Spec.fieldSection]
  cases hp : lib.timeParse (stringAt logData (Spec.effectiveKey (Spec.config options).TimeKey
      (str "time"))) <;>
    cases hc : (Spec.config options).Colorize <;>
    cases hl : (Spec.config options).LevelFirst <;>
    simp [colorize_eq_paint, Spec.paintLevel, Spec.paintMessage]

theorem pretty_eq_headerLine_fieldSection (lib : Lib) (input : GoString)
    (options : Option prettyOptions) (logData : GoMap)
    (h : lib.unmarshal input = some logData) :
    pretty lib input options
      = Spec.headerLine lib options logData ++ Spec.fieldSection options logData :=
  pretty_eq_header_fields lib input options logData h

theorem fieldSection_append (options : Option prettyOptions) (pre post : GoMap) :
    Spec.fieldSection options (pre ++ post)
      = Spec.fieldSection options pre ++ Spec.fieldSection options post := by
  simp [Spec.fieldSection, Spec.fields, Spec.fieldEntries, List.filter_append]

theorem fieldSection_cons_listed (options : Option prettyOptions) (k : GoString) (v : Value)
    (post : GoMap)
    (hk : k ≠ Spec.timeKey options ∧ k ≠ Spec.levelKey options ∧ k ≠ Spec.msgKey options) :
    Spec.fieldSection options ((k, v) :: post)
      = Spec.fieldBlock k v ++ Spec.fieldSection options post := by
  have hk' : ¬ (k = Spec.timeKey options ∨ k = Spec.levelKey options ∨ k = Spec.msgKey options) := by
    rintro (h | h | h)
    · exact hk.1 h
    · exact hk.2.1 h
    · exact hk.2.2 h
  simp only [Spec.fieldSection, Spec.fields, fieldEntries_cons_listed _ _ _ k v post hk',
    List.flatMap_cons]

theorem pretty_of_decode_error (lib : Lib) (input : GoString) (options : Option prettyOptions)
    (h : lib.unmarshal input = none) :
    pretty lib input options = input ++ [10] := by
  simp only [pretty, h]
  rfl

theorem stringAt_of_lookup (m : GoMap) (key s : GoString)
    (h : m.lookup key = some (Value.string s)) : stringAt m key = s := by
  simp [stringAt, h]

theorem fields_eq_nil (tk lk mk : GoString) (logData : GoMap)
    (h : ∀ e ∈ logData, e.1 = tk ∨ e.1 = lk ∨ e.1 = mk) :
    Spec.fields tk lk mk logData = [] := by
  have : Spec.fieldEntries tk lk mk logData = [] := by
    simp only [Spec.fieldEntries, List.filter_eq_nil_iff]
    intro e he
    simp [h e he]
  simp [Spec.fields, this]

theorem filter_key_fieldEntries (tk lk mk k : GoString) (hk : ¬ (k = tk ∨ k = lk ∨ k = mk)) :
    ∀ logData : GoMap,
      (Spec.fieldEntries tk lk mk logData).filter (fun e => decide (e.1 = k))
        = logData.filter (fun e => decide (e.1 = k))
  | [] => rfl
  | (key, v) :: rest => by
    by_cases hr : key = tk ∨ key = lk ∨ key = mk
    · have hne : ¬ key = k := by
        rintro rfl
        exact hk hr
      rw [fieldEntries_cons_reserved _ _ _ key v rest hr, filter_key_fieldEntries tk lk mk k hk rest]
      simp [List.filter_cons, hne]
    · rw [fieldEntries_cons_listed _ _ _ key v rest hr]
      simp only [List.filter_cons, filter_key_fieldEntries tk lk mk k hk rest]

theorem filter_key_eq_nil (k : GoString) :
    ∀ logData : GoMap, k ∉ logData.map Prod.fst →
      logData.filter (fun e => decide (e.1 = k)) = []
  | [], _ => rfl
  | (key, v) :: rest, h => by
    have h1 : ¬ key = k := fun e => h (by simp [e])
    have h2 : k ∉ rest.map Prod.fst := fun e => h (by simp at e ⊢; exact Or.inr e)
    simp [List.filter_cons, h1, filter_key_eq_nil k rest h2]

theorem filter_key_eq_singleton (k : GoString) (v : Value) :
    ∀ logData : GoMap, (logData.map Prod.fst).Nodup → (k, v) ∈ logData →
      logData.filter (fun e => decide (e.1 = k)) = [(k, v)]
  | [], _, h => by simp at h
  | (key, w) :: rest, hnd, h => by
    rw [List.map_cons, List.nodup_cons] at hnd
    rcases List.mem_cons.mp h with heq | hmem
    · have hk : k = key := congrArg Prod.fst heq
      have hv : v = w := congrArg Prod.snd heq
      subst hk
      subst hv
      simp [List.filter_cons, filter_key_eq_nil k rest hnd.1]
    · have hne : ¬ key = k := by
        rintro rfl
        exact hnd.1 (List.mem_map.mpr ⟨(key, v), hmem, rfl⟩)
      simp [List.filter_cons, hne, filter_key_eq_singleton k v rest hnd.2 hmem]

theorem stringAt_of_lookup_none (m : GoMap) (key : GoString) (h : m.lookup key = none) :
    stringAt m key = [] := by
  simp [stringAt, h]

theorem stringAt_of_lookup_not_string (m : GoMap) (key : GoString) (v : Value)
    (h : m.lookup key = some v) (hv : ∀ s, v ≠ Value.string s) : stringAt m key = [] := by
  cases v with
  | string s => exact absurd rfl (hv s)
  | float64 _ => simp [stringAt, h]
  | bool _ => simp [stringAt, h]
  | nil => simp [stringAt, h]
  | slice _ => simp [stringAt, h]
  | map _ => simp [stringAt, h]

theorem fieldBlock_ends_with_newline (k : GoString) (v : Value) :
    ∃ x, Spec.fieldBlock k v = x ++ [10] := by
  cases v with
  | map m => exact ⟨spaces 4 ++ k ++ str ": \x7b\n" ++ Spec.render m 6 ++ spaces 4 ++ str "\x7d", by
      simp only [Spec.fieldBlock, List.append_assoc]; rfl⟩
  | string s => exact ⟨spaces 4 ++ k ++ str ": \"" ++ fmtS (Value.string s) ++ str "\"", by
      simp only [Spec.fieldBlock, List.append_assoc]; rfl⟩
  | float64 s => exact ⟨spaces 4 ++ k ++ str ": \"" ++ fmtS (Value.float64 s) ++ str "\"", by
      simp only [Spec.fieldBlock, List.append_assoc]; rfl⟩
  | bool s => exact ⟨spaces 4 ++ k ++ str ": \"" ++ fmtS (Value.bool s) ++ str "\"", by
      simp only [Spec.fieldBlock, List.append_assoc]; rfl⟩
  | nil => exact ⟨spaces 4 ++ k ++ str ": \"" ++ fmtS Value.nil ++ str "\"", by
      simp only [Spec.fieldBlock, List.append_assoc]; rfl⟩
  | slice s => exact ⟨spaces 4 ++ k ++ str ": \"" ++ fmtS (Value.slice s) ++ str "\"", by
      simp only [Spec.fieldBlock, List.append_assoc]; rfl⟩

theorem blocks_nil_or_newline :
    ∀ entries : GoMap,
      entries.flatMap (fun e => Spec.fieldBlock e.1 e.2) = []
        ∨ ∃ x, entries.flatMap (fun e => Spec.fieldBlock e.1 e.2) = x ++ [10]
  | [] => Or.inl rfl
  | e :: rest => by
    right
    obtain ⟨x, hx⟩ := fieldBlock_ends_with_newline e.1 e.2
    rcases blocks_nil_or_newline rest with h | ⟨y, hy⟩
    · exact ⟨x, by simp [List.flatMap_cons, h, hx]⟩
    · exact ⟨Spec.fieldBlock e.1 e.2 ++ y, by simp [List.flatMap_cons, hy]⟩

theorem header_ends_with_newline (levelFirst : Bool) (ts : Option GoString)
    (level msg : GoString) : ∃ x, Spec.header levelFirst ts level msg = x ++ [10] := by
  cases ts with
  | none => exact ⟨level ++ str ": " ++ msg, rfl⟩
  | some t =>
    cases levelFirst with
    | true => exact ⟨level ++ str " " ++ t ++ str ": " ++ msg, rfl⟩
    | false => exact ⟨t ++ str " " ++ level ++ str ": " ++ msg, rfl⟩

theorem pretty_ends_with_newline (lib : Lib) (input : GoString)
    (options : Option prettyOptions) : ∃ x, pretty lib input options = x ++ [10] := by
  cases h : lib.unmarshal input with
  | none => exact ⟨input, pretty_of_decode_error lib input options h⟩
  | some logData =>
    rw [pretty_eq_headerLine_fieldSection lib input options logData h]
    obtain ⟨x, hx⟩ := header_ends_with_newline (Spec.config options).LevelFirst
      (Spec.timestamp lib options logData)
      (Spec.paintLevel (Spec.config options).Colorize
        (stringAt logData (Spec.levelKey options)))
      (Spec.paintMessage (Spec.config options).Colorize
        (stringAt logData (Spec.msgKey options)))
    rcases blocks_nil_or_newline (Spec.fieldEntries (Spec.timeKey options)
      (Spec.levelKey options) (Spec.msgKey options) logData) with h0 | ⟨y, hy⟩
    · refine ⟨x, ?_⟩
      simp only [Spec.headerLine, Spec.fieldSection, Spec.fields, h0, hx, List.append_nil]
    · refine ⟨Spec.headerLine lib options logData ++ y, ?_⟩
      simp only [Spec.fieldSection, Spec.fields, hy, List.append_assoc]

theorem jsonUnmarshal_eq_of_jsonText (input : GoString) :
    jsonUnmarshal input =
      match jsonText input with
      | some (Value.map m) => some m
      | some Value.nil => some []
      | _ => none := by
  unfold jsonUnmarshal jsonText
  cases h : decodeValue (input.length + 1) 0 (skipSpace input) with
  | none => rfl
  | some p =>
    obtain ⟨v, rest⟩ := p
    dsimp only
    by_cases hr : skipSpace rest = []
    · simp only [hr, ne_eq, not_true_eq_false, if_false]
      cases v <;> rfl
    · simp only [hr, ne_eq, not_false_eq_true, if_true]


theorem render_append (i : Nat) :
    ∀ a b : GoMap, Spec.render (a ++ b) i = Spec.render a i ++ Spec.render b i
  | [], b => by simp [Spec.render]
  | (k, v) :: rest, b => by
    have ih := render_append i rest b
    show Spec.renderEntry k v i ++ Spec.render (rest ++ b) i
      = Spec.renderEntry k v i ++ Spec.render rest i ++ Spec.render b i
    rw [ih, List.append_assoc]

theorem stringAt_nested_irrelevant (key k : GoString) (m n : GoMap) (post : GoMap) :
    ∀ pre : GoMap,
      stringAt (pre ++ (k, Value.map m) :: post) key
        = stringAt (pre ++ (k, Value.map n) :: post) key
  | [] => by
    by_cases h : key = k
    · subst h
      simp [stringAt, List.lookup]
    · have hb : (key == k) = false := by simpa using h
      simp [stringAt, List.lookup, hb]
  | (k', v') :: rest => by
    have ih := stringAt_nested_irrelevant key k m n post rest
    by_cases h : key = k'
    · subst h
      simp [stringAt, List.lookup]
    · have hb : (key == k') = false := by simpa using h
      simpa [stringAt, List.lookup, hb] using ih

theorem headerLine_nested_irrelevant (lib : Lib) (options : Option prettyOptions)
    (pre post : GoMap) (k : GoString) (m n : GoMap) :
    Spec.headerLine lib options (pre ++ (k, Value.map m) :: post)
      = Spec.headerLine lib options (pre ++ (k, Value.map n) :: post) := by
  simp only [Spec.headerLine, Spec.timestamp, stringAt_nested_irrelevant _ k m n post pre]


theorem str_quote_newline : str "\"\n" = str "\"" ++ str "\n" := rfl

theorem str_open_newline : str "\": \x7b\n" = str "\": \x7b" ++ str "\n" := rfl

theorem str_field_open_newline : str ": \x7b\n" = str ": \x7b" ++ str "\n" := rfl

theorem str_close_newline : str "\x7d\n" = str "\x7d" ++ str "\n" := rfl

mutual
theorem render_eq_mapLines (d : Nat) :
    ∀ (m : GoMap) (i : Nat), Spec.render m i = (Spec.mapLines m d i).flatMap Spec.Line.emit
  | [], i => by simp [Spec.render, Spec.mapLines]
  | (key, v) :: rest, i => by
    rw [Spec.render, Spec.mapLines, List.flatMap_append, render_eq_mapLines d rest i,
      renderEntry_eq_entryLines d key v i]
theorem renderEntry_eq_entryLines (d : Nat) (key : GoString) :
    ∀ (v : Value) (i : Nat),
      Spec.renderEntry key v i = (Spec.entryLines key v d i).flatMap Spec.Line.emit
  | .map m, i => by
    rw [Spec.renderEntry, Spec.entryLines, List.flatMap_cons, List.flatMap_append,
      ← render_eq_mapLines (d + 1) m (i + 2)]
    simp [Spec.Line.emit, str_open_newline, str_close_newline, List.append_assoc]
  | .string s, i => by
    simp [Spec.renderEntry, Spec.entryLines, Spec.Line.emit, str_quote_newline]
  | .float64 s, i => by
    simp [Spec.renderEntry, Spec.entryLines, Spec.Line.emit, str_quote_newline]
  | .bool s, i => by
    simp [Spec.renderEntry, Spec.entryLines, Spec.Line.emit, str_quote_newline]
  | .nil, i => by
    simp [Spec.renderEntry, Spec.entryLines, Spec.Line.emit, str_quote_newline]
  | .slice s, i => by
    simp [Spec.renderEntry, Spec.entryLines, Spec.Line.emit, str_quote_newline]
end

theorem fieldBlock_eq_fieldLines (key : GoString) (v : Value) :
    Spec.fieldBlock key v = (Spec.fieldLines key v).flatMap Spec.Line.emit := by
  cases v with
  | map m =>
    rw [Spec.fieldBlock, Spec.fieldLines, List.flatMap_cons, List.flatMap_append,
      ← render_eq_mapLines 1 m 6]
    simp [Spec.Line.emit, str_field_open_newline, str_close_newline, List.append_assoc]
  | string s => simp [Spec.fieldBlock, Spec.fieldLines, Spec.Line.emit, str_quote_newline]
  | float64 s => simp [Spec.fieldBlock, Spec.fieldLines, Spec.Line.emit, str_quote_newline]
  | bool s => simp [Spec.fieldBlock, Spec.fieldLines, Spec.Line.emit, str_quote_newline]
  | nil => simp [Spec.fieldBlock, Spec.fieldLines, Spec.Line.emit, str_quote_newline]
  | slice s => simp [Spec.fieldBlock, Spec.fieldLines, Spec.Line.emit, str_quote_newline]

theorem fieldSection_eq_outputLines (options : Option prettyOptions) (logData : GoMap) :
    Spec.fieldSection options logData
      = (Spec.outputLines options logData).flatMap Spec.Line.emit := by
  simp only [Spec.fieldSection, Spec.fields, Spec.outputLines, List.flatMap_assoc]
  congr 1
  funext e
  exact fieldBlock_eq_fieldLines e.1 e.2

mutual
theorem mapLines_indent (m : GoMap) (d i : Nat) :
    ∀ l ∈ Spec.mapLines m d i,
      l.indent + 2 * d = i + 2 * l.depth ∧ d ≤ l.depth
        ∧ (l.text.head? = some 34 ∨ l.text = str "\x7d") :=
  match m with
  | [] => by simp [Spec.mapLines]
  | (key, v) :: rest => by
    intro l hl
    rw [Spec.mapLines, List.mem_append] at hl
    rcases hl with hl | hl
    · exact entryLines_indent key v d i l hl
    · exact mapLines_indent rest d i l hl
theorem entryLines_indent (key : GoString) (v : Value) (d i : Nat) :
    ∀ l ∈ Spec.entryLines key v d i,
      l.indent + 2 * d = i + 2 * l.depth ∧ d ≤ l.depth
        ∧ (l.text.head? = some 34 ∨ l.text = str "\x7d") :=
  match v with
  | .map m => by
    intro l hl
    rw [Spec.entryLines, List.mem_cons, List.mem_append, List.mem_singleton] at hl
    rcases hl with rfl | hl | rfl
    · exact ⟨rfl, le_refl _, Or.inl rfl⟩
    · obtain ⟨h1, h2, h3⟩ := mapLines_indent m (d + 1) (i + 2) l hl
      exact ⟨by omega, by omega, h3⟩
    · exact ⟨rfl, le_refl _, Or.inr rfl⟩
  | .string s => by
    intro l hl
    simp only [Spec.entryLines, List.mem_singleton] at hl
    subst hl
    exact ⟨rfl, le_refl _, Or.inl rfl⟩
  | .float64 s => by
    intro l hl
    simp only [Spec.entryLines, List.mem_singleton] at hl
    subst hl
    exact ⟨rfl, le_refl _, Or.inl rfl⟩
  | .bool s => by
    intro l hl
    simp only [Spec.entryLines, List.mem_singleton] at hl
    subst hl
    exact ⟨rfl, le_refl _, Or.inl rfl⟩
  | .nil => by
    intro l hl
    simp only [Spec.entryLines, List.mem_singleton] at hl
    subst hl
    exact ⟨rfl, le_refl _, Or.inl rfl⟩
  | .slice s => by
    intro l hl
    simp only [Spec.entryLines, List.mem_singleton] at hl
    subst hl
    exact ⟨rfl, le_refl _, Or.inl rfl⟩
end

theorem fieldLines_value_indent (key : GoString) (v : Value) (hv : ∀ m, v ≠ Value.map m) :
    Spec.fieldLines key v
      = [⟨Spec.LineKind.value, key, 0, 4, key ++ str ": \"" ++ fmtS v ++ str "\""⟩] := by
  cases v with
  | map m => exact absurd rfl (hv m)
  | string s => rfl
  | float64 s => rfl
  | bool s => rfl
  | nil => rfl
  | slice s => rfl

theorem fieldLines_indent (key : GoString) (v : Value) :
    ∀ l ∈ Spec.fieldLines key v,
      l.indent = 4 + 2 * l.depth
        ∧ ((l.depth = 0 ∧ l.kind ≠ Spec.LineKind.closing ∧ l.key = key
            ∧ ∃ tail, l.text = key ++ tail)
          ∨ l.text.head? = some 34 ∨ l.text = str "\x7d") := by
  intro l hl
  by_cases hv : ∀ m, v ≠ Value.map m
  · rw [fieldLines_value_indent key v hv, List.mem_singleton] at hl
    subst hl
    exact ⟨rfl, Or.inl ⟨rfl, fun h => Spec.LineKind.noConfusion h, rfl,
      str ": \"" ++ (fmtS v ++ str "\""), by simp only [List.append_assoc]⟩⟩
  · have hm : ∃ m, v = Value.map m := by
      by_contra hne
      exact hv (fun m hm => hne ⟨m, hm⟩)
    obtain ⟨m, rfl⟩ := hm
    rw [Spec.fieldLines, List.mem_cons, List.mem_append, List.mem_singleton] at hl
    rcases hl with rfl | hl | rfl
    · exact ⟨rfl, Or.inl ⟨rfl, fun h => Spec.LineKind.noConfusion h, rfl, _, rfl⟩⟩
    · obtain ⟨h1, _, h3⟩ := mapLines_indent m 1 6 l hl
      exact ⟨by omega, Or.inr h3⟩
    · exact ⟨rfl, Or.inr (Or.inr rfl)⟩

mutual
theorem wellNested_mapLines (base : Nat) (m : GoMap) (d i : Nat) (rest stack : List Spec.Line)
    (hd : d = base + stack.length) :
    Spec.wellNested base (Spec.mapLines m d i ++ rest) stack
      = Spec.wellNested base rest stack :=
  match m with
  | [] => by simp [Spec.mapLines]
  | (key, v) :: tail => by
    rw [Spec.mapLines, List.append_assoc,
      wellNested_entryLines base key v d i (Spec.mapLines tail d i ++ rest) stack hd,
      wellNested_mapLines base tail d i rest stack hd]
theorem wellNested_entryLines (base : Nat) (key : GoString) (v : Value) (d i : Nat)
    (rest stack : List Spec.Line) (hd : d = base + stack.length) :
    Spec.wellNested base (Spec.entryLines key v d i ++ rest) stack
      = Spec.wellNested base rest stack :=
  match v with
  | .map m => by
    have ih := wellNested_mapLines base m (d + 1) (i + 2)
      ((⟨.closing, key, d, i, str "\x7d"⟩ : Spec.Line) :: rest)
      ((⟨.opening, key, d, i, str "\"" ++ key ++ str "\": \x7b"⟩ : Spec.Line) :: stack)
      (by simp only [List.length_cons]; omega)
    have e : Spec.entryLines key (Value.map m) d i ++ rest
        = (⟨.opening, key, d, i, str "\"" ++ key ++ str "\": \x7b"⟩ : Spec.Line)
          :: (Spec.mapLines m (d + 1) (i + 2)
              ++ (⟨.closing, key, d, i, str "\x7d"⟩ : Spec.Line) :: rest) := by
      rw [Spec.entryLines]
      exact congrArg (List.cons _) (List.append_assoc _ _ _)
    rw [e]
    have e1 : ∀ X : List Spec.Line,
        Spec.wellNested base
            ((⟨.opening, key, d, i, str "\"" ++ key ++ str "\": \x7b"⟩ : Spec.Line) :: X) stack
          = Spec.wellNested base X
              ((⟨.opening, key, d, i, str "\"" ++ key ++ str "\": \x7b"⟩ : Spec.Line) :: stack) := by
      intro X
      simp [Spec.wellNested, hd]
    have e2 : Spec.wellNested base
            ((⟨.closing, key, d, i, str "\x7d"⟩ : Spec.Line) :: rest)
            ((⟨.opening, key, d, i, str "\"" ++ key ++ str "\": \x7b"⟩ : Spec.Line) :: stack)
          = Spec.wellNested base rest stack := by
      simp [Spec.wellNested]
    rw [e1, ih, e2]
  | .string s => by simp [Spec.entryLines, Spec.wellNested, hd]
  | .float64 s => by simp [Spec.entryLines, Spec.wellNested, hd]
  | .bool s => by simp [Spec.entryLines, Spec.wellNested, hd]
  | .nil => by simp [Spec.entryLines, Spec.wellNested, hd]
  | .slice s => by simp [Spec.entryLines, Spec.wellNested, hd]
end


mutual
theorem walk_mapLines (m : GoMap) (d i : Nat) :
    ((Spec.mapLines m d i).filter (fun l => decide (l.kind ≠ Spec.LineKind.closing))).map
        (fun l => (l.key, decide (l.kind = Spec.LineKind.opening)))
      = Spec.walk m :=
  match m with
  | [] => by simp [Spec.mapLines, Spec.walk]
  | (key, v) :: rest => by
    rw [Spec.mapLines, Spec.walk, List.filter_append, List.map_append,
      walk_entryLines key v d i, walk_mapLines rest d i]
theorem walk_entryLines (key : GoString) (v : Value) (d i : Nat) :
    ((Spec.entryLines key v d i).filter (fun l => decide (l.kind ≠ Spec.LineKind.closing))).map
        (fun l => (l.key, decide (l.kind = Spec.LineKind.opening)))
      = Spec.walkEntry key v :=
  match v with
  | .map m => by
    have ih := walk_mapLines m (d + 1) (i + 2)
    simp only [decide_not] at ih
    simp [Spec.entryLines, Spec.walkEntry, List.filter_cons, ih]
  | .string s => by simp [Spec.entryLines, Spec.walkEntry]
  | .float64 s => by simp [Spec.entryLines, Spec.walkEntry]
  | .bool s => by simp [Spec.entryLines, Spec.walkEntry]
  | .nil => by simp [Spec.entryLines, Spec.walkEntry]
  | .slice s => by simp [Spec.entryLines, Spec.walkEntry]
end

mutual
theorem closing_mapLines (m : GoMap) (d i : Nat) :
    ((Spec.mapLines m d i).filter (fun l => decide (l.kind = Spec.LineKind.closing))).length
      = ((Spec.walk m).filter (fun e => e.2)).length :=
  match m with
  | [] => by simp [Spec.mapLines, Spec.walk]
  | (key, v) :: rest => by
    rw [Spec.mapLines, Spec.walk, List.filter_append, List.filter_append, List.length_append,
      List.length_append, closing_entryLines key v d i, closing_mapLines rest d i]
theorem closing_entryLines (key : GoString) (v : Value) (d i : Nat) :
    ((Spec.entryLines key v d i).filter (fun l => decide (l.kind = Spec.LineKind.closing))).length
      = ((Spec.walkEntry key v).filter (fun e => e.2)).length :=
  match v with
  | .map m => by
    have ih := closing_mapLines m (d + 1) (i + 2)
    simp only [Spec.entryLines, Spec.walkEntry, List.filter_cons, List.filter_append,
      List.length_append]
    simp [ih]
  | .string s => by simp [Spec.entryLines, Spec.walkEntry]
  | .float64 s => by simp [Spec.entryLines, Spec.walkEntry]
  | .bool s => by simp [Spec.entryLines, Spec.walkEntry]
  | .nil => by simp [Spec.entryLines, Spec.walkEntry]
  | .slice s => by simp [Spec.entryLines, Spec.walkEntry]
end

mutual
theorem mapLines_text (m : GoMap) (d i : Nat) :
    ∀ l ∈ Spec.mapLines m d i,
      (l.kind = Spec.LineKind.opening → l.text = str "\"" ++ l.key ++ str "\": \x7b")
        ∧ (l.kind = Spec.LineKind.closing → l.text = str "\x7d")
        ∧ (l.kind = Spec.LineKind.value →
            ∃ v, (∀ n, v ≠ Value.map n)
              ∧ l.text = str "\"" ++ l.key ++ str "\": \"" ++ fmtS v ++ str "\"") :=
  match m with
  | [] => by simp [Spec.mapLines]
  | (key, v) :: rest => by
    intro l hl
    rw [Spec.mapLines, List.mem_append] at hl
    rcases hl with hl | hl
    · exact entryLines_text key v d i l hl
    · exact mapLines_text rest d i l hl
theorem entryLines_text (key : GoString) (v : Value) (d i : Nat) :
    ∀ l ∈ Spec.entryLines key v d i,
      (l.kind = Spec.LineKind.opening → l.text = str "\"" ++ l.key ++ str "\": \x7b")
        ∧ (l.kind = Spec.LineKind.closing → l.text = str "\x7d")
        ∧ (l.kind = Spec.LineKind.value →
            ∃ w, (∀ n, w ≠ Value.map n)
              ∧ l.text = str "\"" ++ l.key ++ str "\": \"" ++ fmtS w ++ str "\"") :=
  match v with
  | .map m => by
    intro l hl
    rw [Spec.entryLines, List.mem_cons, List.mem_append, List.mem_singleton] at hl
    rcases hl with rfl | hl | rfl
    · exact ⟨fun _ => rfl, fun h => Spec.LineKind.noConfusion h,
        fun h => Spec.LineKind.noConfusion h⟩
    · exact mapLines_text m (d + 1) (i + 2) l hl
    · exact ⟨fun h => Spec.LineKind.noConfusion h, fun _ => rfl,
        fun h => Spec.LineKind.noConfusion h⟩
  | .string s => by
    intro l hl
    simp only [Spec.entryLines, List.mem_singleton] at hl
    subst hl
    exact ⟨fun h => Spec.LineKind.noConfusion h, fun h => Spec.LineKind.noConfusion h,
      fun _ => ⟨_, fun _ h => Value.noConfusion h, rfl⟩⟩
  | .float64 s => by
    intro l hl
    simp only [Spec.entryLines, List.mem_singleton] at hl
    subst hl
    exact ⟨fun h => Spec.LineKind.noConfusion h, fun h => Spec.LineKind.noConfusion h,
      fun _ => ⟨_, fun _ h => Value.noConfusion h, rfl⟩⟩
  | .bool s => by
    intro l hl
    simp only [Spec.entryLines, List.mem_singleton] at hl
    subst hl
    exact ⟨fun h => Spec.LineKind.noConfusion h, fun h => Spec.LineKind.noConfusion h,
      fun _ => ⟨_, fun _ h => Value.noConfusion h, rfl⟩⟩
  | .nil => by
    intro l hl
    simp only [Spec.entryLines, List.mem_singleton] at hl
    subst hl
    exact ⟨fun h => Spec.LineKind.noConfusion h, fun h => Spec.LineKind.noConfusion h,
      fun _ => ⟨_, fun _ h => Value.noConfusion h, rfl⟩⟩
  | .slice s => by
    intro l hl
    simp only [Spec.entryLines, List.mem_singleton] at hl
    subst hl
    exact ⟨fun h => Spec.LineKind.noConfusion h, fun h => Spec.LineKind.noConfusion h,
      fun _ => ⟨_, fun _ h => Value.noConfusion h, rfl⟩⟩
end


theorem wellNested_fieldLines (key : GoString) (v : Value) (rest : List Spec.Line) :
    Spec.wellNested 0 (Spec.fieldLines key v ++ rest) [] = Spec.wellNested 0 rest [] := by
  by_cases hv : ∀ m, v ≠ Value.map m
  · rw [fieldLines_value_indent key v hv]
    simp [Spec.wellNested]
  · have hm : ∃ m, v = Value.map m := by
      by_contra hne
      exact hv (fun m hm => hne ⟨m, hm⟩)
    obtain ⟨m, rfl⟩ := hm
    have ih := wellNested_mapLines 0 m 1 6
      ((⟨.closing, key, 0, 4, str "\x7d"⟩ : Spec.Line) :: rest)
      [(⟨.opening, key, 0, 4, key ++ str ": \x7b"⟩ : Spec.Line)] (by simp)
    have e : Spec.fieldLines key (Value.map m) ++ rest
        = (⟨.opening, key, 0, 4, key ++ str ": \x7b"⟩ : Spec.Line)
          :: (Spec.mapLines m 1 6 ++ (⟨.closing, key, 0, 4, str "\x7d"⟩ : Spec.Line) :: rest) := by
      rw [Spec.fieldLines]
      exact congrArg (List.cons _) (List.append_assoc _ _ _)
    have e1 : ∀ X : List Spec.Line,
        Spec.wellNested 0 ((⟨.opening, key, 0, 4, key ++ str ": \x7b"⟩ : Spec.Line) :: X) []
          = Spec.wellNested 0 X [(⟨.opening, key, 0, 4, key ++ str ": \x7b"⟩ : Spec.Line)] := by
      intro X
      simp [Spec.wellNested]
    have e2 : Spec.wellNested 0 ((⟨.closing, key, 0, 4, str "\x7d"⟩ : Spec.Line) :: rest)
            [(⟨.opening, key, 0, 4, key ++ str ": \x7b"⟩ : Spec.Line)]
          = Spec.wellNested 0 rest [] := by
      simp [Spec.wellNested]
    rw [e, e1, ih, e2]

theorem wellNested_flatMap_fieldLines :
    ∀ entries : GoMap,
      Spec.wellNested 0 (entries.flatMap (fun e => Spec.fieldLines e.1 e.2)) [] = true
  | [] => rfl
  | e :: rest => by
    rw [List.flatMap_cons, wellNested_fieldLines, wellNested_flatMap_fieldLines rest]

theorem outputLines_indent (options : Option prettyOptions) (logData : GoMap) :
    ∀ l ∈ Spec.outputLines options logData,
      l.indent = 4 + 2 * l.depth
        ∧ ((l.depth = 0 ∧ l.kind ≠ Spec.LineKind.closing ∧ ∃ tail, l.text = l.key ++ tail)
          ∨ l.text.head? = some 34 ∨ l.text = str "\x7d") := by
  intro l hl
  rw [Spec.outputLines, List.mem_flatMap] at hl
  obtain ⟨e, _, hl⟩ := hl
  obtain ⟨h1, h2⟩ := fieldLines_indent e.1 e.2 l hl
  refine ⟨h1, ?_⟩
  rcases h2 with ⟨h0, hk, hkey, tail, ht⟩ | h2
  · exact Or.inl ⟨h0, hk, tail, by rw [hkey]; exact ht⟩
  · exact Or.inr h2


theorem SameMap_induct (P : GoMap → GoMap → Prop) (hnil : P [] [])
    (hcons : ∀ (k : GoString) (v w : Value) (m n : GoMap),
      Spec.SameValue v w → Spec.SameMap m n → P m n → P ((k, v) :: m) ((k, w) :: n))
    (hswap : ∀ (e f : GoString × Value) (m : GoMap), P (e :: f :: m) (f :: e :: m))
    (htrans : ∀ a b c : GoMap, Spec.SameMap a b → Spec.SameMap b c → P a b → P b c → P a c) :
    ∀ a b : GoMap, Spec.SameMap a b → P a b := fun a b h =>
  @Spec.SameMap.rec (fun _ _ _ => True) (fun a b _ => P a b)
    (fun _ => trivial) (fun _ _ => trivial) hnil
    (fun k {v w m n} hv hm _ ih => hcons k v w m n hv hm ih)
    (fun e f m => hswap e f m)
    (fun {a b c} h1 h2 ih1 ih2 => htrans a b c h1 h2 ih1 ih2) a b h

theorem SameMap_refl : ∀ m : GoMap, Spec.SameMap m m
  | [] => Spec.SameMap.nil
  | (k, v) :: rest => Spec.SameMap.cons k (Spec.SameValue.refl v) (SameMap_refl rest)

theorem SameMap_of_perm {a b : GoMap} (h : a.Perm b) : Spec.SameMap a b := by
  induction h with
  | nil => exact Spec.SameMap.nil
  | cons e _ ih => exact Spec.SameMap.cons e.1 (Spec.SameValue.refl e.2) ih
  | swap e f m => exact Spec.SameMap.swap f e m
  | trans _ _ ih1 ih2 => exact Spec.SameMap.trans ih1 ih2

theorem SameMap_keys_perm (a b : GoMap) (h : Spec.SameMap a b) :
    (a.map Prod.fst).Perm (b.map Prod.fst) := by
  refine SameMap_induct (fun a b => (a.map Prod.fst).Perm (b.map Prod.fst)) ?_ ?_ ?_ ?_ a b h
  · exact List.Perm.refl _
  · intro k v w m n _ _ ih
    exact ih.cons k
  · intro e f m
    exact List.Perm.swap f.1 e.1 (m.map Prod.fst)
  · intro a b c _ _ ih1 ih2
    exact ih1.trans ih2

theorem SameValue_stringOf (v w : Value) (h : Spec.SameValue v w) :
    stringOf v = stringOf w := by
  cases h with
  | refl => rfl
  | map _ => rfl

theorem stringAt_cons (k key : GoString) (v : Value) (m : GoMap) :
    stringAt ((k, v) :: m) key = if key = k then stringOf v else stringAt m key := by
  by_cases h : key = k
  · subst h
    cases v <;> simp [stringAt, List.lookup, stringOf]
  · have hb : (key == k) = false := by simpa using h
    simp [stringAt, List.lookup, hb, h]

theorem stringAt_same (a b : GoMap) (h : Spec.SameMap a b) :
    (a.map Prod.fst).Nodup → ∀ key, stringAt a key = stringAt b key := by
  refine SameMap_induct
    (fun a b => (a.map Prod.fst).Nodup → ∀ key, stringAt a key = stringAt b key)
    ?_ ?_ ?_ ?_ a b h
  · intro _ _
    rfl
  · intro k v w m n hv _ ih hnd key
    rw [List.map_cons, List.nodup_cons] at hnd
    rw [stringAt_cons, stringAt_cons, SameValue_stringOf v w hv, ih hnd.2 key]
  · intro e f m hnd key
    obtain ⟨k1, v1⟩ := e
    obtain ⟨k2, v2⟩ := f
    simp only [List.map_cons, List.nodup_cons, List.mem_cons] at hnd
    have hne : k1 ≠ k2 := fun e => hnd.1 (Or.inl e)
    rw [stringAt_cons, stringAt_cons, stringAt_cons, stringAt_cons]
    by_cases h1 : key = k1
    · have h2 : ¬ key = k2 := fun e => hne (h1.symm.trans e)
      simp [h1, h2, hne]
    · simp [h1]
  · intro a b c hab _ ih1 ih2 hnd key
    rw [ih1 hnd key, ih2 ((SameMap_keys_perm a b hab).nodup_iff.mp hnd) key]

theorem headerLine_same (lib lib' : Lib) (options : Option prettyOptions) (a b : GoMap)
    (htime : lib'.timeParse = lib.timeParse) (h : Spec.SameMap a b)
    (hnd : (a.map Prod.fst).Nodup) :
    Spec.headerLine lib' options b = Spec.headerLine lib options a := by
  simp only [Spec.headerLine, Spec.timestamp, htime, stringAt_same a b h hnd]


theorem SameMap_length (a b : GoMap) (h : Spec.SameMap a b) : a.length = b.length := by
  have := (SameMap_keys_perm a b h).length_eq
  simpa using this

theorem SameMap_nil_left (b : GoMap) (h : Spec.SameMap [] b) : b = [] := by
  have := SameMap_length [] b h
  exact List.length_eq_zero.mp this.symm

theorem SameValue_trans (u v w : Value) (h1 : Spec.SameValue u v) (h2 : Spec.SameValue v w) :
    Spec.SameValue u w := by
  cases h1 with
  | refl => exact h2
  | map hm =>
    cases h2 with
    | refl => exact Spec.SameValue.map hm
    | map hn => exact Spec.SameValue.map (Spec.SameMap.trans hm hn)

theorem SameValue_map_inv (m : GoMap) (w : Value) (h : Spec.SameValue (Value.map m) w) :
    ∃ n, w = Value.map n ∧ Spec.SameMap m n := by
  cases h with
  | refl => exact ⟨m, rfl, SameMap_refl m⟩
  | map hm => exact ⟨_, rfl, hm⟩

theorem SameValue_not_map_inv (v w : Value) (h : Spec.SameValue v w)
    (hv : ∀ m, v ≠ Value.map m) : w = v := by
  cases h with
  | refl => rfl
  | map _ => exact absurd rfl (hv _)

theorem SameMap_fieldEntries (tk lk mk : GoString) (a b : GoMap) (h : Spec.SameMap a b) :
    Spec.SameMap (Spec.fieldEntries tk lk mk a) (Spec.fieldEntries tk lk mk b) := by
  refine SameMap_induct
    (fun a b => Spec.SameMap (Spec.fieldEntries tk lk mk a) (Spec.fieldEntries tk lk mk b))
    ?_ ?_ ?_ ?_ a b h
  · exact Spec.SameMap.nil
  · intro k v w m n hv _ ih
    by_cases hk : k = tk ∨ k = lk ∨ k = mk
    · rw [fieldEntries_cons_reserved _ _ _ k v m hk, fieldEntries_cons_reserved _ _ _ k w n hk]
      exact ih
    · rw [fieldEntries_cons_listed _ _ _ k v m hk, fieldEntries_cons_listed _ _ _ k w n hk]
      exact Spec.SameMap.cons k hv ih
  · intro e f m
    obtain ⟨k1, v1⟩ := e
    obtain ⟨k2, v2⟩ := f
    by_cases h1 : k1 = tk ∨ k1 = lk ∨ k1 = mk <;> by_cases h2 : k2 = tk ∨ k2 = lk ∨ k2 = mk
    · rw [fieldEntries_cons_reserved _ _ _ k1 v1 _ h1, fieldEntries_cons_reserved _ _ _ k2 v2 _ h2,
        fieldEntries_cons_reserved _ _ _ k2 v2 _ h2, fieldEntries_cons_reserved _ _ _ k1 v1 _ h1]
      exact SameMap_refl _
    · rw [fieldEntries_cons_reserved _ _ _ k1 v1 _ h1, fieldEntries_cons_listed _ _ _ k2 v2 _ h2,
        fieldEntries_cons_listed _ _ _ k2 v2 _ h2, fieldEntries_cons_reserved _ _ _ k1 v1 _ h1]
      exact SameMap_refl _
    · rw [fieldEntries_cons_listed _ _ _ k1 v1 _ h1, fieldEntries_cons_reserved _ _ _ k2 v2 _ h2,
        fieldEntries_cons_reserved _ _ _ k2 v2 _ h2, fieldEntries_cons_listed _ _ _ k1 v1 _ h1]
      exact SameMap_refl _
    · rw [fieldEntries_cons_listed _ _ _ k1 v1 _ h1, fieldEntries_cons_listed _ _ _ k2 v2 _ h2,
        fieldEntries_cons_listed _ _ _ k2 v2 _ h2, fieldEntries_cons_listed _ _ _ k1 v1 _ h1]
      exact Spec.SameMap.swap _ _ _
  · intro a b c _ _ ih1 ih2
    exact Spec.SameMap.trans ih1 ih2

theorem SameMap_single (a b : GoMap) (h : Spec.SameMap a b) :
    a.length ≤ 1 →
      (a = [] ∧ b = []) ∨ ∃ k v w, a = [(k, v)] ∧ b = [(k, w)] ∧ Spec.SameValue v w := by
  refine SameMap_induct
    (fun a b => a.length ≤ 1 →
      (a = [] ∧ b = []) ∨ ∃ k v w, a = [(k, v)] ∧ b = [(k, w)] ∧ Spec.SameValue v w)
    ?_ ?_ ?_ ?_ a b h
  · intro _
    exact Or.inl ⟨rfl, rfl⟩
  · intro k v w m n hv hm _ hlen
    have hm0 : m = [] := by
      apply List.length_eq_zero.mp
      simp only [List.length_cons] at hlen
      omega
    subst hm0
    have hn0 := SameMap_nil_left n hm
    subst hn0
    exact Or.inr ⟨k, v, w, rfl, rfl, hv⟩
  · intro e f m hlen
    simp only [List.length_cons] at hlen
    omega
  · intro a b c hab _ ih1 ih2 hlen
    rcases ih1 hlen with ⟨ha, hb⟩ | ⟨k, v, u, ha, hb, hvu⟩
    · subst ha
      subst hb
      exact ih2 hlen
    · have hblen : b.length ≤ 1 := by rw [hb]; simp
      rcases ih2 hblen with ⟨hb0, _⟩ | ⟨k', u', w, hb', hc, huw⟩
      · rw [hb] at hb0
        exact absurd hb0 (by simp)
      · rw [hb] at hb'
        have hinj := List.head_eq_of_cons_eq hb'
        have hk : k = k' := congrArg Prod.fst hinj
        have hu : u = u' := congrArg Prod.snd hinj
        subst hk
        subst hu
        exact Or.inr ⟨k, v, w, ha, hc, SameValue_trans v u w hvu huw⟩


mutual
theorem render_same :
    ∀ (m n : GoMap) (i : Nat), Spec.SameMap m n → Spec.singleEntries m = true →
      Spec.render m i = Spec.render n i
  | [], n, i, h, _ => by
    rw [SameMap_nil_left n h]
  | (k, v) :: rest, n, i, h, hs => by
    simp only [Spec.singleEntries, Bool.and_eq_true, List.isEmpty_iff] at hs
    obtain ⟨hrest, hv⟩ := hs
    subst hrest
    rcases SameMap_single _ n h (by simp) with ⟨h0, _⟩ | ⟨k', v', w, ha, hb, hvw⟩
    · exact absurd h0 (by simp)
    · have hinj := List.head_eq_of_cons_eq ha
      have hk : k = k' := congrArg Prod.fst hinj
      have hv' : v = v' := congrArg Prod.snd hinj
      subst hk
      subst hv'
      rw [hb]
      simp only [Spec.render]
      rw [renderEntry_same v w k i hvw hv]
theorem renderEntry_same :
    ∀ (v w : Value) (k : GoString) (i : Nat), Spec.SameValue v w → Spec.singleValue v = true →
      Spec.renderEntry k v i = Spec.renderEntry k w i
  | .map m, w, k, i, h, hs => by
    obtain ⟨n, hw, hmn⟩ := SameValue_map_inv m w h
    subst hw
    simp only [Spec.singleValue] at hs
    simp only [Spec.renderEntry, render_same m n (i + 2) hmn hs]
  | .string s, w, k, i, h, _ => by
    rw [SameValue_not_map_inv _ w h (fun _ e => Value.noConfusion e)]
  | .float64 s, w, k, i, h, _ => by
    rw [SameValue_not_map_inv _ w h (fun _ e => Value.noConfusion e)]
  | .bool s, w, k, i, h, _ => by
    rw [SameValue_not_map_inv _ w h (fun _ e => Value.noConfusion e)]
  | .nil, w, k, i, h, _ => by
    rw [SameValue_not_map_inv _ w h (fun _ e => Value.noConfusion e)]
  | .slice s, w, k, i, h, _ => by
    rw [SameValue_not_map_inv _ w h (fun _ e => Value.noConfusion e)]
end

theorem fieldBlock_same (k : GoString) (v w : Value) (h : Spec.SameValue v w)
    (hs : Spec.singleValue v = true) : Spec.fieldBlock k v = Spec.fieldBlock k w := by
  by_cases hv : ∀ m, v ≠ Value.map m
  · rw [SameValue_not_map_inv v w h hv]
  · have hm : ∃ m, v = Value.map m := by
      by_contra hne
      exact hv (fun m hm => hne ⟨m, hm⟩)
    obtain ⟨m, rfl⟩ := hm
    obtain ⟨n, hw, hmn⟩ := SameValue_map_inv m w h
    subst hw
    simp only [Spec.singleValue] at hs
    simp only [Spec.fieldBlock, render_same m n 6 hmn hs]

theorem fieldSection_same (options : Option prettyOptions) (a b : GoMap)
    (h : Spec.SameMap a b) (hs : Spec.singleListed options a = true) :
    Spec.fieldSection options b = Spec.fieldSection options a := by
  have hf := SameMap_fieldEntries (Spec.timeKey options) (Spec.levelKey options)
    (Spec.msgKey options) a b h
  simp only [Spec.singleListed] at hs
  simp only [Spec.fieldSection, Spec.fields]
  generalize Spec.fieldEntries (Spec.timeKey options) (Spec.levelKey options)
    (Spec.msgKey options) a = fa at hf hs
  generalize Spec.fieldEntries (Spec.timeKey options) (Spec.levelKey options)
    (Spec.msgKey options) b = fb at hf
  cases fa with
  | nil => rw [SameMap_nil_left fb hf]
  | cons e rest =>
    obtain ⟨k, v⟩ := e
    simp only [Spec.singleEntries, Bool.and_eq_true, List.isEmpty_iff] at hs
    obtain ⟨hrest, hv⟩ := hs
    subst hrest
    rcases SameMap_single _ fb hf (by simp) with ⟨h0, _⟩ | ⟨k', v', w, ha, hb, hvw⟩
    · exact absurd h0 (by simp)
    · have hinj := List.head_eq_of_cons_eq ha
      have hk : k = k' := congrArg Prod.fst hinj
      have hv' : v = v' := congrArg Prod.snd hinj
      subst hk
      subst hv'
      rw [hb]
      simp only [List.flatMap_cons, List.flatMap_nil, List.append_nil]
      exact (fieldBlock_same k v w hvw hv).symm

theorem fieldSection_eq_flatten (options : Option prettyOptions) (logData : GoMap) :
    Spec.fieldSection options logData = (Spec.fieldBlocks options logData).flatten := by
  simp only [Spec.fieldSection, Spec.fields, Spec.fieldBlocks, List.flatMap]

theorem fieldBlocks_perm (options : Option prettyOptions) (a b : GoMap) (h : a.Perm b) :
    (Spec.fieldBlocks options a).Perm (Spec.fieldBlocks options b) := by
  simp only [Spec.fieldBlocks, Spec.fieldEntries]
  exact (h.filter _).map _


theorem toDigitsCore_acc (fuel : Nat) :
    ∀ (n : Nat) (ds : List Char),
      Nat.toDigitsCore 10 fuel n ds = Nat.toDigitsCore 10 fuel n [] ++ ds := by
  induction fuel with
  | zero => intro n ds; rfl
  | succ f ih =>
    intro n ds
    simp only [Nat.toDigitsCore]
    by_cases h : n / 10 = 0
    · simp [h]
    · simp only [h, if_false]
      rw [ih (n / 10) (Nat.digitChar (n % 10) :: ds), ih (n / 10) [Nat.digitChar (n % 10)]]
      simp

theorem toDigitsCore_fuel (f1 : Nat) :
    ∀ (f2 n : Nat), n < f1 → n < f2 →
      Nat.toDigitsCore 10 f1 n [] = Nat.toDigitsCore 10 f2 n [] := by
  induction f1 with
  | zero => intro f2 n h1; omega
  | succ f ih =>
    intro f2 n h1 h2
    cases f2 with
    | zero => omega
    | succ g =>
      simp only [Nat.toDigitsCore]
      by_cases h : n / 10 = 0
      · simp [h]
      · simp only [h, if_false]
        have hlt : n / 10 < n := Nat.div_lt_self (by omega) (by omega)
        rw [toDigitsCore_acc f, toDigitsCore_acc g, ih g (n / 10) (by omega) (by omega)]

theorem toDigits_step (n : Nat) :
    Nat.toDigits 10 n
      = if n < 10 then [Nat.digitChar n]
        else Nat.toDigits 10 (n / 10) ++ [Nat.digitChar (n % 10)] := by
  by_cases h : n < 10
  · have h0 : n / 10 = 0 := Nat.div_eq_of_lt h
    simp [Nat.toDigits, Nat.toDigitsCore, h0, h, Nat.mod_eq_of_lt h]
  · have h0 : ¬ n / 10 = 0 := by omega
    simp only [h, if_false]
    rw [Nat.toDigits, Nat.toDigitsCore]
    simp only [h0, if_false]
    rw [toDigitsCore_acc, Nat.toDigits,
      toDigitsCore_fuel n (n / 10 + 1) (n / 10) (by omega) (by omega)]

theorem digitChar_byte (r : Nat) (h : r < 10) :
    (Nat.digitChar r).toNat.toUInt8 = (48 + r).toUInt8 := by
  interval_cases r <;> rfl

theorem natText_step (n : Nat) :
    natText n
      = if n < 10 then [(48 + n).toUInt8]
        else natText (n / 10) ++ [(48 + n % 10).toUInt8] := by
  unfold natText
  rw [toDigits_step n]
  by_cases h : n < 10
  · simp [h, digitChar_byte n h]
  · simp [h, digitChar_byte (n % 10) (Nat.mod_lt _ (by omega))]

theorem appendInt_eq_natText (x width : Nat) :
    appendInt x width = List.replicate (width - (natText x).length) 48 ++ natText x := rfl

theorem digit_byte_roundtrip (c : UInt8) (h : isDigit c = true) :
    (48 + (c.toNat - 48)).toUInt8 = c ∧ c.toNat - 48 < 10 := by
  simp only [isDigit, Bool.and_eq_true, decide_eq_true_eq] at h
  obtain ⟨h1, h2⟩ := h
  have h1' : 48 ≤ c.toNat := h1
  have h2' : c.toNat ≤ 57 := h2
  refine ⟨?_, by omega⟩
  have : 48 + (c.toNat - 48) = c.toNat := by omega
  rw [this]
  apply UInt8.ext
  simp [Nat.toUInt8, UInt8.ofNat, UInt8.toNat]


theorem digitsVal_snoc (ds : GoString) (c : UInt8) :
    digitsVal (ds ++ [c]) = digitsVal ds * 10 + (c.toNat - 48) := by
  simp [digitsVal, List.foldl_append]

theorem natText_zero : natText 0 = [48] := rfl

theorem appendInt_digitsVal (ds : GoString) :
    ds ≠ [] → (∀ c ∈ ds, isDigit c = true) → appendInt (digitsVal ds) ds.length = ds := by
  induction ds using List.reverseRecOn with
  | nil => intro h; exact absurd rfl h
  | append_singleton init c ih =>
    intro _ hd
    have hc := digit_byte_roundtrip c (hd c (by simp))
    have hinit : ∀ x ∈ init, isDigit x = true := fun x hx => hd x (by simp [hx])
    rw [digitsVal_snoc, appendInt_eq_natText, natText_step]
    by_cases h0 : init = []
    · subst h0
      have hv : digitsVal [] = 0 := rfl
      simp [hv, hc.2, hc.1]
    · have ih' := ih h0 hinit
      rw [appendInt_eq_natText] at ih'
      by_cases hv : digitsVal init = 0
      · rw [hv, natText_zero] at ih'
        have hlen : 1 ≤ init.length := List.length_pos.mpr h0
        have hrep : init = List.replicate init.length 48 := by
          have e : init.length = (init.length - 1) + 1 := by omega
          simp only [List.length_singleton] at ih'
          have e2 : List.replicate init.length (48 : UInt8)
              = List.replicate (init.length - 1) 48 ++ [48] := by
            rw [← List.replicate_succ', ← e]
          rw [e2]
          exact ih'.symm
        simp only [hv, Nat.zero_mul, Nat.zero_add, hc.2, if_true, hc.1, List.length_append,
          List.length_singleton, Nat.add_sub_cancel]
        rw [← hrep]
      · have hge : ¬ digitsVal init * 10 + (c.toNat - 48) < 10 := by omega
        have hdiv : (digitsVal init * 10 + (c.toNat - 48)) / 10 = digitsVal init := by omega
        have hmod : (digitsVal init * 10 + (c.toNat - 48)) % 10 = c.toNat - 48 := by omega
        simp only [hge, if_false, hdiv, hmod, hc.1, List.length_append, List.length_singleton,
          Nat.add_sub_add_right]
        rw [← List.append_assoc, ih']

theorem appendInt_one_digit (a : UInt8) (h : isDigit a = true) :
    appendInt (digitsVal [a]) 2 = [48, a] := by
  have hc := digit_byte_roundtrip a h
  have hv : digitsVal [a] = a.toNat - 48 := by simp [digitsVal]
  rw [hv, appendInt_eq_natText, natText_step]
  simp [hc.2, hc.1]


theorem digitsVal_append_zeros (xs : GoString) (k : Nat) :
    digitsVal (xs ++ List.replicate k 48) = digitsVal xs * 10 ^ k := by
  induction k with
  | zero => simp
  | succ k ih =>
    rw [List.replicate_succ', ← List.append_assoc, digitsVal_snoc, ih, pow_succ]
    have : (48 : UInt8).toNat - 48 = 0 := rfl
    rw [this, Nat.add_zero, Nat.mul_assoc]

theorem take_three_padded (ds : GoString) (hne : ds ≠ []) :
    (ds.take 9 ++ List.replicate (9 - (ds.take 9).length) 48).take 3
      = Spec.millis ds := by
  have h000 : str "000" = [48, 48, 48] := rfl
  match ds, hne with
  | [a], _ => simp [Spec.millis, h000, List.replicate]
  | [a, b], _ => simp [Spec.millis, h000, List.replicate]
  | a :: b :: c :: rest, _ => simp [Spec.millis]

theorem millis_of_fraction (ds : GoString) (hne : ds ≠ [])
    (hd : ∀ c ∈ ds, isDigit c = true) :
    (appendInt (digitsVal (ds.take 9) * 10 ^ (9 - (ds.take 9).length)) 9).take 3
      = Spec.millis ds := by
  have hlen : (ds.take 9 ++ List.replicate (9 - (ds.take 9).length) 48).length = 9 := by
    simp only [List.length_append, List.length_replicate, List.length_take]
    omega
  have hdig : ∀ c ∈ ds.take 9 ++ List.replicate (9 - (ds.take 9).length) 48,
      isDigit c = true := by
    intro c hc
    rcases List.mem_append.mp hc with h | h
    · exact hd c (List.mem_of_mem_take h)
    · rw [(List.mem_replicate.mp h).2]
      rfl
  have hne' : ds.take 9 ++ List.replicate (9 - (ds.take 9).length) 48 ≠ [] := by
    intro h
    rw [h] at hlen
    simp at hlen
  have h := appendInt_digitsVal _ hne' hdig
  rw [hlen, digitsVal_append_zeros] at h
  rw [h, take_three_padded ds hne]

theorem millis_of_no_fraction : (appendInt 0 9).take 3 = Spec.millis [] := by decide


theorem expectByte_inv (c : UInt8) (s r : GoString) (h : expectByte c s = some r) :
    s = c :: r := by
  cases s with
  | nil => simp [expectByte] at h
  | cons a rest =>
    simp only [expectByte] at h
    by_cases hac : a = c
    · simp only [hac, if_true, Option.some.injEq] at h
      rw [hac, h]
    · simp [hac] at h

theorem digitsVal_two (a b : UInt8) :
    digitsVal [a, b] = (a.toNat - 48) * 10 + (b.toNat - 48) := by
  simp [digitsVal]

theorem digitsVal_one (a : UInt8) : digitsVal [a] = a.toNat - 48 := by
  simp [digitsVal]

theorem getnum_fixed_inv (s r : GoString) (n : Nat) (h : getnum s true = some (n, r)) :
    ∃ a b, s = a :: b :: r ∧ isDigit a = true ∧ isDigit b = true ∧ n = digitsVal [a, b] := by
  cases s with
  | nil => simp [getnum] at h
  | cons a rest =>
    simp only [getnum] at h
    by_cases ha : isDigit a = true
    · simp only [ha, Bool.not_true, Bool.false_eq_true, if_false] at h
      cases rest with
      | nil => simp at h
      | cons b rest1 =>
        by_cases hb : isDigit b = true
        · simp only [hb, if_true, Option.some.injEq, Prod.mk.injEq] at h
          exact ⟨a, b, by rw [h.2], ha, hb, by rw [digitsVal_two, h.1]⟩
        · simp [hb] at h
    · simp [ha] at h

theorem getnum_free_inv (s r : GoString) (n : Nat) (h : getnum s false = some (n, r)) :
    ∃ ds, s = ds ++ r ∧ (∀ c ∈ ds, isDigit c = true) ∧ (ds.length = 1 ∨ ds.length = 2)
      ∧ n = digitsVal ds := by
  cases s with
  | nil => simp [getnum] at h
  | cons a rest =>
    simp only [getnum] at h
    by_cases ha : isDigit a = true
    · simp only [ha, Bool.not_true, Bool.false_eq_true, if_false] at h
      cases rest with
      | nil =>
        simp only [Option.some.injEq, Prod.mk.injEq] at h
        exact ⟨[a], by rw [← h.2]; rfl, by simpa using ha, Or.inl rfl,
          by rw [digitsVal_one, h.1]⟩
      | cons b rest1 =>
        by_cases hb : isDigit b = true
        · simp only [hb, if_true, Option.some.injEq, Prod.mk.injEq] at h
          refine ⟨[a, b], by rw [h.2]; rfl, ?_, Or.inr rfl, by rw [digitsVal_two, h.1]⟩
          intro c hc
          simp only [List.mem_cons, List.mem_singleton, List.not_mem_nil, or_false] at hc
          rcases hc with rfl | rfl
          · exact ha
          · exact hb
        · simp only [hb, Bool.false_eq_true, if_false, Option.some.injEq, Prod.mk.injEq] at h
          exact ⟨[a], by rw [← h.2]; rfl, by simpa using ha, Or.inl rfl,
            by rw [digitsVal_one, h.1]⟩
    · simp [ha] at h

theorem spanDigits_inv :
    ∀ s : GoString,
      s = (spanDigits s).1 ++ (spanDigits s).2 ∧ ∀ c ∈ (spanDigits s).1, isDigit c = true
  | [] => by simp [spanDigits]
  | c :: rest => by
    obtain ⟨h1, h2⟩ := spanDigits_inv rest
    by_cases hc : isDigit c = true
    · simp only [spanDigits, hc, if_true, List.cons_append, List.mem_cons]
      refine ⟨by rw [← h1], ?_⟩
      intro x hx
      rcases hx with rfl | hx
      · exact hc
      · exact h2 x hx
    · simp [spanDigits, hc]


theorem parseFraction_inv (s r : GoString) (nsec : Nat) (h : parseFraction s = (nsec, r)) :
    (nsec = 0 ∧ r = s)
      ∨ ∃ sep ds, s = sep :: ds ++ r ∧ (sep = 46 ∨ sep = 44) ∧ ds ≠ []
          ∧ (∀ c ∈ ds, isDigit c = true)
          ∧ nsec = digitsVal (ds.take 9) * 10 ^ (9 - (ds.take 9).length) := by
  have hnone : ((0 : Nat), s) = (nsec, r) → (nsec = 0 ∧ r = s) := by
    intro e
    simp only [Prod.mk.injEq] at e
    exact ⟨e.1.symm, e.2.symm⟩
  match s, h, hnone with
  | [], h, hnone => exact Or.inl (hnone h)
  | [_], h, hnone => exact Or.inl (hnone h)
  | sep :: d :: rest, h, hnone =>
    simp only [parseFraction] at h
    by_cases hc : (sep = 46 ∨ sep = 44) ∧ isDigit d = true
    · right
      simp only [hc, and_self, if_true, Prod.mk.injEq] at h
      obtain ⟨h1, h2⟩ := spanDigits_inv (d :: rest)
      have hd : isDigit d = true := hc.2
      have hfst : (spanDigits (d :: rest)).1 ≠ [] := by
        simp [spanDigits, hd]
      refine ⟨sep, (spanDigits (d :: rest)).1, ?_, hc.1, hfst, h2, h.1.symm⟩
      rw [← h.2, List.cons_append, ← h1]
    · simp only [hc, if_false] at h
      exact Or.inl (hnone h)

theorem parseZone_inv (s : GoString) (h : parseZone s = some []) :
    s = [90]
      ∨ ∃ sign h1 h2 m1 m2, s = [sign, h1, h2, 58, m1, m2] ∧ (sign = 43 ∨ sign = 45)
          ∧ isDigit h1 = true ∧ isDigit h2 = true ∧ isDigit m1 = true
          ∧ isDigit m2 = true := by
  unfold parseZone at h
  split at h
  · left
    simp only [Option.some.injEq] at h
    rw [h]
  · right
    rename_i sign h1 h2 colon m1 m2 rest _
    by_cases hcol : colon = 58
    · simp only [hcol, ne_eq, not_true_eq_false, if_false] at h
      split at h
      · rename_i hr r1 mm r2 e1 e2
        obtain ⟨a, b, hab, ha, hb, _⟩ := getnum_fixed_inv _ _ _ e1
        obtain ⟨c, d, hcd, hc, hd, _⟩ := getnum_fixed_inv _ _ _ e2
        simp only [List.cons.injEq] at hab hcd
        by_cases hrange : 24 < hr ∨ 60 < mm
        · simp [hrange] at h
        · simp only [hrange, if_false] at h
          by_cases hsign : sign = 43 ∨ sign = 45
          · simp only [hsign, if_true, Option.some.injEq] at h
            refine ⟨sign, h1, h2, m1, m2, by rw [h, hcol], hsign, ?_, ?_, ?_, ?_⟩
            · rw [hab.1]; exact ha
            · rw [hab.2.1]; exact hb
            · rw [hcd.1]; exact hc
            · rw [hcd.2.1]; exact hd
          · simp [hsign] at h
      · simp at h
    · simp [hcol] at h
  · simp at h


theorem expect_getnum_fixed_inv (c : UInt8) (s r : GoString) (n : Nat)
    (h : (expectByte c s).bind (fun x => getnum x true) = some (n, r)) :
    ∃ a b, s = c :: a :: b :: r ∧ isDigit a = true ∧ isDigit b = true
      ∧ n = digitsVal [a, b] := by
  obtain ⟨x, hx, hg⟩ := Option.bind_eq_some.mp h
  obtain ⟨a, b, hab, ha, hb, hn⟩ := getnum_fixed_inv x r n hg
  exact ⟨a, b, by rw [expectByte_inv c s x hx, hab], ha, hb, hn⟩

theorem expect_getnum_free_inv (c : UInt8) (s r : GoString) (n : Nat)
    (h : (expectByte c s).bind (fun x => getnum x false) = some (n, r)) :
    ∃ ds, s = c :: (ds ++ r) ∧ (∀ x ∈ ds, isDigit x = true)
      ∧ (ds.length = 1 ∨ ds.length = 2) ∧ n = digitsVal ds := by
  obtain ⟨x, hx, hg⟩ := Option.bind_eq_some.mp h
  obtain ⟨ds, hds, hd, hl, hn⟩ := getnum_free_inv x r n hg
  exact ⟨ds, by rw [expectByte_inv c s x hx, hds], hd, hl, hn⟩

theorem appendInt_pad2 (ds : GoString) (hd : ∀ c ∈ ds, isDigit c = true)
    (hl : ds.length = 1 ∨ ds.length = 2) : appendInt (digitsVal ds) 2 = Spec.pad2 ds := by
  rcases hl with hl | hl
  · match ds, hl, hd with
    | [a], _, hd =>
      rw [appendInt_one_digit a (hd a (by simp))]
      rfl
  · have hne : ds ≠ [] := by
      intro e
      rw [e] at hl
      simp at hl
    have h := appendInt_digitsVal ds hne hd
    rw [hl] at h
    rw [h, Spec.pad2]
    simp [hl]

theorem two_digits (a b : UInt8) (ha : isDigit a = true) (hb : isDigit b = true) :
    appendInt (digitsVal [a, b]) 2 = [a, b] := by
  have h := appendInt_pad2 [a, b]
    (by
      intro c hc
      simp only [List.mem_cons, List.mem_singleton, List.not_mem_nil, or_false] at hc
      rcases hc with rfl | rfl
      · exact ha
      · exact hb)
    (Or.inr rfl)
  rw [h]
  rfl


theorem str_T : str "T" = [84] := rfl

theorem str_colon : str ":" = [58] := rfl

theorem timeParse_tail (s6 : GoString) (nsec : Nat) (s7 : GoString)
    (hf : parseFraction s6 = (nsec, s7)) (hz : parseZone s7 = some []) :
    ∃ fracPart, s6 = fracPart ++ s7 ∧ Spec.isFraction fracPart = true
      ∧ Spec.isZone s7 = true
      ∧ (appendInt nsec 9).take 3 = Spec.millis (fracPart.drop 1) := by
  have hzone : Spec.isZone s7 = true := by
    rcases parseZone_inv s7 hz with e | ⟨sign, h1, h2, m1, m2, e, hsg, d1, d2, d3, d4⟩
    · rw [e]
      rfl
    · rw [e]
      rcases hsg with rfl | rfl
      · simp [Spec.isZone, d1, d2, d3, d4]
      · simp [Spec.isZone, d1, d2, d3, d4]
  rcases parseFraction_inv s6 s7 nsec hf with ⟨h0, hr⟩ | ⟨sep, ds, hs, hsep, hne, hd, hn⟩
  · refine ⟨[], ?_, rfl, hzone, ?_⟩
    · rw [hr]
      rfl
    · rw [h0]
      exact millis_of_no_fraction
  · refine ⟨sep :: ds, ?_, ?_, hzone, ?_⟩
    · rw [hs]
    · have hall : ds.all isDigit = true := List.all_eq_true.mpr hd
      have hemp : ds.isEmpty = false := by
        cases ds with
        | nil => exact absurd rfl hne
        | cons _ _ => rfl
      rcases hsep with rfl | rfl
      · simp [Spec.isFraction, hall, hemp]
      · simp [Spec.isFraction, hall, hemp]
    · rw [hn]
      exact millis_of_fraction ds hne hd

theorem timeParse_written (s : GoString) (t : Time) (h : timeParseRFC3339 s = some t) :
    ∃ date hh mm ss fracPart zone,
      s = Spec.written date hh mm ss fracPart zone
        ∧ date.length = 10
        ∧ (∀ c ∈ hh, isDigit c = true) ∧ (hh.length = 1 ∨ hh.length = 2)
        ∧ (∀ c ∈ mm, isDigit c = true) ∧ mm.length = 2
        ∧ (∀ c ∈ ss, isDigit c = true) ∧ ss.length = 2
        ∧ Spec.isFraction fracPart = true ∧ Spec.isZone zone = true
        ∧ digitsVal hh < 24 ∧ digitsVal mm < 60 ∧ digitsVal ss < 60
        ∧ t.format = Spec.clock hh mm ss (fracPart.drop 1) := by
  unfold timeParseRFC3339 at h
  split at h
  · rename_i y1 y2 y3 y4 s1
    split at h
    · exact absurd h (by simp)
    · dsimp only at h
      split at h
      · exact absurd h (by simp)
      · rename_i month s2 e1
        split at h
        · exact absurd h (by simp)
        · split at h
          · exact absurd h (by simp)
          · rename_i day s3 e2
            split at h
            · exact absurd h (by simp)
            · rename_i hour s4 e3
              split at h
              · exact absurd h (by simp)
              · rename_i hhour
                split at h
                · exact absurd h (by simp)
                · rename_i min s5 e4
                  split at h
                  · exact absurd h (by simp)
                  · rename_i hmin
                    split at h
                    · exact absurd h (by simp)
                    · rename_i sec s6 e5
                      split at h
                      · exact absurd h (by simp)
                      · rename_i hsec
                        split at h
                        · rename_i hz
                          split at h
                          · exact absurd h (by simp)
                          · simp only [Option.some.injEq] at h
                            obtain ⟨a1, b1, hs1, _, _, _⟩ :=
                              expect_getnum_fixed_inv 45 s1 s2 month e1
                            obtain ⟨a2, b2, hs2, _, _, _⟩ :=
                              expect_getnum_fixed_inv 45 s2 s3 day e2
                            obtain ⟨hh, hs3, hhd, hhl, hhn⟩ :=
                              expect_getnum_free_inv 84 s3 s4 hour e3
                            obtain ⟨m1, m2, hs4, hm1, hm2, hmn⟩ :=
                              expect_getnum_fixed_inv 58 s4 s5 min e4
                            obtain ⟨c1, c2, hs5, hc1, hc2, hcn⟩ :=
                              expect_getnum_fixed_inv 58 s5 s6 sec e5
                            have hfz := timeParse_tail s6 (parseFraction s6).1
                              (parseFraction s6).2 rfl hz
                            obtain ⟨fracPart, hs6, hfrac, hzone, hms⟩ := hfz
                            generalize (parseFraction s6).2 = s7 at hs6 hzone hz
                            refine ⟨[y1, y2, y3, y4, 45, a1, b1, 45, a2, b2], hh, [m1, m2],
                              [c1, c2], fracPart, s7, ?_, rfl, hhd, hhl, ?_, rfl,
                              ?_, rfl, hfrac, hzone, ?_, ?_, ?_, ?_⟩
                            · rw [hs1, hs2, hs3, hs4, hs5, hs6]
                              simp [Spec.written, str_T, str_colon]
                            · intro c hc
                              simp only [List.mem_cons, List.mem_singleton, List.not_mem_nil,
                                or_false] at hc
                              rcases hc with rfl | rfl
                              · exact hm1
                              · exact hm2
                            · intro c hc
                              simp only [List.mem_cons, List.mem_singleton, List.not_mem_nil,
                                or_false] at hc
                              rcases hc with rfl | rfl
                              · exact hc1
                              · exact hc2
                            · rw [← hhn]
                              omega
                            · rw [← hmn]
                              omega
                            · rw [← hcn]
                              omega
                            · rw [← h, Time.format, Spec.clock]
                              simp only []
                              rw [hhn, hmn, hcn, appendInt_pad2 hh hhd hhl, two_digits m1 m2 hm1 hm2,
                                two_digits c1 c2 hc1 hc2, hms]
                        · exact absurd h (by simp)
  · exact absurd h (by simp)


theorem isReading_iff (date hh mm ss fracPart zone : GoString) :
    Spec.isReading date hh mm ss fracPart zone = true
      ↔ date.length = 10
        ∧ (∀ c ∈ hh, isDigit c = true) ∧ (hh.length = 1 ∨ hh.length = 2)
        ∧ (∀ c ∈ mm, isDigit c = true) ∧ mm.length = 2
        ∧ (∀ c ∈ ss, isDigit c = true) ∧ ss.length = 2
        ∧ Spec.isFraction fracPart = true ∧ Spec.isZone zone = true := by
  simp only [Spec.isReading, Bool.and_eq_true, Bool.or_eq_true, beq_iff_eq, List.all_eq_true,
    and_assoc]

theorem digits_prefix_unique (a : GoString) :
    ∀ (b r q : GoString) (c d : UInt8), isDigit c = false → isDigit d = false
      → (∀ x ∈ a, isDigit x = true) → (∀ x ∈ b, isDigit x = true)
      → a ++ c :: r = b ++ d :: q → a = b ∧ c :: r = d :: q := by
  induction a with
  | nil =>
    intro b r q c d hc hd _ hb e
    cases b with
    | nil => exact ⟨rfl, e⟩
    | cons y b =>
      simp only [List.nil_append, List.cons_append, List.cons.injEq] at e
      have hy := hb y (List.mem_cons_self _ _)
      rw [← e.1, hc] at hy
      exact absurd hy (by decide)
  | cons x a ih =>
    intro b r q c d hc hd ha hb e
    cases b with
    | nil =>
      simp only [List.nil_append, List.cons_append, List.cons.injEq] at e
      have hx := ha x (List.mem_cons_self _ _)
      rw [e.1, hd] at hx
      exact absurd hx (by decide)
    | cons y b =>
      simp only [List.cons_append, List.cons.injEq] at e
      obtain ⟨h1, h2⟩ := ih b r q c d hc hd
        (fun z hz => ha z (List.mem_cons_of_mem _ hz))
        (fun z hz => hb z (List.mem_cons_of_mem _ hz)) e.2
      exact ⟨by rw [e.1, h1], h2⟩

theorem isZone_head (zone : GoString) (h : Spec.isZone zone = true) :
    ∃ z zr, zone = z :: zr ∧ isDigit z = false ∧ z ≠ 46 ∧ z ≠ 44 := by
  unfold Spec.isZone at h
  split at h
  · exact ⟨90, [], rfl, by decide, by decide, by decide⟩
  · rename_i sign h1 h2 m1 m2
    simp only [Bool.and_eq_true, Bool.or_eq_true, beq_iff_eq] at h
    rcases h.1.1.1.1 with e | e
    · exact ⟨sign, _, rfl, by rw [e]; decide, by rw [e]; decide, by rw [e]; decide⟩
    · exact ⟨sign, _, rfl, by rw [e]; decide, by rw [e]; decide, by rw [e]; decide⟩
  · exact absurd h (by simp)

theorem isFraction_inv (fracPart : GoString) (h : Spec.isFraction fracPart = true) :
    fracPart = [] ∨ ∃ sep ds, fracPart = sep :: ds ∧ (sep = 46 ∨ sep = 44)
      ∧ ∀ c ∈ ds, isDigit c = true := by
  cases fracPart with
  | nil => exact Or.inl rfl
  | cons sep ds =>
    simp only [Spec.isFraction, Bool.and_eq_true, Bool.or_eq_true, beq_iff_eq,
      List.all_eq_true] at h
    exact Or.inr ⟨sep, ds, rfl, h.1.1, h.2⟩

theorem fraction_zone_unique (f g z w : GoString)
    (hf : Spec.isFraction f = true) (hg : Spec.isFraction g = true)
    (hz : Spec.isZone z = true) (hw : Spec.isZone w = true)
    (e : f ++ z = g ++ w) : f = g := by
  obtain ⟨z0, zr, rfl, hzd, hz1, hz2⟩ := isZone_head z hz
  obtain ⟨w0, wr, rfl, hwd, hw1, hw2⟩ := isZone_head w hw
  rcases isFraction_inv f hf with rfl | ⟨sep, ds, rfl, hsep, hds⟩
  · rcases isFraction_inv g hg with rfl | ⟨sep, ds, rfl, hsep, hds⟩
    · rfl
    · simp only [List.nil_append, List.cons_append, List.cons.injEq] at e
      rcases hsep with h | h
      · exact absurd (e.1.trans h) hz1
      · exact absurd (e.1.trans h) hz2
  · rcases isFraction_inv g hg with rfl | ⟨sep2, ds2, rfl, hsep2, hds2⟩
    · simp only [List.nil_append, List.cons_append, List.cons.injEq] at e
      rcases hsep with h | h
      · exact absurd (e.1.symm.trans h) hw1
      · exact absurd (e.1.symm.trans h) hw2
    · simp only [List.cons_append, List.cons.injEq] at e
      rw [e.1, (digits_prefix_unique ds ds2 zr wr z0 w0 hzd hwd hds hds2 e.2).1]

theorem written_unique (date hh mm ss fracPart zone date2 hh2 mm2 ss2 fracPart2 zone2 : GoString)
    (h : Spec.isReading date hh mm ss fracPart zone = true)
    (h2 : Spec.isReading date2 hh2 mm2 ss2 fracPart2 zone2 = true)
    (e : Spec.written date hh mm ss fracPart zone
      = Spec.written date2 hh2 mm2 ss2 fracPart2 zone2) :
    hh = hh2 ∧ mm = mm2 ∧ ss = ss2 ∧ fracPart = fracPart2 := by
  obtain ⟨hd, hhd, _, _, hml, _, hsl, hf, hz⟩ := (isReading_iff _ _ _ _ _ _).mp h
  obtain ⟨hd2, hhd2, _, _, hml2, _, hsl2, hf2, hz2⟩ := (isReading_iff _ _ _ _ _ _).mp h2
  simp only [Spec.written, List.append_assoc, str_T, str_colon, List.singleton_append,
    List.cons_append] at e
  have e1 := List.append_inj e (hd.trans hd2.symm)
  have e2 := e1.2
  simp only [List.cons.injEq, true_and] at e2
  obtain ⟨ehh, e3⟩ := digits_prefix_unique hh hh2 _ _ 58 58 (by decide) (by decide) hhd hhd2 e2
  simp only [List.cons.injEq, true_and] at e3
  have e4 : mm = mm2 ∧ (58 :: (ss ++ (fracPart ++ zone)) = 58 :: (ss2 ++ (fracPart2 ++ zone2))) :=
    List.append_inj e3 (hml.trans hml2.symm)
  have e5 := e4.2
  simp only [List.cons.injEq, true_and] at e5
  have e6 : ss = ss2 ∧ fracPart ++ zone = fracPart2 ++ zone2 :=
    List.append_inj e5 (hsl.trans hsl2.symm)
  exact ⟨ehh, e4.1, e6.1, fraction_zone_unique _ _ _ _ hf hf2 hz hz2 e6.2⟩

theorem timeParse_reading (s : GoString) (t : Time) (h : timeParseRFC3339 s = some t) :
    ∃ date hh mm ss fracPart zone,
      s = Spec.written date hh mm ss fracPart zone
        ∧ Spec.isReading date hh mm ss fracPart zone = true
        ∧ digitsVal hh < 24 ∧ digitsVal mm < 60 ∧ digitsVal ss < 60
        ∧ t.format = Spec.clock hh mm ss (fracPart.drop 1) := by
  obtain ⟨date, hh, mm, ss, fracPart, zone, hs, a1, a2, a3, a4, a5, a6, a7, a8, a9, b1, b2, b3,
    hfmt⟩ := timeParse_written s t h
  exact ⟨date, hh, mm, ss, fracPart, zone, hs,
    (isReading_iff _ _ _ _ _ _).mpr ⟨a1, a2, a3, a4, a5, a6, a7, a8, a9⟩, b1, b2, b3, hfmt⟩

theorem timeParse_any_reading (date hh mm ss fracPart zone : GoString) (t : Time)
    (hr : Spec.isReading date hh mm ss fracPart zone = true)
    (h : timeParseRFC3339 (Spec.written date hh mm ss fracPart zone) = some t) :
    t.format = Spec.clock hh mm ss (fracPart.drop 1)
      ∧ digitsVal hh < 24 ∧ digitsVal mm < 60 ∧ digitsVal ss < 60 := by
  obtain ⟨date2, hh2, mm2, ss2, fracPart2, zone2, hs, hr2, b1, b2, b3, hfmt⟩ :=
    timeParse_reading _ t h
  obtain ⟨e1, e2, e3, e4⟩ := written_unique _ _ _ _ _ _ _ _ _ _ _ _ hr hr2 hs
  rw [e1, e2, e3, e4]
  exact ⟨hfmt, b1, b2, b3⟩


theorem clock_length (date hh mm ss fracPart zone fd : GoString)
    (h : Spec.isReading date hh mm ss fracPart zone = true) :
    (Spec.clock hh mm ss fd).length = 12 := by
  obtain ⟨_, _, hhl, _, hml, _, hsl, _, _⟩ := (isReading_iff _ _ _ _ _ _).mp h
  have hp : (Spec.pad2 hh).length = 2 := by
    rcases hhl with h1 | h2
    · simp [Spec.pad2, h1]
    · simp [Spec.pad2, h2]
  have hm : (Spec.millis fd).length = 3 := by
    simp only [Spec.millis, List.length_take, List.length_append]
    have : (str "000").length = 3 := rfl
    omega
  have h1 : (str ":").length = 1 := rfl
  have h2 : (str ".").length = 1 := rfl
  simp only [Spec.clock, List.length_append, hp, hm, hml, hsl, h1, h2]


theorem getnum_two (a b : UInt8) (r : GoString) (fixed : Bool)
    (ha : isDigit a = true) (hb : isDigit b = true) :
    getnum (a :: b :: r) fixed = some (digitsVal [a, b], r) := by
  simp [getnum, ha, hb, digitsVal_two]

theorem expect_getnum_two (c a b : UInt8) (r : GoString) (fixed : Bool)
    (ha : isDigit a = true) (hb : isDigit b = true) :
    (expectByte c (c :: a :: b :: r)).bind (fun x => getnum x fixed)
      = some (digitsVal [a, b], r) := by
  simp [expectByte, getnum_two a b r fixed ha hb]

theorem rfcOffset_shape (z : GoString) (off : Int) (h : Spec.rfcOffset z = some off) :
    z = [90] ∨ z = [122]
      ∨ ∃ sign h1 h2 m1 m2, z = [sign, h1, h2, 58, m1, m2] ∧ (sign = 43 ∨ sign = 45)
          ∧ isDigit h1 = true ∧ isDigit h2 = true ∧ isDigit m1 = true ∧ isDigit m2 = true
          ∧ digitsVal [h1, h2] ≤ 23 ∧ digitsVal [m1, m2] ≤ 59 := by
  unfold Spec.rfcOffset at h
  split at h
  · rename_i z0
    by_cases hz : z0 = 90 ∨ z0 = 122
    · rcases hz with rfl | rfl
      · exact Or.inl rfl
      · exact Or.inr (Or.inl rfl)
    · simp [hz] at h
  · rename_i sign h1 h2 colon m1 m2
    split at h
    · rename_i hc
      obtain ⟨rfl, d1, d2, d3, d4, r1, r2⟩ := hc
      refine Or.inr (Or.inr ⟨sign, h1, h2, m1, m2, rfl, ?_, d1, d2, d3, d4, r1, r2⟩)
      by_cases h43 : sign = 43
      · exact Or.inl h43
      · by_cases h45 : sign = 45
        · exact Or.inr h45
        · simp [h43, h45] at h
    · exact absurd h (by simp)
  · exact absurd h (by simp)

theorem parseFraction_of_offset (z : GoString) (off : Int) (h : Spec.rfcOffset z = some off) :
    parseFraction z = (0, z) := by
  rcases rfcOffset_shape z off h with rfl | rfl | ⟨sign, h1, h2, m1, m2, rfl, hs, _⟩
  · rfl
  · rfl
  · rcases hs with rfl | rfl
    · simp [parseFraction]
    · simp [parseFraction]

theorem parseZone_of_offset (z : GoString) (off : Int) (h : Spec.rfcOffset z = some off)
    (hz : ∀ c ∈ z, c ≠ 122) : parseZone z = some [] := by
  rcases rfcOffset_shape z off h with rfl | rfl
    | ⟨sign, h1, h2, m1, m2, rfl, hs, d1, d2, d3, d4, r1, r2⟩
  · rfl
  · exact absurd rfl (hz 122 (by simp))
  · have g1 := getnum_two h1 h2 [] true d1 d2
    have g2 := getnum_two m1 m2 [] true d3 d4
    have n1 : ¬ (24 < digitsVal [h1, h2] ∨ 60 < digitsVal [m1, m2]) := by omega
    rcases hs with rfl | rfl
    · simp [parseZone, g1, g2, n1]
    · simp [parseZone, g1, g2, n1]

theorem spanDigits_ne_nil (r : GoString) (h : (spanDigits r).1 ≠ []) :
    ∃ d rest, r = d :: rest ∧ isDigit d = true := by
  cases r with
  | nil => simp [spanDigits] at h
  | cons d rest =>
    by_cases hd : isDigit d = true
    · exact ⟨d, rest, rfl, hd⟩
    · simp [spanDigits, hd] at h

theorem parseFraction_of_period (r : GoString) (h : (spanDigits r).1 ≠ []) :
    (parseFraction (46 :: r)).2 = (spanDigits r).2 := by
  obtain ⟨d, rest, rfl, hd⟩ := spanDigits_ne_nil r h
  simp [parseFraction, hd]

theorem parse_tail_of_rfc (rest : GoString) (off : Int)
    (h : Spec.rfcFracOffset rest = some off) (hz : ∀ c ∈ rest, c ≠ 122) :
    parseZone (parseFraction rest).2 = some [] := by
  unfold Spec.rfcFracOffset at h
  split at h
  · rename_i r
    by_cases hne : (spanDigits r).1 = []
    · simp [hne] at h
    · simp only [hne, if_false] at h
      rw [parseFraction_of_period r hne]
      apply parseZone_of_offset _ off h
      intro c hc
      apply hz c
      have hr := (spanDigits_inv r).1
      rw [hr]
      simp [hc]
  · rw [parseFraction_of_offset rest off h]
    exact parseZone_of_offset rest off h hz


theorem digits_sixty (a b : UInt8) (ha : isDigit a = true) (hb : isDigit b = true)
    (h : digitsVal [a, b] = 60) : a = 54 ∧ b = 48 := by
  obtain ⟨ra, la⟩ := digit_byte_roundtrip a ha
  obtain ⟨rb, lb⟩ := digit_byte_roundtrip b hb
  rw [digitsVal_two] at h
  have e1 : a.toNat - 48 = 6 := by omega
  have e2 : b.toNat - 48 = 0 := by omega
  rw [e1] at ra
  rw [e2] at rb
  exact ⟨ra.symm, rb.symm⟩

theorem timeParse_accepts_rfc3339 (s : GoString) (hv : Spec.rfc3339Valid s = true)
    (hup : ∀ c ∈ s, c ≠ 116 ∧ c ≠ 122) (hsec : (s.drop 17).take 2 ≠ str "60") :
    ∃ t, timeParseRFC3339 s = some t := by
  unfold Spec.rfc3339Valid at hv
  split at hv
  · rename_i y1 y2 y3 y4 dash1 o1 o2 dash2 d1 d2 tee h1 h2 colon1 m1 m2 colon2 s1 s2 rest
    simp only [List.all_cons, List.all_nil, Bool.and_true, Bool.and_eq_true, beq_iff_eq,
      Bool.or_eq_true, decide_eq_true_eq] at hv
    obtain ⟨⟨⟨⟨⟨⟨⟨⟨⟨⟨hdig, rfl⟩, rfl⟩, htee⟩, rfl⟩, rfl⟩, hmo⟩, hday⟩, hhour⟩, hmin⟩, htail⟩ := hv
    obtain ⟨dy1, dy2, dy3, dy4, do1, do2, dd1, dd2, dh1, dh2, dm1, dm2, ds1, ds2⟩ := hdig
    have hT : tee = 84 := by
      rcases htee with h | h
      · exact h
      · exact absurd h (hup tee (by simp)).1
    subst hT
    cases hoff : Spec.rfcFracOffset rest with
    | none =>
      rw [hoff] at htail
      exact absurd htail (by simp)
    | some off =>
      rw [hoff] at htail
      simp only [Bool.or_eq_true, Bool.and_eq_true, decide_eq_true_eq] at htail
      have hs59 : digitsVal [s1, s2] ≤ 59 := by
        rcases htail with h | ⟨h, _⟩
        · exact h
        · exfalso
          apply hsec
          obtain ⟨e1, e2⟩ := digits_sixty s1 s2 ds1 ds2 h
          rw [e1, e2]
          rfl
      have hz : parseZone (parseFraction rest).2 = some [] :=
        parse_tail_of_rfc rest off hoff (fun c hc => (hup c (by simp [hc])).2)
      have n1 : ¬ (digitsVal [o1, o2] = 0 ∨ 12 < digitsVal [o1, o2]) := by omega
      have n2 : ¬ (24 ≤ digitsVal [h1, h2]) := by omega
      have n3 : ¬ (60 ≤ digitsVal [m1, m2]) := by omega
      have n4 : ¬ (60 ≤ digitsVal [s1, s2]) := by omega
      have n5 : ¬ (digitsVal [d1, d2] < 1
          ∨ daysIn (digitsVal [o1, o2]) (digitsVal [y1, y2, y3, y4]) < digitsVal [d1, d2]) := by
        omega
      refine ⟨⟨digitsVal [h1, h2], digitsVal [m1, m2], digitsVal [s1, s2],
        (parseFraction rest).1⟩, ?_⟩
      unfold timeParseRFC3339
      simp only [dy1, dy2, dy3, dy4, Bool.and_self, Bool.not_true, Bool.false_eq_true, if_false,
        expect_getnum_two 45 o1 o2 _ true do1 do2, expect_getnum_two 45 d1 d2 _ true dd1 dd2,
        expect_getnum_two 84 h1 h2 _ false dh1 dh2, expect_getnum_two 58 m1 m2 _ true dm1 dm2,
        expect_getnum_two 58 s1 s2 _ true ds1 ds2, n1, n2, n3, n4, n5, hz]
  · exact absurd hv (by simp)


mutual
theorem render_eq_claimedRender :
    ∀ (m : GoMap) (i : Nat), Spec.stringLeaves m = true → Spec.render m i = Spec.claimedRender m i
  | [], _, _ => by simp [Spec.render, Spec.claimedRender]
  | (key, v) :: rest, i, h => by
    simp only [Spec.stringLeaves, Bool.and_eq_true] at h
    rw [Spec.render, Spec.claimedRender, renderEntry_eq_claimedEntry key v i h.1,
      render_eq_claimedRender rest i h.2]
theorem renderEntry_eq_claimedEntry (key : GoString) :
    ∀ (v : Value) (i : Nat), Spec.stringLeaf v = true →
      Spec.renderEntry key v i = Spec.claimedEntry key v i
  | .map m, i, h => by
    simp only [Spec.stringLeaf] at h
    rw [Spec.renderEntry, Spec.claimedEntry, render_eq_claimedRender m (i + 2) h]
    rfl
  | .string s, i, _ => by
    simp only [Spec.renderEntry, Spec.claimedEntry, Spec.natural, Spec.naturalElem, sortValue,
      fmtS, fmtElem]
    rfl
  | .float64 _, _, h => by simp [Spec.stringLeaf] at h
  | .bool _, _, h => by simp [Spec.stringLeaf] at h
  | .nil, _, h => by simp [Spec.stringLeaf] at h
  | .slice _, _, h => by simp [Spec.stringLeaf] at h
end


/-- What the code writes for a top-level entry whose key `k` is none of the three effective keys
and whose value is a nested mapping `m`: at its place in the field listing, the line of 4 spaces,
`k` unquoted and `: {`, then `Spec.render m 6`, then the line of 4 spaces and `}`. `Spec.render`
is what `processMap` appends to the builder: each entry gives its quoted key and either a brace
block with its own entries two spaces deeper or, between quotes, the text the verb `%s` prints
for its value. When every value that is not a mapping is a string, at every depth, this is the
block as the claim words it. -/
theorem nested_block_written (lib : Lib) (input : GoString) (options : Option prettyOptions)
    (logData pre post : GoMap) (k : GoString) (m : GoMap)
    (hdec : lib.unmarshal input = some logData)
    (hsplit : logData = pre ++ (k, Value.map m) :: post)
    (hk : k ≠ Spec.timeKey options ∧ k ≠ Spec.levelKey options ∧ k ≠ Spec.msgKey options) :
    pretty lib input options =
        Spec.headerLine lib options logData ++ Spec.fieldSection options pre
          ++ (spaces 4 ++ k ++ str ": \x7b\n" ++ Spec.render m 6 ++ spaces 4 ++ str "\x7d\n")
          ++ Spec.fieldSection options post
      ∧ (∀ (b : GoString) (n : GoMap) (i : Nat), processMap b n i = b ++ Spec.render n i)
      ∧ (Spec.stringLeaves m = true →
          pretty lib input options =
            Spec.headerLine lib options logData ++ Spec.fieldSection options pre
              ++ Spec.claimedBlock k m ++ Spec.fieldSection options post) := by
  have key : pretty lib input options =
        Spec.headerLine lib options logData ++ Spec.fieldSection options pre
          ++ (spaces 4 ++ k ++ str ": \x7b\n" ++ Spec.render m 6 ++ spaces 4 ++ str "\x7d\n")
          ++ Spec.fieldSection options post := by
    rw [pretty_eq_headerLine_fieldSection lib input options logData hdec, hsplit,
      fieldSection_append, fieldSection_cons_listed options k _ post hk]
    simp only [Spec.fieldBlock, List.append_assoc]
  refine ⟨key, fun b n i => processMap_eq_render b n i, ?_⟩
  intro hs
  rw [key, render_eq_claimedRender m 6 hs]
  rfl

/-! ## Claims -/

/-- C1: when decoding the input as a JSON object fails, `pretty` returns the input bytes followed
by exactly one newline byte, whatever the options are (a nil pointer included). -/
theorem pretty_passthrough (lib : Lib) (input : GoString) (options : Option prettyOptions)
    (h : lib.unmarshal input = none) :
    pretty lib input options = input ++ [10] :=
  pretty_of_decode_error lib input options h

/-- C1 on the input of the test `preserves output if not valid JSON`. -/
theorem pretty_passthrough_witness :
    goLib.unmarshal (str "this is not json\nit's just regular output\n") = none ∧
    pretty goLib (str "this is not json\nit's just regular output\n") none
      = str "this is not json\nit's just regular output\n\n" :=
  ⟨rfl, pretty_passthrough goLib _ none rfl⟩

/-- C2, as amended: with LevelFirst off, for a decoded record whose time-key value `ts` parses
to the time `t`, whose level-key value is the string `L` and whose message-key value is the
string `M`, the output is the header line `[t] L: M` followed by the field-listing section,
where `L` and `M` stand as they are when Colorize is off and are wrapped in their colour codes
when Colorize is on; when the record has no other key the header line is the whole output. -/
theorem header_default (lib : Lib) (input : GoString) (options : Option prettyOptions)
    (logData : GoMap) (ts : GoString) (t : Time) (L M : GoString)
    (hdec : lib.unmarshal input = some logData)
    (hLF : (Spec.config options).LevelFirst = false)
    (htime : logData.lookup (Spec.timeKey options) = some (Value.string ts))
    (hparse : lib.timeParse ts = some t)
    (hlevel : logData.lookup (Spec.levelKey options) = some (Value.string L))
    (hmsg : logData.lookup (Spec.msgKey options) = some (Value.string M)) :
    pretty lib input options =
        (str "[" ++ t.format ++ str "]") ++ str " "
          ++ Spec.paintLevel (Spec.config options).Colorize L ++ str ": "
          ++ Spec.paintMessage (Spec.config options).Colorize M ++ str "\n"
          ++ Spec.fieldSection options logData
      ∧ ((Spec.config options).Colorize = false →
          pretty lib input options =
            (str "[" ++ t.format ++ str "]") ++ str " " ++ L ++ str ": " ++ M ++ str "\n"
              ++ Spec.fieldSection options logData)
      ∧ ((∀ e ∈ logData, e.1 = Spec.timeKey options ∨ e.1 = Spec.levelKey options
            ∨ e.1 = Spec.msgKey options) →
          pretty lib input options =
            (str "[" ++ t.format ++ str "]") ++ str " "
              ++ Spec.paintLevel (Spec.config options).Colorize L ++ str ": "
              ++ Spec.paintMessage (Spec.config options).Colorize M ++ str "\n") := by
  have key : pretty lib input options =
        (str "[" ++ t.format ++ str "]") ++ str " "
          ++ Spec.paintLevel (Spec.config options).Colorize L ++ str ": "
          ++ Spec.paintMessage (Spec.config options).Colorize M ++ str "\n"
          ++ Spec.fieldSection options logData := by
    rw [pretty_eq_header_fields lib input options logData hdec]
    simp [Spec.header, Spec.timestamp, stringAt_of_lookup _ _ _ htime,
      stringAt_of_lookup _ _ _ hlevel, stringAt_of_lookup _ _ _ hmsg, hparse, hLF]
  refine ⟨key, ?_, ?_⟩
  · intro hc
    rw [key, hc]
    rfl
  · intro hall
    rw [key, Spec.fieldSection, fields_eq_nil _ _ _ _ hall, List.append_nil]

/-- C2 on the line of the test `formats a line without any extra options`. -/
theorem header_default_witness :
    goLib.unmarshal lineInfoFoo = some recInfoFoo
      ∧ goLib.timeParse (str "2018-03-30T17:35:28.992Z") = some testTime
      ∧ pretty goLib lineInfoFoo none = str "[17:35:28.992] INFO: foo\n" :=
  ⟨rfl, rfl,
    (header_default goLib lineInfoFoo none recInfoFoo (str "2018-03-30T17:35:28.992Z") testTime
      (str "INFO") (str "foo") rfl rfl rfl rfl rfl rfl).2.2 (by decide)⟩

/-- C2 as stated fails with Colorize on: LevelFirst is off, the record decodes, its time parses
and renders as `[17:35:28.992]`, its level is `INFO` and its message `foo`, yet the first line is
not `[17:35:28.992] INFO: foo`: level and message carry their colour codes. -/
theorem header_default_colorize_counterexample :
    goLib.unmarshal lineInfoFoo = some recInfoFoo
      ∧ (Spec.config (some { Colorize := true })).LevelFirst = false
      ∧ recInfoFoo.lookup (str "time") = some (Value.string (str "2018-03-30T17:35:28.992Z"))
      ∧ goLib.timeParse (str "2018-03-30T17:35:28.992Z") = some testTime
      ∧ str "[" ++ testTime.format ++ str "]" = str "[17:35:28.992]"
      ∧ recInfoFoo.lookup (str "level") = some (Value.string (str "INFO"))
      ∧ recInfoFoo.lookup (str "msg") = some (Value.string (str "foo"))
      ∧ pretty goLib lineInfoFoo (some { Colorize := true })
          = str "[17:35:28.992] \u001B[32mINFO\u001B[39m: \u001B[36mfoo\u001B[39m\n"
      ∧ pretty goLib lineInfoFoo (some { Colorize := true })
          ≠ str "[17:35:28.992]" ++ str " " ++ str "INFO" ++ str ": " ++ str "foo" ++ str "\n" :=
  ⟨rfl, rfl, rfl, rfl, by decide, rfl, rfl, by decide, by decide⟩

/-- C3, as amended: for a decoded record with a parseable timestamp, level `L` and message `M`,
and for every setting of the other options, turning LevelFirst on changes the header line from
`[t] L: M` to `L [t]: M`, with exactly one space between level and bracketed timestamp in each
arrangement, where `L` and `M` stand as they are when Colorize is off and are wrapped in their
colour codes when it is on; the field-listing section after the header is the same. -/
theorem levelFirst_swaps_header (lib : Lib) (input : GoString) (o : prettyOptions)
    (logData : GoMap) (ts : GoString) (t : Time) (L M : GoString)
    (hdec : lib.unmarshal input = some logData)
    (htime : logData.lookup (Spec.timeKey (some o)) = some (Value.string ts))
    (hparse : lib.timeParse ts = some t)
    (hlevel : logData.lookup (Spec.levelKey (some o)) = some (Value.string L))
    (hmsg : logData.lookup (Spec.msgKey (some o)) = some (Value.string M)) :
    pretty lib input (some { o with LevelFirst := false }) =
        (str "[" ++ t.format ++ str "]") ++ str " " ++ Spec.paintLevel o.Colorize L ++ str ": "
          ++ Spec.paintMessage o.Colorize M ++ str "\n" ++ Spec.fieldSection (some o) logData
      ∧ pretty lib input (some { o with LevelFirst := true }) =
        Spec.paintLevel o.Colorize L ++ str " " ++ (str "[" ++ t.format ++ str "]") ++ str ": "
          ++ Spec.paintMessage o.Colorize M ++ str "\n" ++ Spec.fieldSection (some o) logData
      ∧ (o.Colorize = false →
          pretty lib input (some { o with LevelFirst := false }) =
              (str "[" ++ t.format ++ str "]") ++ str " " ++ L ++ str ": " ++ M ++ str "\n"
                ++ Spec.fieldSection (some o) logData
            ∧ pretty lib input (some { o with LevelFirst := true }) =
              L ++ str " " ++ (str "[" ++ t.format ++ str "]") ++ str ": " ++ M ++ str "\n"
                ++ Spec.fieldSection (some o) logData) := by
  have hoff : pretty lib input (some { o with LevelFirst := false }) =
        (str "[" ++ t.format ++ str "]") ++ str " " ++ Spec.paintLevel o.Colorize L ++ str ": "
          ++ Spec.paintMessage o.Colorize M ++ str "\n" ++ Spec.fieldSection (some o) logData := by
    rw [pretty_eq_header_fields lib input _ logData hdec]
    have h1 : stringAt logData (Spec.timeKey (some { o with LevelFirst := false })) = ts :=
      stringAt_of_lookup _ _ _ htime
    have h2 : stringAt logData (Spec.levelKey (some { o with LevelFirst := false })) = L :=
      stringAt_of_lookup _ _ _ hlevel
    have h3 : stringAt logData (Spec.msgKey (some { o with LevelFirst := false })) = M :=
      stringAt_of_lookup _ _ _ hmsg
    simp only [Spec.timestamp, h1, h2, h3, hparse]
    simp [Spec.header, Spec.config, Spec.fieldSection, Spec.timeKey, Spec.levelKey, Spec.msgKey]
  have hon : pretty lib input (some { o with LevelFirst := true }) =
        Spec.paintLevel o.Colorize L ++ str " " ++ (str "[" ++ t.format ++ str "]") ++ str ": "
          ++ Spec.paintMessage o.Colorize M ++ str "\n" ++ Spec.fieldSection (some o) logData := by
    rw [pretty_eq_header_fields lib input _ logData hdec]
    have h1 : stringAt logData (Spec.timeKey (some { o with LevelFirst := true })) = ts :=
      stringAt_of_lookup _ _ _ htime
    have h2 : stringAt logData (Spec.levelKey (some { o with LevelFirst := true })) = L :=
      stringAt_of_lookup _ _ _ hlevel
    have h3 : stringAt logData (Spec.msgKey (some { o with LevelFirst := true })) = M :=
      stringAt_of_lookup _ _ _ hmsg
    simp only [Spec.timestamp, h1, h2, h3, hparse]
    simp [Spec.header, Spec.config, Spec.fieldSection, Spec.timeKey, Spec.levelKey, Spec.msgKey]
  refine ⟨hoff, hon, ?_⟩
  intro hc
  rw [hoff, hon, hc]
  exact ⟨rfl, rfl⟩

/-- C3 on the line of the test `can swap date and level position`. -/
theorem levelFirst_swaps_header_witness :
    goLib.unmarshal lineInfoFoo = some recInfoFoo
      ∧ goLib.timeParse (str "2018-03-30T17:35:28.992Z") = some testTime
      ∧ pretty goLib lineInfoFoo (some { LevelFirst := false })
          = str "[17:35:28.992] INFO: foo\n"
      ∧ pretty goLib lineInfoFoo (some { LevelFirst := true })
          = str "INFO [17:35:28.992]: foo\n" :=
  ⟨rfl, rfl,
    (levelFirst_swaps_header goLib lineInfoFoo {} recInfoFoo (str "2018-03-30T17:35:28.992Z")
      testTime (str "INFO") (str "foo") rfl rfl rfl rfl rfl).2.2 rfl⟩

/-- C3 as stated fails with Colorize on: the record decodes with a parseable timestamp, level
`INFO` and message `foo`, yet with LevelFirst on the header line is not `INFO [17:35:28.992]: foo`
(nor, with LevelFirst off, `[17:35:28.992] INFO: foo`): level and message carry their colour
codes in both arrangements. -/
theorem levelFirst_colorize_counterexample :
    goLib.unmarshal lineInfoFoo = some recInfoFoo
      ∧ recInfoFoo.lookup (str "time") = some (Value.string (str "2018-03-30T17:35:28.992Z"))
      ∧ goLib.timeParse (str "2018-03-30T17:35:28.992Z") = some testTime
      ∧ str "[" ++ testTime.format ++ str "]" = str "[17:35:28.992]"
      ∧ recInfoFoo.lookup (str "level") = some (Value.string (str "INFO"))
      ∧ recInfoFoo.lookup (str "msg") = some (Value.string (str "foo"))
      ∧ pretty goLib lineInfoFoo (some { Colorize := true, LevelFirst := true })
          = str "\u001B[32mINFO\u001B[39m [17:35:28.992]: \u001B[36mfoo\u001B[39m\n"
      ∧ pretty goLib lineInfoFoo (some { Colorize := true, LevelFirst := true })
          ≠ str "INFO" ++ str " " ++ str "[17:35:28.992]" ++ str ": " ++ str "foo" ++ str "\n"
      ∧ pretty goLib lineInfoFoo (some { Colorize := true, LevelFirst := false })
          ≠ str "[17:35:28.992]" ++ str " " ++ str "INFO" ++ str ": " ++ str "foo" ++ str "\n" :=
  ⟨rfl, rfl, rfl, by decide, rfl, rfl, by decide, by decide, by decide⟩

/-- C4, as amended: when the effective time key is absent from the decoded record, or holds a
value that is not a string, or holds a string that `time.Parse` does not accept for the RFC 3339
layout, the timestamp contributes nothing to the header: for every options value, so for
LevelFirst on as for LevelFirst off, the output is the header line `level: message` (the level
and message strings of the header, colour codes included when Colorize is on) followed by the
field-listing section. -/
theorem header_without_timestamp (lib : Lib) (input : GoString)
    (options : Option prettyOptions) (logData : GoMap)
    (hdec : lib.unmarshal input = some logData)
    (hno : logData.lookup (Spec.timeKey options) = none
      ∨ (∃ v, logData.lookup (Spec.timeKey options) = some v ∧ ∀ s, v ≠ Value.string s)
      ∨ (∃ s, logData.lookup (Spec.timeKey options) = some (Value.string s)
          ∧ lib.timeParse s = none)) :
    pretty lib input options =
      Spec.paintLevel (Spec.config options).Colorize (stringAt logData (Spec.levelKey options))
        ++ str ": "
        ++ Spec.paintMessage (Spec.config options).Colorize
            (stringAt logData (Spec.msgKey options))
        ++ str "\n" ++ Spec.fieldSection options logData := by
  have hnone : lib.timeParse (stringAt logData (Spec.timeKey options)) = none := by
    rcases hno with h | ⟨v, hv, hns⟩ | ⟨s, hs, hp⟩
    · simp [stringAt, h, lib.timeParse_empty]
    · cases v with
      | string s => exact absurd rfl (hns s)
      | float64 _ => simp [stringAt, hv, lib.timeParse_empty]
      | bool _ => simp [stringAt, hv, lib.timeParse_empty]
      | nil => simp [stringAt, hv, lib.timeParse_empty]
      | slice _ => simp [stringAt, hv, lib.timeParse_empty]
      | map _ => simp [stringAt, hv, lib.timeParse_empty]
    · simp [stringAt, hs, hp]
  rw [pretty_eq_header_fields lib input _ logData hdec]
  have ht : Spec.timestamp lib options logData = none := by
    simp [Spec.timestamp, hnone]
  rw [ht]
  rfl

/-- C4 on the line of the test `works without time`, with LevelFirst off (nil options) and on. -/
theorem header_without_timestamp_witness :
    goLib.unmarshal lineNoTime = some recNoTime
      ∧ recNoTime.lookup (str "time") = none
      ∧ pretty goLib lineNoTime none = str "INFO: foo\n"
      ∧ pretty goLib lineNoTime (some { LevelFirst := true }) = str "INFO: foo\n" :=
  ⟨rfl, rfl,
    header_without_timestamp goLib lineNoTime none recNoTime rfl (Or.inl rfl),
    header_without_timestamp goLib lineNoTime (some { LevelFirst := true }) recNoTime rfl
      (Or.inl rfl)⟩

/-- C5: for every input and every setting of the other options, Colorize changes the output only
in the header's level and message. When the input fails to decode the two outputs are equal.
Otherwise, with `L` and `M` the level and message strings of the record, the output with Colorize
off is the header line built from `L` and `M` followed by the field-listing section, and the
output with Colorize on is the same header line built from `ESC[32m L ESC[39m` and
`ESC[36m M ESC[39m`, with the same bracketed timestamp (not wrapped), followed by the same
field-listing section. -/
theorem colorize_wraps_level_and_message (lib : Lib) (input : GoString) (o : prettyOptions) :
    (lib.unmarshal input = none →
        pretty lib input (some { o with Colorize := true })
          = pretty lib input (some { o with Colorize := false }))
      ∧ (∀ logData, lib.unmarshal input = some logData →
          pretty lib input (some { o with Colorize := false }) =
              Spec.header o.LevelFirst (Spec.timestamp lib (some o) logData)
                (stringAt logData (Spec.levelKey (some o)))
                (stringAt logData (Spec.msgKey (some o)))
              ++ Spec.fieldSection (some o) logData
            ∧ pretty lib input (some { o with Colorize := true }) =
              Spec.header o.LevelFirst (Spec.timestamp lib (some o) logData)
                (str "\u001B[32m" ++ stringAt logData (Spec.levelKey (some o))
                  ++ str "\u001B[39m")
                (str "\u001B[36m" ++ stringAt logData (Spec.msgKey (some o))
                  ++ str "\u001B[39m")
              ++ Spec.fieldSection (some o) logData) := by
  constructor
  · intro h
    rw [pretty_of_decode_error lib input _ h, pretty_of_decode_error lib input _ h]
  · intro logData h
    constructor
    · rw [pretty_eq_header_fields lib input _ logData h]
      rfl
    · rw [pretty_eq_header_fields lib input _ logData h]
      rfl

/-- C5 on the line of the test `will add color codes`, and on the non-JSON input of the first
test. -/
theorem colorize_wraps_level_and_message_witness :
    goLib.unmarshal lineInfoFoo = some recInfoFoo
      ∧ goLib.unmarshal (str "this is not json") = none
      ∧ pretty goLib lineInfoFoo (some { Colorize := false }) = str "[17:35:28.992] INFO: foo\n"
      ∧ pretty goLib lineInfoFoo (some { Colorize := true })
          = str "[17:35:28.992] \u001B[32mINFO\u001B[39m: \u001B[36mfoo\u001B[39m\n"
      ∧ pretty goLib (str "this is not json") (some { Colorize := true })
          = pretty goLib (str "this is not json") (some { Colorize := false }) :=
  ⟨rfl, rfl, ((colorize_wraps_level_and_message goLib lineInfoFoo {}).2 recInfoFoo rfl).1,
    ((colorize_wraps_level_and_message goLib lineInfoFoo {}).2 recInfoFoo rfl).2,
    (colorize_wraps_level_and_message goLib (str "this is not json") {}).1 rfl⟩

/-- C6: for every decoded record and every configuration the output is the header line followed
by one field entry for each entry of the record whose key is none of the three effective key
names, in iteration order, and by nothing else. No field entry has the effective time, level or
message key as its key, whatever value the record stores under it; every other entry of the
record is listed, and since the keys of a map are distinct the field entries for such a key are
exactly one. -/
theorem reserved_keys_not_listed (lib : Lib) (input : GoString)
    (options : Option prettyOptions) (logData : GoMap)
    (hdec : lib.unmarshal input = some logData) :
    pretty lib input options =
        Spec.headerLine lib options logData
          ++ (Spec.fieldEntries (Spec.timeKey options) (Spec.levelKey options)
                (Spec.msgKey options) logData).flatMap (fun e => Spec.fieldBlock e.1 e.2)
      ∧ (Spec.fieldEntries (Spec.timeKey options) (Spec.levelKey options)
            (Spec.msgKey options) logData).Sublist logData
      ∧ (∀ e ∈ Spec.fieldEntries (Spec.timeKey options) (Spec.levelKey options)
            (Spec.msgKey options) logData,
          e.1 ≠ Spec.timeKey options ∧ e.1 ≠ Spec.levelKey options ∧ e.1 ≠ Spec.msgKey options)
      ∧ (∀ e ∈ logData,
          e.1 ≠ Spec.timeKey options → e.1 ≠ Spec.levelKey options → e.1 ≠ Spec.msgKey options →
          e ∈ Spec.fieldEntries (Spec.timeKey options) (Spec.levelKey options)
            (Spec.msgKey options) logData)
      ∧ ((logData.map Prod.fst).Nodup →
          ∀ k v, (k, v) ∈ logData →
            k ≠ Spec.timeKey options → k ≠ Spec.levelKey options → k ≠ Spec.msgKey options →
            (Spec.fieldEntries (Spec.timeKey options) (Spec.levelKey options)
                (Spec.msgKey options) logData).filter (fun e => decide (e.1 = k))
              = [(k, v)]) := by
  refine ⟨?_, ?_, ?_, ?_, ?_⟩
  · rw [pretty_eq_headerLine_fieldSection lib input options logData hdec]
    rfl
  · exact List.filter_sublist _
  · intro e he
    have := (List.mem_filter.mp he).2
    simp only [Bool.not_eq_true', decide_eq_false_iff_not, not_or] at this
    exact this
  · intro e he h1 h2 h3
    refine List.mem_filter.mpr ⟨he, ?_⟩
    simp [h1, h2, h3]
  · intro hnd k v hmem h1 h2 h3
    have hk : ¬ (k = Spec.timeKey options ∨ k = Spec.levelKey options
        ∨ k = Spec.msgKey options) := by
      rintro (h | h | h)
      · exact h1 h
      · exact h2 h
      · exact h3 h
    rw [filter_key_fieldEntries _ _ _ k hk logData]
    exact filter_key_eq_singleton k v logData hnd hmem

/-- C6 on a record that stores a nested object under the time key and a number under the level
key: neither is listed, the other key `a` is listed once. -/
theorem reserved_keys_not_listed_witness :
    goLib.unmarshal lineReservedTypes = some recReservedTypes
      ∧ pretty goLib lineReservedTypes none = str ": foo\n" ++ str "    a: \"b\"\n" :=
  ⟨rfl, (reserved_keys_not_listed goLib lineReservedTypes none recReservedTypes rfl).1⟩

/-- C7: each of the three key names used by `pretty` is the configured name when that is
non-empty and the default (`time`, `level`, `msg`) when it is empty. With `tk`, `lk`, `mk` these
effective names, the header is built from the strings stored under `tk`, `lk` and `mk`, and the
entries left out of the field listing are exactly those whose key is `tk`, `lk` or `mk`: every
other entry, one with an overridden default name included, is listed as an ordinary field. -/
theorem effective_keys (lib : Lib) (input : GoString) (options : Option prettyOptions)
    (logData : GoMap) (tk lk mk : GoString)
    (hdec : lib.unmarshal input = some logData)
    (htk : tk = if (Spec.config options).TimeKey = [] then str "time"
      else (Spec.config options).TimeKey)
    (hlk : lk = if (Spec.config options).LevelKey = [] then str "level"
      else (Spec.config options).LevelKey)
    (hmk : mk = if (Spec.config options).MessageKey = [] then str "msg"
      else (Spec.config options).MessageKey) :
    pretty lib input options =
        Spec.header (Spec.config options).LevelFirst
            ((lib.timeParse (stringAt logData tk)).map (fun t => str "[" ++ t.format ++ str "]"))
            (Spec.paintLevel (Spec.config options).Colorize (stringAt logData lk))
            (Spec.paintMessage (Spec.config options).Colorize (stringAt logData mk))
          ++ (logData.filter (fun e => !(decide (e.1 = tk ∨ e.1 = lk ∨ e.1 = mk)))).flatMap
              (fun e => Spec.fieldBlock e.1 e.2)
      ∧ (∀ k v, (k, v) ∈ logData → k ≠ tk → k ≠ lk → k ≠ mk →
          (k, v) ∈ logData.filter (fun e => !(decide (e.1 = tk ∨ e.1 = lk ∨ e.1 = mk)))) := by
  have e1 : tk = Spec.timeKey options := htk
  have e2 : lk = Spec.levelKey options := hlk
  have e3 : mk = Spec.msgKey options := hmk
  subst e1 e2 e3
  constructor
  · rw [pretty_eq_headerLine_fieldSection lib input options logData hdec]
    rfl
  · intro k v hmem h1 h2 h3
    refine List.mem_filter.mpr ⟨hmem, ?_⟩
    simp [h1, h2, h3]

/-- C7 on the lines of the tests `can use different message keys` and `can use different level
keys`, and on a record that has a `msg` entry although the message key is `bar`: the message is
taken from `bar` and `msg` is listed as a field. -/
theorem effective_keys_witness :
    goLib.unmarshal lineMessageBar = some recMessageBar
      ∧ goLib.unmarshal lineLevelBar = some recLevelBar
      ∧ goLib.unmarshal lineBothKeys = some recBothKeys
      ∧ pretty goLib lineMessageBar (some { MessageKey := str "bar" })
        = str "[17:35:28.992] INFO: baz\n"
      ∧ pretty goLib lineLevelBar (some { LevelKey := str "bar" })
        = str "[17:35:28.992] WARN: foo\n"
      ∧ pretty goLib lineBothKeys (some { MessageKey := str "bar" })
        = str "INFO: baz\n" ++ str "    msg: \"x\"\n" :=
  ⟨rfl, rfl, rfl,
    (effective_keys goLib lineMessageBar (some { MessageKey := str "bar" }) recMessageBar
      (str "time") (str "level") (str "bar") rfl rfl rfl rfl).1,
    (effective_keys goLib lineLevelBar (some { LevelKey := str "bar" }) recLevelBar
      (str "time") (str "bar") (str "msg") rfl rfl rfl rfl).1,
    (effective_keys goLib lineBothKeys (some { MessageKey := str "bar" }) recBothKeys
      (str "time") (str "level") (str "bar") rfl rfl rfl rfl).1⟩

/-- C8, the code at `{"a":{"n":42}}`: the block of `a` as the claim words it is the line `a: {`,
the line of 6 spaces, `"n": "42"`, and the closing brace line; the code writes the nested number
with the verb `%s`, which has no form for it, so the line reads `"n": "%!s(float64=42)"` and the
output is not the header followed by the claimed block. The same happens for a boolean nested
two levels deep. On the line of the test `prettifies nested properties`, where every nested
value is a string, the output is the header followed by the claimed block. -/
theorem nested_value_prints_bad_verb :
    goLib.unmarshal (str "\x7b\"a\":\x7b\"n\":42\x7d\x7d")
        = some [(str "a", Value.map [(str "n", Value.float64 (str "42"))])]
      ∧ Spec.claimedBlock (str "a") [(str "n", Value.float64 (str "42"))]
          = str "    a: \x7b\n" ++ str "      \"n\": \"42\"\n" ++ str "    \x7d\n"
      ∧ pretty goLib (str "\x7b\"a\":\x7b\"n\":42\x7d\x7d") none
          = str ": \n" ++ str "    a: \x7b\n" ++ str "      \"n\": \"%!s(float64=42)\"\n"
            ++ str "    \x7d\n"
      ∧ pretty goLib (str "\x7b\"a\":\x7b\"n\":42\x7d\x7d") none
          ≠ str ": \n" ++ Spec.claimedBlock (str "a") [(str "n", Value.float64 (str "42"))]
      ∧ goLib.unmarshal (str "\x7b\"a\":\x7b\"b\":\x7b\"ok\":true\x7d\x7d\x7d")
          = some [(str "a", Value.map [(str "b", Value.map [(str "ok", Value.bool true)])])]
      ∧ Spec.claimedBlock (str "a") [(str "b", Value.map [(str "ok", Value.bool true)])]
          = str "    a: \x7b\n" ++ str "      \"b\": \x7b\n" ++ str "        \"ok\": \"true\"\n"
            ++ str "      \x7d\n" ++ str "    \x7d\n"
      ∧ pretty goLib (str "\x7b\"a\":\x7b\"b\":\x7b\"ok\":true\x7d\x7d\x7d") none
          = str ": \n" ++ str "    a: \x7b\n" ++ str "      \"b\": \x7b\n"
            ++ str "        \"ok\": \"%!s(bool=true)\"\n" ++ str "      \x7d\n" ++ str "    \x7d\n"
      ∧ pretty goLib lineGroup none
          = str "[17:35:28.992] INFO: foo\n"
            ++ Spec.claimedBlock (str "a") [(str "b", Value.map [(str "c", Value.string (str "d"))])]
      ∧ Spec.claimedBlock (str "a") [(str "b", Value.map [(str "c", Value.string (str "d"))])]
          = str "    a: \x7b\n" ++ str "      \"b\": \x7b\n" ++ str "        \"c\": \"d\"\n"
            ++ str "      \x7d\n" ++ str "    \x7d\n" := by
  refine ⟨rfl, by decide, by decide, by decide, rfl, by decide, by decide, by decide, by decide⟩

/-- C9: a top-level entry whose key `k` is none of the three effective keys and whose value is a
string `v` contributes, at its place in the field listing after the header, exactly the line of
4 spaces, `k`, `: "`, `v`, `"` and a newline, with the bytes of `k` and `v` copied unchanged. -/
theorem string_field_line (lib : Lib) (input : GoString) (options : Option prettyOptions)
    (logData pre post : GoMap) (k v : GoString)
    (hdec : lib.unmarshal input = some logData)
    (hsplit : logData = pre ++ (k, Value.string v) :: post)
    (hk : k ≠ Spec.timeKey options ∧ k ≠ Spec.levelKey options ∧ k ≠ Spec.msgKey options) :
    pretty lib input options =
      Spec.headerLine lib options logData ++ Spec.fieldSection options pre
        ++ (spaces 4 ++ k ++ str ": \"" ++ v ++ str "\"\n")
        ++ Spec.fieldSection options post := by
  rw [pretty_eq_headerLine_fieldSection lib input options logData hdec, hsplit,
    fieldSection_append, fieldSection_cons_listed options k _ post hk]
  simp only [Spec.fieldBlock, fmtS, fmtElem, sortValue, List.append_assoc]

/-- C9 on the line of the test `prettifies properties`, and on a value that holds a quote, a
backslash and a newline, which are copied as they are. -/
theorem string_field_line_witness :
    goLib.unmarshal lineAttr = some (recInfoFoo ++ (str "a", Value.string (str "b")) :: [])
      ∧ goLib.unmarshal lineQuoted = some [(str "a", Value.string (str "x\"y\\z\nw"))]
      ∧ pretty goLib lineAttr none = str "[17:35:28.992] INFO: foo\n" ++ str "    a: \"b\"\n"
      ∧ pretty goLib lineQuoted none = str ": \n" ++ str "    a: \"x\"y\\z\nw\"\n" :=
  ⟨rfl, rfl,
    string_field_line goLib lineAttr none _ recInfoFoo [] (str "a") (str "b") rfl rfl
      (by decide),
    string_field_line goLib lineQuoted none _ [] [] (str "a") (str "x\"y\\z\nw") rfl rfl
      (by decide)⟩

set_option maxRecDepth 8000 in
/-- C10, the code at `{"count":42}` and at three more records: a number, a boolean, a null and
an array are printed with the verb `%s`, which has no form for them, so the text between the
quotes is `%!s(float64=42)`, `%!s(bool=true)`, `%!s(<nil>)` and `[%!s(float64=1) a]`, not `42`,
`true`, and so on; likewise inside a nested mapping. -/
theorem number_field_prints_bad_verb :
    pretty goLib lineCount none = str ": \n" ++ str "    count: \"%!s(float64=42)\"\n"
      ∧ pretty goLib lineCount none ≠ str ": \n" ++ str "    count: \"42\"\n"
      ∧ pretty goLib (str "\x7b\"ok\":true\x7d") none
          = str ": \n" ++ str "    ok: \"%!s(bool=true)\"\n"
      ∧ pretty goLib (str "\x7b\"v\":null\x7d") none = str ": \n" ++ str "    v: \"%!s(<nil>)\"\n"
      ∧ pretty goLib (str "\x7b\"xs\":[1,\"a\"]\x7d") none
          = str ": \n" ++ str "    xs: \"[%!s(float64=1) a]\"\n"
      ∧ pretty goLib (str "\x7b\"a\":\x7b\"n\":42\x7d\x7d") none
          = str ": \n" ++ str "    a: \x7b\n" ++ str "      \"n\": \"%!s(float64=42)\"\n"
            ++ str "    \x7d\n" := by
  refine ⟨by decide, by decide, by decide, by decide, by decide, by decide⟩

/-- C12: for every decoded record, when the effective level key is absent or holds a value that
is not a string, the level used in the header is the empty string (wrapped in its colour codes
when Colorize is on, like any level); likewise for the message key. `pretty` has no error result:
in each case it returns the header line followed by the field-listing section. -/
theorem missing_level_or_message_is_empty (lib : Lib) (input : GoString)
    (options : Option prettyOptions) (logData : GoMap)
    (hdec : lib.unmarshal input = some logData) :
    ((logData.lookup (Spec.levelKey options) = none
        ∨ (∃ v, logData.lookup (Spec.levelKey options) = some v ∧ ∀ s, v ≠ Value.string s)) →
      pretty lib input options =
        Spec.header (Spec.config options).LevelFirst (Spec.timestamp lib options logData)
            (Spec.paintLevel (Spec.config options).Colorize [])
            (Spec.paintMessage (Spec.config options).Colorize
              (stringAt logData (Spec.msgKey options)))
          ++ Spec.fieldSection options logData)
      ∧ ((logData.lookup (Spec.msgKey options) = none
          ∨ (∃ v, logData.lookup (Spec.msgKey options) = some v ∧ ∀ s, v ≠ Value.string s)) →
        pretty lib input options =
          Spec.header (Spec.config options).LevelFirst (Spec.timestamp lib options logData)
              (Spec.paintLevel (Spec.config options).Colorize
                (stringAt logData (Spec.levelKey options)))
              (Spec.paintMessage (Spec.config options).Colorize [])
            ++ Spec.fieldSection options logData) := by
  constructor
  · intro h
    have h0 : stringAt logData (Spec.levelKey options) = [] := by
      rcases h with h | ⟨v, hv, hns⟩
      · exact stringAt_of_lookup_none _ _ h
      · exact stringAt_of_lookup_not_string _ _ v hv hns
    rw [pretty_eq_headerLine_fieldSection lib input options logData hdec, Spec.headerLine, h0]
  · intro h
    have h0 : stringAt logData (Spec.msgKey options) = [] := by
      rcases h with h | ⟨v, hv, hns⟩
      · exact stringAt_of_lookup_none _ _ h
      · exact stringAt_of_lookup_not_string _ _ v hv hns
    rw [pretty_eq_headerLine_fieldSection lib input options logData hdec, Spec.headerLine, h0]

/-- C12 on the records `{"level": 30, "msg": "x"}` (level not a string) and `{}` (level and
message absent). -/
theorem missing_level_or_message_is_empty_witness :
    goLib.unmarshal lineLevelNumber = some recLevelNumber
      ∧ recLevelNumber.lookup (str "level") = some (Value.float64 (str "30"))
      ∧ goLib.unmarshal lineEmpty = some []
      ∧ pretty goLib lineLevelNumber none = str ": x\n"
      ∧ pretty goLib lineEmpty none = str ": \n" :=
  ⟨rfl, rfl, rfl,
    (missing_level_or_message_is_empty goLib lineLevelNumber none recLevelNumber rfl).1
      (Or.inr ⟨Value.float64 (str "30"), rfl, fun _ h => Value.noConfusion h⟩),
    (missing_level_or_message_is_empty goLib lineEmpty none [] rfl).2 (Or.inl rfl)⟩

/-- C14: for every input and every options value the string returned by `pretty` ends with a
newline byte, hence is not empty, on the pass-through path and on the formatted path alike. -/
theorem output_ends_with_newline (lib : Lib) (input : GoString)
    (options : Option prettyOptions) :
    (pretty lib input options).getLast? = some 10 ∧ pretty lib input options ≠ [] := by
  obtain ⟨x, hx⟩ := pretty_ends_with_newline lib input options
  rw [hx]
  simp

/-- C17: a nil options pointer behaves exactly like the zero configuration (Colorize off,
LevelFirst off, the three key names empty). -/
theorem nil_options_are_defaults (lib : Lib) (input : GoString) :
    pretty lib input none
      = pretty lib input (some
          { Colorize := false, LevelFirst := false, TimeKey := [], MessageKey := [],
            LevelKey := [] }) :=
  rfl

/-- C13, as amended, for every `json.Unmarshal` that returns an error where `jsonUnmarshal` does
and otherwise delivers the same record in some iteration order: an input that `encoding/json`
does not read as one JSON value (text that is not JSON, or JSON holding a number beyond the range
of `float64`), or that is a JSON array, number, string or boolean, makes `json.Unmarshal` return
an error, and `pretty` returns the input bytes followed by one newline. The JSON text `null` is
decoded without error and leaves the map empty: `pretty` then returns the header line of a
record without time, level and message, which is `: ` and a newline under the default options. A
JSON object is not passed through: the output is the header line and the field listing of its
members. -/
theorem non_object_passthrough (lib : Lib)
    (hlib : ∀ x, (jsonUnmarshal x = none → lib.unmarshal x = none)
      ∧ (∀ m, jsonUnmarshal x = some m → ∃ m', lib.unmarshal x = some m' ∧ Spec.SameMap m m'))
    (input : GoString) (options : Option prettyOptions) :
    (jsonText input = none → pretty lib input options = input ++ [10])
      ∧ (∀ v, jsonText input = some v → (∀ m, v ≠ Value.map m) → v ≠ Value.nil →
          pretty lib input options = input ++ [10])
      ∧ (jsonText input = some Value.nil →
          pretty lib input options =
            Spec.paintLevel (Spec.config options).Colorize [] ++ str ": "
              ++ Spec.paintMessage (Spec.config options).Colorize [] ++ str "\n")
      ∧ (∀ m, jsonText input = some (Value.map m) →
          ∃ m', Spec.SameMap m m'
            ∧ pretty lib input options
              = Spec.headerLine lib options m' ++ Spec.fieldSection options m') := by
  refine ⟨?_, ?_, ?_, ?_⟩
  · intro h
    apply pretty_of_decode_error
    apply (hlib input).1
    rw [jsonUnmarshal_eq_of_jsonText, h]
  · intro v h hm hn
    apply pretty_of_decode_error
    apply (hlib input).1
    rw [jsonUnmarshal_eq_of_jsonText, h]
    cases v with
    | map m => exact absurd rfl (hm m)
    | nil => exact absurd rfl hn
    | string _ => rfl
    | float64 _ => rfl
    | bool _ => rfl
    | slice _ => rfl
  · intro h
    have hj : jsonUnmarshal input = some [] := by
      rw [jsonUnmarshal_eq_of_jsonText, h]
    obtain ⟨m', hdec, hsame⟩ := (hlib input).2 [] hj
    rw [SameMap_nil_left m' hsame] at hdec
    rw [pretty_eq_headerLine_fieldSection lib input options [] hdec]
    simp [Spec.headerLine, Spec.timestamp, Spec.header, Spec.fieldSection, Spec.fields,
      Spec.fieldEntries, stringAt, lib.timeParse_empty]
  · intro m h
    have hj : jsonUnmarshal input = some m := by
      rw [jsonUnmarshal_eq_of_jsonText, h]
    obtain ⟨m', hdec, hsame⟩ := (hlib input).2 m hj
    exact ⟨m', hsame, pretty_eq_headerLine_fieldSection lib input options m' hdec⟩

set_option maxRecDepth 100000 in
/-- C13, as amended, on a text that is not JSON, on the JSON texts `[1,2]`, `42`, `"foo"` and
`true`, on an array holding a number beyond the range of `float64`, on `null`, and on two objects
holding a large and a long number, which are formatted. -/
theorem non_object_passthrough_witness :
    jsonText (str "not json") = none
      ∧ jsonText (str "[1,2]") = some (Value.slice [Value.float64 (str "1"),
          Value.float64 (str "2")])
      ∧ jsonText (str "null") = some Value.nil
      ∧ pretty goLib (str "not json") none = str "not json\n"
      ∧ pretty goLib (str "[1,2]") none = str "[1,2]\n"
      ∧ pretty goLib (str "42") none = str "42\n"
      ∧ pretty goLib (str "\"foo\"") none = str "\"foo\"\n"
      ∧ pretty goLib (str "true") none = str "true\n"
      ∧ pretty goLib (str "[1e999]") none = str "[1e999]\n"
      ∧ pretty goLib (str "null") none = str ": \n"
      ∧ jsonText (str "\x7b\"n\":1e300\x7d")
          = some (Value.map [(str "n", Value.float64 (str "1e+300"))])
      ∧ (∃ m', Spec.SameMap [(str "n", Value.float64 (str "1e+300"))] m'
          ∧ pretty goLib (str "\x7b\"n\":1e300\x7d") none
            = Spec.headerLine goLib none m' ++ Spec.fieldSection none m')
      ∧ pretty goLib (str "\x7b\"n\":1e300\x7d") none
          = str ": \n" ++ str "    n: \"%!s(float64=1e+300)\"\n"
      ∧ pretty goLib (str "\x7b\"id\":9007199254740993\x7d") none
          = str ": \n" ++ str "    id: \"%!s(float64=9.007199254740992e+15)\"\n" :=
  ⟨rfl, rfl, rfl,
    (non_object_passthrough goLib (fun _ => ⟨fun h => h, fun m h => ⟨m, h, SameMap_refl m⟩⟩)
      (str "not json") none).1 rfl,
    (non_object_passthrough goLib (fun _ => ⟨fun h => h, fun m h => ⟨m, h, SameMap_refl m⟩⟩)
      (str "[1,2]") none).2.1 _ rfl
      (fun _ h => Value.noConfusion h) (fun h => Value.noConfusion h),
    (non_object_passthrough goLib (fun _ => ⟨fun h => h, fun m h => ⟨m, h, SameMap_refl m⟩⟩)
      (str "42") none).2.1 (Value.float64 (str "42")) rfl
      (fun _ h => Value.noConfusion h) (fun h => Value.noConfusion h),
    (non_object_passthrough goLib (fun _ => ⟨fun h => h, fun m h => ⟨m, h, SameMap_refl m⟩⟩)
      (str "\"foo\"") none).2.1 (Value.string (str "foo")) rfl
      (fun _ h => Value.noConfusion h) (fun h => Value.noConfusion h),
    (non_object_passthrough goLib (fun _ => ⟨fun h => h, fun m h => ⟨m, h, SameMap_refl m⟩⟩)
      (str "true") none).2.1 (Value.bool true) rfl
      (fun _ h => Value.noConfusion h) (fun h => Value.noConfusion h),
    (non_object_passthrough goLib (fun _ => ⟨fun h => h, fun m h => ⟨m, h, SameMap_refl m⟩⟩)
      (str "[1e999]") none).1 rfl,
    (non_object_passthrough goLib (fun _ => ⟨fun h => h, fun m h => ⟨m, h, SameMap_refl m⟩⟩)
      (str "null") none).2.2.1 rfl,
    rfl,
    (non_object_passthrough goLib (fun _ => ⟨fun h => h, fun m h => ⟨m, h, SameMap_refl m⟩⟩)
      (str "\x7b\"n\":1e300\x7d") none).2.2.2 [(str "n", Value.float64 (str "1e+300"))] rfl,
    by decide, by decide⟩

/-- C13 as stated fails on the JSON text `null`: it is not a JSON object, yet `json.Unmarshal`
accepts it (the map stays nil) and `pretty` returns the header of an empty record, not the
input followed by a newline. -/
theorem null_is_not_passed_through :
    jsonText (str "null") = some Value.nil
      ∧ goLib.unmarshal (str "null") = some []
      ∧ pretty goLib (str "null") none = str ": \n"
      ∧ pretty goLib (str "null") none ≠ str "null" ++ str "\n" :=
  ⟨rfl, rfl, by decide, by decide⟩

/-- C18: the three effective key names are left out at the top level only. In a nested mapping
`m` under a listed top-level key `k`, an entry is rendered by the same rule whatever its key
is, one equal to the effective time, level or message key included: its line or block stands at
its place among the lines of `m`. The header line does not depend on what a nested mapping
holds: it is the header line of the record in which that mapping is emptied. `processMap`
receives no key name and appends these same lines for every mapping. -/
theorem nested_reserved_names_are_rendered (lib : Lib) (input : GoString)
    (options : Option prettyOptions) (logData pre post : GoMap) (k : GoString)
    (mpre mpost : GoMap) (key : GoString) (v : Value)
    (hdec : lib.unmarshal input = some logData)
    (hsplit : logData = pre ++ (k, Value.map (mpre ++ (key, v) :: mpost)) :: post)
    (hk : k ≠ Spec.timeKey options ∧ k ≠ Spec.levelKey options ∧ k ≠ Spec.msgKey options) :
    pretty lib input options =
        Spec.headerLine lib options (pre ++ (k, Value.map []) :: post)
          ++ Spec.fieldSection options pre
          ++ (spaces 4 ++ k ++ str ": \x7b\n"
              ++ (Spec.render mpre 6 ++ Spec.renderEntry key v 6 ++ Spec.render mpost 6)
              ++ spaces 4 ++ str "\x7d\n")
          ++ Spec.fieldSection options post
      ∧ (∀ s : GoString, Spec.renderEntry key (Value.string s) 6
          = spaces 6 ++ str "\"" ++ key ++ str "\": \"" ++ s ++ str "\"\n")
      ∧ (∀ (b a c : GoMap) (k' : GoString) (w : Value) (i : Nat) (buf : GoString),
          b = a ++ (k', w) :: c →
          processMap buf b i
            = buf ++ (Spec.render a i ++ Spec.renderEntry k' w i ++ Spec.render c i)) := by
  refine ⟨?_, ?_, ?_⟩
  · rw [pretty_eq_headerLine_fieldSection lib input options logData hdec, hsplit,
      fieldSection_append, fieldSection_cons_listed options k _ post hk,
      headerLine_nested_irrelevant lib options pre post k _ []]
    simp only [Spec.fieldBlock, render_append, Spec.render, List.append_assoc]
  · intro s
    simp only [Spec.renderEntry, fmtS, fmtElem, sortValue]
  · intro b a c k' w i buf hb
    rw [hb, processMap_eq_render, render_append]
    simp only [Spec.render, List.append_assoc]

/-- C18 on the record `{"a": {"msg": "x"}}`: the nested `msg` is listed inside the block of `a`
and the header has no message. -/
theorem nested_reserved_names_are_rendered_witness :
    goLib.unmarshal lineNestedMsg
        = some [(str "a", Value.map [(str "msg", Value.string (str "x"))])]
      ∧ pretty goLib lineNestedMsg none =
        str ": \n" ++ str "    a: \x7b\n" ++ (spaces 6 ++ str "\"msg\": \"x\"\n") ++ str "    \x7d\n" :=
  ⟨rfl,
    (nested_reserved_names_are_rendered goLib lineNestedMsg none _ [] [] (str "a") [] []
      (str "msg") (Value.string (str "x")) rfl rfl (by decide)).1⟩

/-- C15: the field-listing section of the output is a sequence of lines, and every line of an
entry at depth `d` (top-level fields at depth 0), as well as the closing-brace line of a mapping
opened at depth `d`, consists of exactly `4 + 2 * d` space bytes (byte 32), the text of the line
and a newline, for every depth. The text after the indentation is the key for a top-level entry;
otherwise it starts with the quote of the key or is the closing brace, so it does not start with
a space. The depth of a line is the number of blocks open around it. -/
theorem indentation_by_depth (lib : Lib) (input : GoString) (options : Option prettyOptions)
    (logData : GoMap) (hdec : lib.unmarshal input = some logData) :
    pretty lib input options =
        Spec.headerLine lib options logData
          ++ (Spec.outputLines options logData).flatMap Spec.Line.emit
      ∧ (∀ l ∈ Spec.outputLines options logData,
          l.indent = 4 + 2 * l.depth
            ∧ l.emit = List.replicate (4 + 2 * l.depth) 32 ++ l.text ++ [10]
            ∧ ((l.depth = 0 ∧ l.kind ≠ Spec.LineKind.closing ∧ ∃ tail, l.text = l.key ++ tail)
              ∨ l.text.head? = some 34 ∨ l.text = [125])
            ∧ (0 < l.depth → l.text.head? ≠ some 32))
      ∧ Spec.wellNested 0 (Spec.outputLines options logData) [] = true := by
  refine ⟨?_, ?_, ?_⟩
  · rw [pretty_eq_headerLine_fieldSection lib input options logData hdec,
      fieldSection_eq_outputLines]
  · intro l hl
    obtain ⟨h1, h2⟩ := outputLines_indent options logData l hl
    refine ⟨h1, ?_, h2, ?_⟩
    · rw [Spec.Line.emit, h1]
      rfl
    · intro hd
      rcases h2 with ⟨h0, _⟩ | h34 | hb
      · omega
      · rw [h34]
        decide
      · rw [hb]
        decide
  · exact wellNested_flatMap_fieldLines _

/-- C15 on the line of the test `prettifies nested properties`: depths 0, 1, 2, 1, 0 give
indentations of 4, 6, 8, 6 and 4 spaces. -/
theorem indentation_by_depth_witness :
    goLib.unmarshal lineGroup
        = some (recInfoFoo ++ (str "a", Value.map [(str "b", Value.map
            [(str "c", Value.string (str "d"))])]) :: [])
      ∧ (Spec.outputLines none
          (recInfoFoo ++ (str "a", Value.map [(str "b", Value.map
            [(str "c", Value.string (str "d"))])]) :: [])).map
            (fun l => (l.depth, l.indent, l.text))
          = [(0, 4, str "a: \x7b"), (1, 6, str "\"b\": \x7b"), (2, 8, str "\"c\": \"d\""),
              (1, 6, str "\x7d"), (0, 4, str "\x7d")]
      ∧ (Spec.outputLines none
          (recInfoFoo ++ (str "a", Value.map [(str "b", Value.map
            [(str "c", Value.string (str "d"))])]) :: [])).map Spec.Line.emit
          = [str "    a: \x7b\n", str "      \"b\": \x7b\n", str "        \"c\": \"d\"\n",
              str "      \x7d\n", str "    \x7d\n"]
      ∧ pretty goLib lineGroup none =
        str "[17:35:28.992] INFO: foo\n" ++ str "    a: \x7b\n" ++ str "      \"b\": \x7b\n"
          ++ str "        \"c\": \"d\"\n" ++ str "      \x7d\n" ++ str "    \x7d\n" :=
  ⟨rfl, by decide, by decide, (indentation_by_depth goLib lineGroup none _ rfl).1⟩

/-- C16: `processMap` is a total function, and for every nested mapping, indentation and builder
content it appends, in one depth-first pass in iteration order, the lines `Spec.mapLines`:
every entry of the tree gives exactly one line that is not a closing line, parents before
children (a value line for a value that is not a mapping, an opening line ending in `{` and a
newline for a mapping); there are as many closing lines as entries with a mapping value, each
the text `}` and a newline; and the lines are balanced and properly nested, each closing line
closing the innermost open block with the key, depth and indentation of its opening line, after
all lines of the block. -/
theorem processMap_single_pass (b : GoString) (m : GoMap) (d i : Nat) :
    processMap b m i = b ++ (Spec.mapLines m d i).flatMap Spec.Line.emit
      ∧ ((Spec.mapLines m d i).filter (fun l => decide (l.kind ≠ Spec.LineKind.closing))).map
            (fun l => (l.key, decide (l.kind = Spec.LineKind.opening)))
          = Spec.walk m
      ∧ ((Spec.mapLines m d i).filter
            (fun l => decide (l.kind = Spec.LineKind.closing))).length
          = ((Spec.walk m).filter (fun e => e.2)).length
      ∧ (∀ l ∈ Spec.mapLines m d i,
          (l.kind = Spec.LineKind.opening →
              l.emit = spaces l.indent ++ str "\"" ++ l.key ++ str "\": \x7b\n")
            ∧ (l.kind = Spec.LineKind.closing → l.emit = spaces l.indent ++ str "\x7d\n")
            ∧ (l.kind = Spec.LineKind.value →
                ∃ v, (∀ n, v ≠ Value.map n)
                  ∧ l.emit = spaces l.indent ++ str "\"" ++ l.key ++ str "\": \"" ++ fmtS v
                      ++ str "\"\n"))
      ∧ Spec.wellNested d (Spec.mapLines m d i) [] = true := by
  refine ⟨?_, walk_mapLines m d i, closing_mapLines m d i, ?_, ?_⟩
  · rw [processMap_eq_render, render_eq_mapLines d]
  · intro l hl
    obtain ⟨h1, h2, h3⟩ := mapLines_text m d i l hl
    refine ⟨?_, ?_, ?_⟩
    · intro hk
      rw [Spec.Line.emit, h1 hk, str_open_newline]
      simp only [List.append_assoc]
    · intro hk
      rw [Spec.Line.emit, h2 hk, str_close_newline]
      simp only [List.append_assoc]
    · intro hk
      obtain ⟨v, hv, ht⟩ := h3 hk
      refine ⟨v, hv, ?_⟩
      rw [Spec.Line.emit, ht, str_quote_newline]
      simp only [List.append_assoc]
  · have h := wellNested_mapLines d m d i [] [] (by simp)
    rw [List.append_nil] at h
    rw [h]
    rfl

/-- C19, as amended: for a record with distinct keys and any two iteration orders of its
top-level entries, the header line is the same and the top-level field blocks of one output are
a permutation of those of the other, each block unchanged. The output is the same for any two
iteration orders at every level when the record has at most one non-reserved entry at the top
level and every mapping nested in that entry has at most one entry. -/
theorem iteration_order (lib lib' : Lib) (input : GoString) (options : Option prettyOptions)
    (logData logData' : GoMap)
    (hdec : lib.unmarshal input = some logData)
    (hdec' : lib'.unmarshal input = some logData')
    (htime : lib'.timeParse = lib.timeParse)
    (hnd : (logData.map Prod.fst).Nodup) :
    (logData.Perm logData' →
        pretty lib input options =
            Spec.headerLine lib options logData ++ (Spec.fieldBlocks options logData).flatten
          ∧ pretty lib' input options =
            Spec.headerLine lib options logData ++ (Spec.fieldBlocks options logData').flatten
          ∧ (Spec.fieldBlocks options logData).Perm (Spec.fieldBlocks options logData'))
      ∧ (Spec.SameMap logData logData' → Spec.singleListed options logData = true →
          pretty lib' input options = pretty lib input options) := by
  constructor
  · intro hperm
    refine ⟨?_, ?_, fieldBlocks_perm options logData logData' hperm⟩
    · rw [pretty_eq_headerLine_fieldSection lib input options logData hdec,
        fieldSection_eq_flatten]
    · rw [pretty_eq_headerLine_fieldSection lib' input options logData' hdec',
        fieldSection_eq_flatten,
        headerLine_same lib lib' options logData logData' htime (SameMap_of_perm hperm) hnd]
  · intro hsame hone
    rw [pretty_eq_headerLine_fieldSection lib input options logData hdec,
      pretty_eq_headerLine_fieldSection lib' input options logData' hdec',
      headerLine_same lib lib' options logData logData' htime hsame hnd,
      fieldSection_same options logData logData' hsame hone]

/-- C19, as amended, on `{"a":"b","msg":"foo","c":"d"}` iterated in the orders `a, msg, c` and
`msg, c, a` (same header, the two field blocks in the other order), and on the line of the test
`prettifies nested properties` with `a` iterated first (one field, one entry per nested
mapping: same output). -/
theorem iteration_order_witness :
    goLib.unmarshal lineTwoFields = some recTwoFields
      ∧ recTwoFields.Perm recTwoFieldsRotated
      ∧ pretty goLib lineTwoFields none
          = str ": foo\n" ++ [str "    a: \"b\"\n", str "    c: \"d\"\n"].flatten
      ∧ pretty (inOrder goLib recTwoFieldsRotated) lineTwoFields none
          = str ": foo\n" ++ [str "    c: \"d\"\n", str "    a: \"b\"\n"].flatten
      ∧ Spec.singleListed none
          (recInfoFoo ++ [(str "a", Value.map [(str "b", Value.map
            [(str "c", Value.string (str "d"))])])]) = true
      ∧ pretty (inOrder goLib recGroupRotated) lineGroup none = pretty goLib lineGroup none :=
  ⟨rfl, List.perm_append_comm,
    ((iteration_order goLib (inOrder goLib recTwoFieldsRotated) lineTwoFields none
      recTwoFields recTwoFieldsRotated rfl rfl rfl (by decide)).1 List.perm_append_comm).1,
    ((iteration_order goLib (inOrder goLib recTwoFieldsRotated) lineTwoFields none
      recTwoFields recTwoFieldsRotated rfl rfl rfl (by decide)).1 List.perm_append_comm).2.1,
    by decide,
    (iteration_order goLib (inOrder goLib recGroupRotated) lineGroup none
      (recInfoFoo ++ [(str "a", Value.map [(str "b", Value.map
        [(str "c", Value.string (str "d"))])])]) recGroupRotated rfl rfl rfl (by decide)).2
      (SameMap_of_perm List.perm_append_comm) (by decide)⟩

/-- C19 as stated fails below the top level: the record `{"a": {"msg": "x", "b": "y"}}` has at
every level at most one entry whose key is not a reserved key name (`a` at the top, `b` in the
nested mapping, where `msg` is a reserved name), yet `processMap` lists the nested `msg` too, so
the two iteration orders of the nested mapping give two different outputs. -/
theorem nested_order_changes_output :
    goLib.unmarshal lineNestedTwo = some recNestedMsgFirst
      ∧ Spec.SameMap recNestedMsgFirst recNestedMsgLast
      ∧ Spec.atMostOneNonReserved none recNestedMsgFirst = true
      ∧ Spec.atMostOneNonReserved none recNestedMsgLast = true
      ∧ pretty (inOrder goLib recNestedMsgFirst) lineNestedTwo none
          = str ": \n" ++ str "    a: \x7b\n" ++ str "      \"msg\": \"x\"\n"
            ++ str "      \"b\": \"y\"\n" ++ str "    \x7d\n"
      ∧ pretty (inOrder goLib recNestedMsgLast) lineNestedTwo none
          = str ": \n" ++ str "    a: \x7b\n" ++ str "      \"b\": \"y\"\n"
            ++ str "      \"msg\": \"x\"\n" ++ str "    \x7d\n"
      ∧ pretty (inOrder goLib recNestedMsgFirst) lineNestedTwo none
          ≠ pretty (inOrder goLib recNestedMsgLast) lineNestedTwo none :=
  ⟨rfl,
    Spec.SameMap.cons (str "a") (Spec.SameValue.map (Spec.SameMap.swap _ _ [])) Spec.SameMap.nil,
    by decide, by decide, by decide, by decide, by decide⟩

/-- C11, as amended: the strings that render a timestamp are those `time.Parse` accepts for the
RFC 3339 layout, and every string valid under RFC 3339 that is written with an upper-case `T` and
`Z` and whose second is not 60 is one of them. An accepted string reads as date, `T`, hour `hh`
(one or two digits), `:`, minute `mm`, `:`, second `ss` (two digits each), an optional fraction
(a separator and digits) and a zone (`Z` or a signed `hh:mm` offset); and for every such reading
the rendered timestamp is `[hh:mm:ss.mmm]`: the hour zero-padded to two digits and below 24, the
minute and second as written, and `mmm` the first three digits of the fraction padded with zeros
(the fraction is truncated, not rounded, and gives `000` when it is absent). The zone does not
enter the result. The clock reading has twelve bytes, and the output of `pretty` is the header
line carrying this timestamp followed by the field listing. -/
theorem timestamp_as_written (lib : Lib) (htp : lib.timeParse = timeParseRFC3339)
    (input : GoString) (options : Option prettyOptions) (logData : GoMap) (s : GoString)
    (hdec : lib.unmarshal input = some logData)
    (htime : logData.lookup (Spec.timeKey options) = some (Value.string s)) :
    (Spec.rfc3339Valid s = true → (∀ c ∈ s, c ≠ 116 ∧ c ≠ 122) →
        (s.drop 17).take 2 ≠ str "60" → ∃ t, lib.timeParse s = some t)
      ∧ ∀ t, lib.timeParse s = some t →
        (∃ date hh mm ss fracPart zone, s = Spec.written date hh mm ss fracPart zone
            ∧ Spec.isReading date hh mm ss fracPart zone = true)
          ∧ ∀ date hh mm ss fracPart zone, s = Spec.written date hh mm ss fracPart zone →
              Spec.isReading date hh mm ss fracPart zone = true →
              digitsVal hh < 24 ∧ digitsVal mm < 60 ∧ digitsVal ss < 60
                ∧ (Spec.clock hh mm ss (fracPart.drop 1)).length = 12
                ∧ Spec.timestamp lib options logData
                    = some (str "[" ++ Spec.clock hh mm ss (fracPart.drop 1) ++ str "]")
                ∧ pretty lib input options
                    = Spec.header (Spec.config options).LevelFirst
                        (some (str "[" ++ Spec.clock hh mm ss (fracPart.drop 1) ++ str "]"))
                        (Spec.paintLevel (Spec.config options).Colorize
                          (stringAt logData (Spec.levelKey options)))
                        (Spec.paintMessage (Spec.config options).Colorize
                          (stringAt logData (Spec.msgKey options)))
                      ++ Spec.fieldSection options logData := by
  refine ⟨?_, ?_⟩
  · intro hv hup hsec
    rw [htp]
    exact timeParse_accepts_rfc3339 s hv hup hsec
  intro t hvalid
  have hv : timeParseRFC3339 s = some t := by rw [← htp]; exact hvalid
  refine ⟨?_, ?_⟩
  · obtain ⟨date, hh, mm, ss, fracPart, zone, hs, hr, _⟩ := timeParse_reading s t hv
    exact ⟨date, hh, mm, ss, fracPart, zone, hs, hr⟩
  · intro date hh mm ss fracPart zone hs hr
    rw [hs] at hv
    obtain ⟨hfmt, b1, b2, b3⟩ := timeParse_any_reading date hh mm ss fracPart zone t hr hv
    have hts : Spec.timestamp lib options logData
        = some (str "[" ++ Spec.clock hh mm ss (fracPart.drop 1) ++ str "]") := by
      simp only [Spec.timestamp, stringAt_of_lookup _ _ _ htime, hvalid, Option.map_some', hfmt]
    refine ⟨b1, b2, b3, clock_length date hh mm ss fracPart zone _ hr, hts, ?_⟩
    rw [pretty_eq_headerLine_fieldSection lib input options logData hdec, Spec.headerLine, hts]

/-- C11, as amended, on the time of the test suite (valid under RFC 3339, so accepted), on a
time with a zone offset and a fraction of four digits (cut to three without rounding), and on a
time without a fraction. -/
theorem timestamp_as_written_witness :
    (goLib.unmarshal lineInfoFoo = some recInfoFoo
      ∧ Spec.rfc3339Valid (str "2018-03-30T17:35:28.992Z") = true
      ∧ (∃ t, goLib.timeParse (str "2018-03-30T17:35:28.992Z") = some t)
      ∧ goLib.timeParse (str "2018-03-30T17:35:28.992Z") = some testTime
      ∧ Spec.timestamp goLib none recInfoFoo = some (str "[17:35:28.992]")
      ∧ pretty goLib lineInfoFoo none = str "[17:35:28.992] INFO: foo\n")
    ∧ (goLib.unmarshal lineOffsetTime = some recOffsetTime
      ∧ goLib.timeParse (str "2018-03-30T17:35:28.9996+02:00") = some ⟨17, 35, 28, 999600000⟩
      ∧ Spec.timestamp goLib none recOffsetTime = some (str "[17:35:28.999]")
      ∧ pretty goLib lineOffsetTime none = str "[17:35:28.999] INFO: foo\n")
    ∧ (goLib.unmarshal lineNoFraction = some recNoFraction
      ∧ goLib.timeParse (str "2018-03-30T07:05:09-05:00") = some ⟨7, 5, 9, 0⟩
      ∧ Spec.timestamp goLib none recNoFraction = some (str "[07:05:09.000]")
      ∧ pretty goLib lineNoFraction none = str "[07:05:09.000] INFO: foo\n") :=
  ⟨⟨rfl, by decide,
      (timestamp_as_written goLib rfl lineInfoFoo none recInfoFoo
        (str "2018-03-30T17:35:28.992Z") rfl rfl).1 (by decide) (by decide) (by decide),
      rfl,
      (((timestamp_as_written goLib rfl lineInfoFoo none recInfoFoo
        (str "2018-03-30T17:35:28.992Z") rfl rfl).2 testTime rfl).2
        (str "2018-03-30") (str "17") (str "35") (str "28") (str ".992") (str "Z")
        rfl rfl).2.2.2.2.1,
      (((timestamp_as_written goLib rfl lineInfoFoo none recInfoFoo
        (str "2018-03-30T17:35:28.992Z") rfl rfl).2 testTime rfl).2
        (str "2018-03-30") (str "17") (str "35") (str "28") (str ".992") (str "Z")
        rfl rfl).2.2.2.2.2⟩,
    ⟨rfl, rfl,
      (((timestamp_as_written goLib rfl lineOffsetTime none recOffsetTime
        (str "2018-03-30T17:35:28.9996+02:00") rfl rfl).2 ⟨17, 35, 28, 999600000⟩ rfl).2
        (str "2018-03-30") (str "17") (str "35") (str "28") (str ".9996") (str "+02:00")
        rfl rfl).2.2.2.2.1,
      (((timestamp_as_written goLib rfl lineOffsetTime none recOffsetTime
        (str "2018-03-30T17:35:28.9996+02:00") rfl rfl).2 ⟨17, 35, 28, 999600000⟩ rfl).2
        (str "2018-03-30") (str "17") (str "35") (str "28") (str ".9996") (str "+02:00")
        rfl rfl).2.2.2.2.2⟩,
    ⟨rfl, rfl,
      (((timestamp_as_written goLib rfl lineNoFraction none recNoFraction
        (str "2018-03-30T07:05:09-05:00") rfl rfl).2 ⟨7, 5, 9, 0⟩ rfl).2
        (str "2018-03-30") (str "07") (str "05") (str "09") [] (str "-05:00")
        rfl rfl).2.2.2.2.1,
      (((timestamp_as_written goLib rfl lineNoFraction none recNoFraction
        (str "2018-03-30T07:05:09-05:00") rfl rfl).2 ⟨7, 5, 9, 0⟩ rfl).2
        (str "2018-03-30") (str "07") (str "05") (str "09") [] (str "-05:00")
        rfl rfl).2.2.2.2.2⟩⟩

/-- C4 as stated fails on a time string that is not valid under RFC 3339 and that `time.Parse`
accepts all the same: with an hour of one digit (`2018-03-30T7:35:28Z`) or a comma before the
fraction (`2018-03-30T17:35:28,992Z`) the header carries a timestamp, so it is not
level + `: ` + message. -/
theorem lenient_time_is_rendered :
    Spec.rfc3339Valid (str "2018-03-30T7:35:28Z") = false
      ∧ goLib.unmarshal lineOneDigitHour = some recOneDigitHour
      ∧ recOneDigitHour.lookup (Spec.timeKey none)
          = some (Value.string (str "2018-03-30T7:35:28Z"))
      ∧ pretty goLib lineOneDigitHour none = str "[07:35:28.000] INFO: foo\n"
      ∧ pretty goLib lineOneDigitHour none ≠ str "INFO" ++ str ": " ++ str "foo" ++ str "\n"
      ∧ pretty goLib lineOneDigitHour (some { LevelFirst := true })
          = str "INFO [07:35:28.000]: foo\n"
      ∧ Spec.rfc3339Valid (str "2018-03-30T17:35:28,992Z") = false
      ∧ goLib.unmarshal lineCommaFraction = some recCommaFraction
      ∧ pretty goLib lineCommaFraction none = str "[17:35:28.992] INFO: foo\n"
      ∧ pretty goLib lineCommaFraction none ≠ str "INFO" ++ str ": " ++ str "foo" ++ str "\n" :=
  ⟨by decide, rfl, rfl, by decide, by decide, by decide, by decide, rfl, by decide, by decide⟩

/-- C11 as stated fails on a time string that is valid under RFC 3339 and that `time.Parse`
rejects: for the leap second `1990-12-31T23:59:60Z`, and for `2018-03-30t17:35:28.992z` written
in lower case, no timestamp is rendered at all, so the header does not carry `[23:59:60.000]` or
`[17:35:28.992]`. -/
theorem leap_second_has_no_timestamp :
    Spec.rfc3339Valid (str "1990-12-31T23:59:60Z") = true
      ∧ goLib.unmarshal lineLeapSecond = some recLeapSecond
      ∧ recLeapSecond.lookup (Spec.timeKey none)
          = some (Value.string (str "1990-12-31T23:59:60Z"))
      ∧ goLib.timeParse (str "1990-12-31T23:59:60Z") = none
      ∧ Spec.timestamp goLib none recLeapSecond = none
      ∧ pretty goLib lineLeapSecond none = str "INFO: foo\n"
      ∧ pretty goLib lineLeapSecond none ≠ str "[23:59:60.000] INFO: foo\n"
      ∧ Spec.rfc3339Valid (str "2018-03-30t17:35:28.992z") = true
      ∧ goLib.unmarshal lineLowerCase = some recLowerCase
      ∧ goLib.timeParse (str "2018-03-30t17:35:28.992z") = none
      ∧ pretty goLib lineLowerCase none = str "INFO: foo\n"
      ∧ pretty goLib lineLowerCase none ≠ str "[17:35:28.992] INFO: foo\n" :=
  ⟨by decide, rfl, rfl, rfl, rfl, by decide, by decide, by decide, rfl, rfl, by decide,
    by decide⟩

end SlogPretty
